import Mathlib

/-!
cursespp: focus traversal of `LayoutBase`, the geometry of `Scrollbar` and the
number dialogs of `SchemaOverlay`.

A shallow embedding of `src/LayoutBase.cpp`, `src/Scrollbar.cpp` and the two
functions `ShowIntOverlay` and `ShowDoubleOverlay` of `src/SchemaOverlay.cpp`.

The class `LayoutBase`.
A layout owns the vector `children` (insertion order), the derived vector
`focusable` and the integer `focused`, which is an index into `focusable` or one
of the two sentinels `AUTO_FOCUS = -1` and `NO_FOCUS = -2`.

* An `IWindowPtr` that may be null is an `Option IWindow`; the vectors only
  ever hold non-null pointers (`AddWindow` dereferences its argument).
* Calls made on child windows (`SetFrameColor`, `Blur`, `Focus`, `SetParent`)
  and emitted signals are returned as values next to the new state.
* `focusable[focused]` in `GetFocus` is an unchecked `operator[]`.  An access
  past the end is undefined behaviour; operations that go through `GetFocus`
  return `Option`, and `none` stands for such an access.
* `int` is `Int`.  The arithmetic on the focus index (`focused + 1`,
  `++focused`, `--focused`) and the cast `(int) focusable.size()` are the exact
  integers, which is what the source computes as long as no `int` overflows:
  for an index `focused` with `INT_MIN < focused < INT_MAX` and a vector of at
  most `INT_MAX` elements.  Traversal keeps the index between -2 and the size
  of the vector, but `SetFocusIndex` stores any `int`; at `focused = INT_MAX`
  the `focused + 1` of `FocusNext`, and at `focused = INT_MIN` the `--focused`
  of `FocusPrev`, overflow a signed `int`, which is undefined behaviour.
  Statements about `FocusNext` and `FocusPrev` from an arbitrary index carry
  these bounds as hypotheses.

The class `Scrollbar`.
`Scrollbar::Draw` is a function of the list height, the entry count of the
adapter, the `logicalIndex` of the scroll position and of whether it draws on the
list's own frame.  Its arithmetic is in `float`; `toFloat` rounds a rational to
binary32, and every conversion and operation of the source is the exact result
passed through `toFloat`, as on a target that evaluates `float` expressions in
`float` precision.
-/

namespace cursespp

/-! ## Definitions -/

/-- Sentinel of `LayoutBase.cpp` line 42: no explicit focus chosen yet. -/
def AUTO_FOCUS : Int := -1

/-- Sentinel of `LayoutBase.cpp` line 43: traversal ran off the end. -/
def NO_FOCUS : Int := -2

/-- The largest value of the 32-bit `int` the field `focused` is declared
with (`INT_MAX` of `<climits>`, included at `LayoutBase.cpp` line 36). -/
def INT_MAX : Int := 2147483647

/-- The smallest value of the 32-bit `int` (`INT_MIN` of `<climits>`). -/
def INT_MIN : Int := -2147483648

/-- A window object as far as the layout looks at it.  `ptr` is the address
held by the shared pointer (what `==` on `IWindowPtr` compares), `id` is the
result of `GetId()` and `focusOrder` the result of `GetFocusOrder()`. -/
structure IWindow where
  ptr : Nat
  id : Int
  focusOrder : Int
deriving DecidableEq, Repr

/-- The two end-of-list policies of `ILayout::FocusMode`. -/
inductive FocusMode where
  | FocusModeCircular
  | FocusModeTerminating
deriving DecidableEq, Repr

/-- Direction carried by the focus signals. -/
inductive FocusDirection where
  | FocusForward
  | FocusBackward
deriving DecidableEq, Repr

/-- The two `sigslot` signals a layout can raise from a traversal step. -/
inductive Signal where
  | FocusWrapped
  | FocusTerminated
deriving DecidableEq, Repr

/-- The two frame colours `adjustFocus` hands to `SetFrameColor`. -/
inductive FrameColor where
  | CURSESPP_DEFAULT_FRAME_COLOR
  | CURSESPP_FOCUSED_FRAME_COLOR
deriving DecidableEq, Repr

/-- A method call the layout makes on one of its child windows. -/
inductive Call where
  | SetFrameColor (w : IWindow) (c : FrameColor)
  | Blur (w : IWindow)
  | Focus (w : IWindow)
  | SetParent (w : IWindow)
deriving DecidableEq, Repr

/-- The loop of the template `find`, with the running counter `i`. -/
def findFrom {α : Type} [DecidableEq α] : List α → α → Int → Int
  | [], _, _ => -1
  | x :: xs, needle, i => if x = needle then i else findFrom xs needle (i + 1)

/-- The template `find`: index of the first element equal to `needle`,
or `-1`. -/
def find {α : Type} [DecidableEq α] (haystack : List α) (needle : α) : Int :=
  findFrom haystack needle 0

/-- The comparator `sortByFocusOrder`. -/
def sortByFocusOrder (a b : IWindow) : Bool :=
  let orderA := a.focusOrder
  let orderB := b.focusOrder
  if orderA = orderB then decide (a.id < b.id) else decide (orderA < orderB)

/-- The relation "`b` does not have to come before `a`" of a comparator. -/
def notAfter (comp : IWindow → IWindow → Bool) (a b : IWindow) : Prop :=
  comp b a = false

instance notAfter.decidableRel (comp : IWindow → IWindow → Bool) :
    DecidableRel (notAfter comp) :=
  fun a b => inferInstanceAs (Decidable (comp b a = false))

/-- The call `std::sort(first, last, comp)`, as an insertion sort: an element is
moved left past every element that `comp` puts after it.  On a range whose
elements are pairwise ordered by `comp` every sorting algorithm gives this
same result. -/
def stdSort (comp : IWindow → IWindow → Bool) (v : List IWindow) : List IWindow :=
  v.insertionSort (notAfter comp)

/-- The calls made by `adjustFocus(oldFocus, newFocus)`; its return value is
`newFocus` itself. -/
def adjustFocus (oldFocus newFocus : Option IWindow) : List Call :=
  (match oldFocus with
    | some o => [Call.SetFrameColor o FrameColor.CURSESPP_DEFAULT_FRAME_COLOR, Call.Blur o]
    | none => []) ++
  (match newFocus with
    | some n => [Call.SetFrameColor n FrameColor.CURSESPP_FOCUSED_FRAME_COLOR, Call.Focus n]
    | none => [])

/-- The fields of `LayoutBase` that focus handling reads and writes. -/
structure LayoutBase where
  children : List IWindow
  focusable : List IWindow
  focused : Int
  focusMode : FocusMode
deriving DecidableEq, Repr

/-- The constructor `LayoutBase::LayoutBase`. -/
def LayoutBase.new : LayoutBase :=
  { children := [], focusable := [], focused := AUTO_FOCUS,
    focusMode := FocusMode.FocusModeCircular }

/-- The local `focusedWindow` of `SortFocusables` and `IndexFocusables`:
`focusable.at(focused)` under the guard
`focused >= 0 && (int) focusable.size() > focused`, else null. -/
def focusedWindow (s : LayoutBase) : Option IWindow :=
  if 0 ≤ s.focused ∧ s.focused < (s.focusable.length : Int) then
    s.focusable[s.focused.toNat]?
  else none

/-- The method `LayoutBase::SortFocusables`. -/
def SortFocusables (s : LayoutBase) : LayoutBase × List Call :=
  let fw := focusedWindow s
  let sorted := stdSort sortByFocusOrder s.focusable
  let focused1 : Int :=
    match fw with
    | some w => find sorted w
    | none => s.focused
  if focused1 = AUTO_FOCUS ∧ 0 < sorted.length then
    ({ s with focusable := sorted, focused := 0 }, adjustFocus none sorted[0]?)
  else
    ({ s with focusable := sorted, focused := focused1 }, [])

/-- The method `LayoutBase::AddFocusable`. -/
def AddFocusable (s : LayoutBase) (window : IWindow) : LayoutBase × List Call :=
  let order := window.focusOrder
  if 0 ≤ order ∧ find s.focusable window < 0 then
    SortFocusables { s with focusable := s.focusable ++ [window] }
  else (s, [])

/-- What a structural operation hands back: the new state, the returned
`bool`, and the calls made on child windows, in order. -/
structure EditResult where
  state : LayoutBase
  ret : Bool
  calls : List Call
deriving DecidableEq, Repr

/-- The method `LayoutBase::AddWindow`. -/
def AddWindow (s : LayoutBase) (window : IWindow) : EditResult :=
  if 0 ≤ find s.children window then
    { state := s, ret := true, calls := [] }
  else
    let r := AddFocusable { s with children := s.children ++ [window] } window
    { state := r.1, ret := true, calls := Call.SetParent window :: r.2 }

/-- The method `LayoutBase::RemoveFocusable`: erase the first occurrence. -/
def RemoveFocusable (s : LayoutBase) (window : IWindow) : LayoutBase :=
  { s with focusable := s.focusable.erase window }

/-- The method `LayoutBase::RemoveWindow`. -/
def RemoveWindow (s : LayoutBase) (window : IWindow) : EditResult :=
  let s1 := RemoveFocusable s window
  if window ∈ s1.children then
    { state := { s1 with children := s1.children.erase window }, ret := true, calls := [] }
  else
    { state := s1, ret := false, calls := [] }

/-- The loop of `IndexFocusables`: `AddFocusable(children.at(i))` for each
child in turn, collecting the calls. -/
def indexLoop : List IWindow → LayoutBase × List Call → LayoutBase × List Call
  | [], acc => acc
  | c :: cs, acc =>
    let r := AddFocusable acc.1 c
    indexLoop cs (r.1, acc.2 ++ r.2)

/-- The method `LayoutBase::IndexFocusables`. -/
def IndexFocusables (s : LayoutBase) : LayoutBase × List Call :=
  let fw := focusedWindow s
  let r := indexLoop s.children ({ s with focusable := [] }, [])
  match fw with
  | some w => ({ r.1 with focused := find r.1.focusable w }, r.2)
  | none => r

/-- The method `LayoutBase::GetFocus`.  The outer `none` is the unchecked
`focusable[focused]` reading past the end; `some none` is the null pointer. -/
def GetFocus (s : LayoutBase) : Option (Option IWindow) :=
  if 0 ≤ s.focused ∧ 0 < s.focusable.length then
    (s.focusable[s.focused.toNat]?).map some
  else some none

/-- The method `LayoutBase::GetFocusIndex`. -/
def GetFocusIndex (s : LayoutBase) : Int := s.focused

/-- The method `LayoutBase::GetFocusableCount`. -/
def GetFocusableCount (s : LayoutBase) : Int := s.focusable.length

/-- The method `LayoutBase::GetFocusableAt`; `none` is the `out_of_range`
thrown by `vector::at`. -/
def GetFocusableAt (s : LayoutBase) (index : Int) : Option IWindow :=
  if 0 ≤ index then s.focusable[index.toNat]? else none

/-- The method `LayoutBase::SetFocusMode`. -/
def SetFocusMode (s : LayoutBase) (mode : FocusMode) : LayoutBase :=
  { s with focusMode := mode }

/-- What a traversal step hands back: the new state, the returned window
pointer, the calls made by `adjustFocus`, and the signal raised, if any. -/
structure FocusResult where
  state : LayoutBase
  ret : Option IWindow
  calls : List Call
  emitted : Option (Signal × FocusDirection)
deriving DecidableEq, Repr

/-- The branch of `FocusNext` that moves `focused` and picks `notify`.
`s.focused + 1` is the exact sum: it is the value of the source's
`this->focused + 1` and `++this->focused` for `s.focused < INT_MAX`; at
`s.focused = INT_MAX` the source overflows a signed `int` (undefined), and
this definition does not describe it there.  Likewise the cast
`(int) focusable.size()` is the length itself for at most `INT_MAX` elements. -/
def FocusNext.advance (s : LayoutBase) : Int × Option Signal :=
  if s.focused = NO_FOCUS ∧ s.focusMode = FocusMode.FocusModeTerminating then
    (s.focused, some Signal.FocusTerminated)
  else if s.focused + 1 ≥ AUTO_FOCUS then
    if s.focused + 1 ≥ (s.focusable.length : Int) then
      if s.focusMode = FocusMode.FocusModeCircular then (0, some Signal.FocusWrapped)
      else (NO_FOCUS, some Signal.FocusTerminated)
    else (s.focused + 1, none)
  else (s.focused, none)

/-- The method `LayoutBase::FocusNext`. -/
def FocusNext (s : LayoutBase) : Option FocusResult := do
  let oldFocus ← GetFocus s
  let step := FocusNext.advance s
  let s1 := { s with focused := step.1 }
  let newFocus ← GetFocus s1
  pure { state := s1, ret := newFocus, calls := adjustFocus oldFocus newFocus,
         emitted := step.2.map (fun n => (n, FocusDirection.FocusForward)) }

/-- The branch of `FocusPrev` that moves `focused` and picks `notify`.
`s.focused - 1` is the exact difference: it is the value of the source's
`--this->focused` for `INT_MIN < s.focused`; at `s.focused = INT_MIN` the
source overflows a signed `int` (undefined), and this definition does not
describe it there.  Likewise the cast `(int) focusable.size()` is the length
itself for at most `INT_MAX` elements. -/
def FocusPrev.retreat (s : LayoutBase) : Int × Option Signal :=
  if s.focused - 1 < 0 then
    if s.focusMode = FocusMode.FocusModeCircular then
      ((s.focusable.length : Int) - 1, some Signal.FocusWrapped)
    else (NO_FOCUS, some Signal.FocusTerminated)
  else (s.focused - 1, none)

/-- The method `LayoutBase::FocusPrev`. -/
def FocusPrev (s : LayoutBase) : Option FocusResult := do
  let oldFocus ← GetFocus s
  let step := FocusPrev.retreat s
  let s1 := { s with focused := step.1 }
  let newFocus ← GetFocus s1
  pure { state := s1, ret := newFocus, calls := adjustFocus oldFocus newFocus,
         emitted := step.2.map (fun n => (n, FocusDirection.FocusBackward)) }

/-- The method `LayoutBase::FocusFirst`. -/
def FocusFirst (s : LayoutBase) : Option FocusResult := do
  let oldFocus ← GetFocus s
  let s1 := { s with focused := 0 }
  let newFocus ← GetFocus s1
  pure { state := s1, ret := newFocus, calls := adjustFocus oldFocus newFocus,
         emitted := none }

/-- The method `LayoutBase::FocusLast`. -/
def FocusLast (s : LayoutBase) : Option FocusResult := do
  let oldFocus ← GetFocus s
  let s1 := { s with focused := (s.focusable.length : Int) - 1 }
  let newFocus ← GetFocus s1
  pure { state := s1, ret := newFocus, calls := adjustFocus oldFocus newFocus,
         emitted := none }

/-- The `for` loop of `SetFocus` over `focusable[i]`, from index `i` on, with
the `return false` that follows it. -/
def SetFocus.scan (s : LayoutBase) (focus : IWindow) :
    List IWindow → Nat → Option EditResult
  | [], _ => some { state := s, ret := false, calls := [] }
  | x :: xs, i =>
    if x = focus then do
      let old ← GetFocus s
      pure { state := { s with focused := (i : Int) }, ret := true,
             calls := adjustFocus old (some focus) }
    else SetFocus.scan s focus xs (i + 1)

/-- The method `LayoutBase::SetFocus`. -/
def SetFocus (s : LayoutBase) (focus : Option IWindow) : Option EditResult :=
  match focus with
  | none => do
    let old ← GetFocus s
    pure { state := { s with focused := AUTO_FOCUS }, ret := true,
           calls := adjustFocus old none }
  | some w => SetFocus.scan s w s.focusable 0

/-- The method `FocusNext` called `n` times in a row, nothing in between:
the state after the last call and what each call handed back, first call
first. -/
def FocusNextN : Nat → LayoutBase → Option (LayoutBase × List FocusResult)
  | 0, s => some (s, [])
  | n + 1, s => do
    let r ← FocusNext s
    let rest ← FocusNextN n r.state
    pure (rest.1, r :: rest.2)

/-- The focus index is one of the two sentinels or a concrete index into
the focusable vector. -/
def ValidFocus (s : LayoutBase) : Prop :=
  s.focused = AUTO_FOCUS ∨ s.focused = NO_FOCUS ∨
    (0 ≤ s.focused ∧ s.focused < (s.focusable.length : Int))

instance ValidFocus.decidable (s : LayoutBase) : Decidable (ValidFocus s) :=
  inferInstanceAs (Decidable (_ ∨ _ ∨ (_ ∧ _)))

/-- The focus index is a sentinel, a concrete index, or the index 0 of a
layout without focusable windows, the case `GetFocus` tests `size() > 0`
for. -/
def GuardedFocus (s : LayoutBase) : Prop :=
  ValidFocus s ∨ (s.focused = 0 ∧ s.focusable = [])

/-- A call made by the owner of a layout. -/
inductive Op where
  | AddWindow (window : IWindow)
  | RemoveWindow (window : IWindow)
  | FocusNext
  | FocusPrev
  | FocusFirst
  | FocusLast
  | SetFocus (focus : Option IWindow)
  | SetFocusMode (mode : FocusMode)
deriving DecidableEq, Repr

/-- Whether the call is a `RemoveWindow`. -/
def Op.isRemoveWindow : Op → Bool
  | Op.RemoveWindow _ => true
  | _ => false

/-- The state after one call; `none` when the call reads `focusable[focused]`
out of range. -/
def Op.step (s : LayoutBase) : Op → Option LayoutBase
  | Op.AddWindow w => some (cursespp.AddWindow s w).state
  | Op.RemoveWindow w => some (cursespp.RemoveWindow s w).state
  | Op.FocusNext => (cursespp.FocusNext s).map FocusResult.state
  | Op.FocusPrev => (cursespp.FocusPrev s).map FocusResult.state
  | Op.FocusFirst => (cursespp.FocusFirst s).map FocusResult.state
  | Op.FocusLast => (cursespp.FocusLast s).map FocusResult.state
  | Op.SetFocus focus => (cursespp.SetFocus s focus).map EditResult.state
  | Op.SetFocusMode mode => some (cursespp.SetFocusMode s mode)

/-- The state after a sequence of calls, first call first. -/
def runOps : LayoutBase → List Op → Option LayoutBase
  | s, [] => some s
  | s, op :: ops => (op.step s).bind (fun t => runOps t ops)

/-- A sample session that uses every call but `RemoveWindow`. -/
def exampleOps : List Op :=
  [Op.FocusFirst, Op.AddWindow ⟨401, 1, 3⟩, Op.AddWindow ⟨402, 2, 1⟩, Op.FocusNext,
   Op.SetFocusMode FocusMode.FocusModeTerminating, Op.FocusNext, Op.FocusPrev,
   Op.FocusLast, Op.SetFocus (some ⟨402, 2, 1⟩), Op.SetFocus none, Op.AddWindow ⟨403, 3, 0⟩]

/-- The layout a fresh one becomes by `AddWindow` of a window with id 1 and
focus order 0, `AddWindow` of a window with id 2 and focus order 1, and one
`FocusNext`: both windows focusable, the focus on the second. -/
def twoWindowLayout : LayoutBase :=
  { children := [⟨301, 1, 0⟩, ⟨302, 2, 1⟩], focusable := [⟨301, 1, 0⟩, ⟨302, 2, 1⟩],
    focused := 1, focusMode := FocusMode.FocusModeCircular }

/-- A circular layout over the example windows, focus on index 2. -/
def circularLayout : LayoutBase :=
  { children := [⟨101, 1, 2⟩, ⟨102, 2, 2⟩, ⟨103, 3, 1⟩, ⟨104, 4, 3⟩, ⟨105, 5, 1⟩],
    focusable := [⟨103, 3, 1⟩, ⟨105, 5, 1⟩, ⟨101, 1, 2⟩, ⟨102, 2, 2⟩, ⟨104, 4, 3⟩],
    focused := 2, focusMode := FocusMode.FocusModeCircular }

/-- A terminating layout with three focusable windows, focus on the last. -/
def terminatingLayout : LayoutBase :=
  { children := [⟨201, 1, 0⟩, ⟨202, 2, 1⟩, ⟨203, 3, 2⟩],
    focusable := [⟨201, 1, 0⟩, ⟨202, 2, 1⟩, ⟨203, 3, 2⟩],
    focused := 2, focusMode := FocusMode.FocusModeTerminating }

/-- The strict order `sortByFocusOrder` decides, as a proposition:
focus order ascending, ties broken by id ascending. -/
def focusBefore (a b : IWindow) : Prop :=
  a.focusOrder < b.focusOrder ∨ (a.focusOrder = b.focusOrder ∧ a.id < b.id)

/-- The consistency of the two vectors of a layout: no window is held
twice, `focusable` holds exactly the children with a non-negative focus order,
and it is in the order `std::sort` leaves it in. -/
structure WellFormed (s : LayoutBase) : Prop where
  children_nodup : s.children.Nodup
  focusable_nodup : s.focusable.Nodup
  mem_focusable : ∀ w, w ∈ s.focusable ↔ w ∈ s.children ∧ 0 ≤ w.focusOrder
  sorted : s.focusable.Sorted (notAfter sortByFocusOrder)

/-- A structural call made by the owner of a layout. -/
inductive Edit where
  | AddWindow (window : IWindow)
  | RemoveWindow (window : IWindow)
deriving DecidableEq, Repr

/-- The window an edit is about. -/
def Edit.window : Edit → IWindow
  | Edit.AddWindow w => w
  | Edit.RemoveWindow w => w

/-- The state after one structural call. -/
def Edit.apply (s : LayoutBase) : Edit → LayoutBase
  | Edit.AddWindow w => (cursespp.AddWindow s w).state
  | Edit.RemoveWindow w => (cursespp.RemoveWindow s w).state

/-- The state after a sequence of structural calls, first call first. -/
def applyEdits (s : LayoutBase) (es : List Edit) : LayoutBase :=
  es.foldl Edit.apply s

/-- The layout obtained from a fresh one by `AddWindow` on each window of
the list, in list order. -/
def addAll (ws : List IWindow) : LayoutBase :=
  ws.foldl (fun s w => (AddWindow s w).state) LayoutBase.new

/-- A sample history: three focusable windows and one that is not, added
out of order, the first of them removed again and one added twice. -/
def exampleEdits : List Edit :=
  [Edit.AddWindow ⟨12, 2, 5⟩, Edit.AddWindow ⟨11, 1, 5⟩, Edit.AddWindow ⟨13, 3, -1⟩,
   Edit.AddWindow ⟨14, 4, 0⟩, Edit.RemoveWindow ⟨12, 2, 5⟩, Edit.AddWindow ⟨14, 4, 0⟩]

/-- The five windows of the worked example: ids 1..5 with focus orders
2, 2, 1, 3, 1. -/
def exampleWindows : List IWindow :=
  [⟨101, 1, 2⟩, ⟨102, 2, 2⟩, ⟨103, 3, 1⟩, ⟨104, 4, 3⟩, ⟨105, 5, 1⟩]

/-- Where the focus is: the index is non-negative and the focusable vector
holds `w` at it. -/
def FocusOn (s : LayoutBase) (w : IWindow) : Prop :=
  0 ≤ s.focused ∧ s.focusable[s.focused.toNat]? = some w

/-- The method `LayoutBase::SetFocusIndex`: the new state and the calls made
by `adjustFocus`. -/
def SetFocusIndex (s : LayoutBase) (index : Int) : Option (LayoutBase × List Call) :=
  if s.focused ≠ index then do
    let oldFocus ← GetFocus s
    let s1 := { s with focused := index }
    let newFocus ← GetFocus s1
    pure (s1, adjustFocus oldFocus newFocus)
  else some (s, [])

/-- The method `FocusPrev` called `n` times in a row, nothing in between:
the state after the last call and what each call handed back, first call
first. -/
def FocusPrevN : Nat → LayoutBase → Option (LayoutBase × List FocusResult)
  | 0, s => some (s, [])
  | n + 1, s => do
    let r ← FocusPrev s
    let rest ← FocusPrevN n r.state
    pure (rest.1, r :: rest.2)

/-! ### `float` arithmetic and `Scrollbar::Draw`

`Scrollbar::Draw` computes the thumb row in `float`.  A `float` is an IEEE 754
binary32 number, that is a rational with a significand of 24 bits, and each
conversion and each arithmetic operation returns the exact result rounded to
the nearest such number, ties to the even significand.  `toFloat` is that
rounding on the rationals, with the exponent left unbounded: the values that
arise in `Draw` are 0 or lie between `2 ^ (-64)` and `2 ^ 95`, inside the normal
range of binary32, so neither overflow nor subnormal numbers come into play. -/

/-- Rounding to the nearest integer, a tie going to the even neighbour. -/
def roundHalfEven (x : ℚ) : ℤ :=
  if x - ⌊x⌋ < 1 / 2 then ⌊x⌋
  else if 1 / 2 < x - ⌊x⌋ then ⌊x⌋ + 1
  else if ⌊x⌋ % 2 = 0 then ⌊x⌋ else ⌊x⌋ + 1

/-- The spacing of the `float` numbers in the binade of `x`: with
`2 ^ e ≤ |x| < 2 ^ (e + 1)` it is `2 ^ (e - 23)`. -/
def ulp (x : ℚ) : ℚ := 2 ^ (Int.log 2 |x| - 23)

/-- The `float` nearest to `x`: what `(float) x` and every `float` operation
with exact result `x` return. -/
def toFloat (x : ℚ) : ℚ :=
  if x = 0 then 0 else (roundHalfEven (x / ulp x) : ℚ) * ulp x

/-- The conversion `(int) x` of a `float`: truncation toward zero. -/
def truncate (x : ℚ) : ℤ := if 0 ≤ x then ⌊x⌋ else ⌈x⌉

namespace Scrollbar

/-- The local `minY` of `Draw`: 1 when the target is absent or is the list
itself (`onList`), 0 for an external target. -/
def minY (onList : Bool) : Nat := if onList then 1 else 0

/-- The local `from` of `Draw`: the first row the loop visits. -/
def firstRow (onList : Bool) : Int := if onList then 1 else 0

/-- The local `to` of `Draw`: the row the loop stops before. -/
def endRow (height : Int) (onList : Bool) : Int := if onList then height - 1 else height

/-- The usable range as an integer: the height less the two border rows on
the list's own frame, the height on an external target. -/
def usableRange (height : Int) (onList : Bool) : Int :=
  if onList then height - 2 else height

/-- The local `range` of `Draw`: `(float) height`, and `range -= 2.0f` on the
list's own frame. -/
def range (height : Int) (onList : Bool) : ℚ :=
  if onList then toFloat (toFloat (height : ℚ) - 2) else toFloat (height : ℚ)

/-- The local `total` of `Draw`: `(float) std::max(minY, GetEntryCount())`. -/
def total (entryCount : Nat) (onList : Bool) : ℚ :=
  toFloat ((max (minY onList) entryCount : Nat) : ℚ)

/-- The local `percent` of `Draw`: `(float) pos.logicalIndex / total`. -/
def percent (entryCount logicalIndex : Nat) (onList : Bool) : ℚ :=
  toFloat (toFloat (logicalIndex : ℚ) / total entryCount onList)

/-- The product `range * percent` of `Draw`, a `float`. -/
def scaled (height : Int) (entryCount logicalIndex : Nat) (onList : Bool) : ℚ :=
  toFloat (range height onList * percent entryCount logicalIndex onList)

/-- The local `yOffset` of `Draw`: -1 when `range >= total`, else
`(int)(range * percent) + minY`.  The conversion to `int` is undefined when the
truncated value does not fit 32 bits; `none` stands for that. -/
def yOffset (height : Int) (entryCount logicalIndex : Nat) (onList : Bool) : Option Int :=
  if range height onList ≥ total entryCount onList then some (-1)
  else if -(2 ^ 31 : ℚ) - 1 < scaled height entryCount logicalIndex onList ∧
      scaled height entryCount logicalIndex onList < 2 ^ 31 then
    some (truncate (scaled height entryCount logicalIndex onList) + (minY onList : Int))
  else none

/-- The formula of the specification for the thumb offset, arithmetic taken
exactly: `floor((logicalIndex / max(1, total)) * R) + B`. -/
def exactOffset (height : Int) (entryCount logicalIndex : Nat) (onList : Bool) : Int :=
  ⌊((logicalIndex : ℚ) / ((max 1 entryCount : Nat) : ℚ)) *
      ((usableRange height onList : Int) : ℚ)⌋ +
    (minY onList : Int)

/-- The same formula with the division and the multiplication each rounded
to `float`, in the order the code multiplies. -/
def floatOffset (height : Int) (entryCount logicalIndex : Nat) (onList : Bool) : Int :=
  ⌊toFloat (((usableRange height onList : Int) : ℚ) *
      toFloat ((logicalIndex : ℚ) / ((max 1 entryCount : Nat) : ℚ)))⌋ +
    (minY onList : Int)

/-- The method `Scrollbar::Draw`, for the list height, the entry count of the
adapter, the `logicalIndex` of the scroll position and the drawing context: the
rows written, top to bottom, each with whether it is written in reverse video
(the thumb).  Nothing is written for a height of at most 2. -/
def Draw (height : Int) (entryCount logicalIndex : Nat) (onList : Bool) :
    Option (List (Int × Bool)) :=
  if height > 2 then
    (yOffset height entryCount logicalIndex onList).map (fun y =>
      (List.range (endRow height onList - firstRow onList).toNat).map
        (fun (k : Nat) =>
          (firstRow onList + (k : Int), decide (firstRow onList + (k : Int) = y))))
  else some []

end Scrollbar

/-! ### `SchemaOverlay`: the number dialogs

`ShowIntOverlay` and `ShowDoubleOverlay` of `src/SchemaOverlay.cpp` each build a
lambda `handler` and an `InputOverlay`, and hand one callback to
`SetInputAcceptedCallback`.  The title, text, validator and width they also set
do not enter that callback and are left out of the record. -/

namespace SchemaOverlay

/-- What running a callback does that can be seen from outside: a write to
the preferences, or a call of the code the caller supplied. -/
inductive Effect where
  | SetInt (name : String) (value : Int)
  | SetDouble (name : String) (value : ℚ)
  | CallerCode (value : String)
deriving DecidableEq, Repr

/-- The target of a `std::function<void(std::string)>`: the effects of a call,
or `none` when the call throws. -/
abbrev Callback := String → Option (List Effect)

/-- Calling a `std::function`; an empty one throws `std::bad_function_call`. -/
def call (f : Option Callback) (value : String) : Option (List Effect) :=
  match f with
  | some cb => cb value
  | none => none

/-- The statement `if (callback) { callback(value); }` of the handlers. -/
def callIfSet (callback : Option Callback) (value : String) : Option (List Effect) :=
  match callback with
  | some cb => cb value
  | none => some []

/-- The conversion `(int) d` of a `double` with value `d`: truncation, undefined
(`none`) when the result does not fit 32 bits. -/
def toInt (d : ℚ) : Option Int :=
  if -(2 ^ 31 : ℚ) - 1 < d ∧ d < 2 ^ 31 then some (truncate d) else none

/-- The part of `ISchema::IntEntry` the dialog reads. -/
structure IntEntry where
  name : String
  minValue : Int
  maxValue : Int
  defaultValue : Int
deriving DecidableEq, Repr

/-- The part of `ISchema::DoubleEntry` the dialog reads. -/
structure DoubleEntry where
  name : String
  minValue : ℚ
  maxValue : ℚ
  defaultValue : ℚ
  precision : Int
deriving DecidableEq, Repr

/-- The `InputOverlay` a `Show...Overlay` function pushes, as far as accepted
input goes: the argument of `SetInputAcceptedCallback`. -/
structure InputOverlay where
  inputAcceptedCallback : Option Callback

/-- The lambda `handler` of `ShowIntOverlay`:
`prefs->SetInt(name, (int) std::stod(value)); if (callback) { callback(value); }`.
The library function `std::stod` is the parameter `stod`, `none` where it
throws. -/
def ShowIntOverlay.handler (stod : String → Option ℚ) (name : String)
    (callback : Option Callback) : Callback :=
  fun value => do
    let d ← stod value
    let i ← toInt d
    let rest ← callIfSet callback value
    pure (Effect.SetInt name i :: rest)

/-- The lambda `handler` of `ShowDoubleOverlay`:
`prefs->SetDouble(name, std::stod(value)); if (callback) { callback(value); }`. -/
def ShowDoubleOverlay.handler (stod : String → Option ℚ) (name : String)
    (callback : Option Callback) : Callback :=
  fun value => do
    let d ← stod value
    let rest ← callIfSet callback value
    pure (Effect.SetDouble name d :: rest)

/-- The function `SchemaOverlay::ShowIntOverlay`: the dialog it pushes.  The
source builds `handler` and then passes `callback` to
`SetInputAcceptedCallback`. -/
def ShowIntOverlay (stod : String → Option ℚ) (entry : IntEntry)
    (callback : Option Callback) : InputOverlay :=
  let name := entry.name
  let _handler := ShowIntOverlay.handler stod name callback
  { inputAcceptedCallback := callback }

/-- The function `SchemaOverlay::ShowDoubleOverlay`: the dialog it pushes. -/
def ShowDoubleOverlay (stod : String → Option ℚ) (entry : DoubleEntry)
    (callback : Option Callback) : InputOverlay :=
  let name := entry.name
  let handler := ShowDoubleOverlay.handler stod name callback
  { inputAcceptedCallback := some handler }

/-- A stand-in for `std::stod` on three inputs: `"42"`, `"3.9"`, and a string
that is not a number. -/
def sampleStod (s : String) : Option ℚ :=
  if s = "42" then some 42 else if s = "3.9" then some (39 / 10) else none

/-- A caller's callback that does nothing but run the caller's code. -/
def sampleCallback : Callback := fun value => some [Effect.CallerCode value]

/-- An integer setting named `volume`. -/
def sampleIntEntry : IntEntry :=
  { name := "volume", minValue := 0, maxValue := 100, defaultValue := 50 }

/-- A real-valued setting named `volume`. -/
def sampleDoubleEntry : DoubleEntry :=
  { name := "volume", minValue := 0, maxValue := 100, defaultValue := 50, precision := 2 }

end SchemaOverlay

/-! ## Lemmas and theorems -/

/-! ## The template `find` -/

theorem findFrom_eq {α : Type} [DecidableEq α] (l : List α) (x : α) (i : Int) :
    findFrom l x i = if x ∈ l then i + (l.indexOf x : Int) else -1 := by
  induction l generalizing i with
  | nil => simp [findFrom]
  | cons y ys ih =>
    by_cases h : y = x
    · subst h
      simp [findFrom]
    · have h2 : ¬ x = y := fun e => h e.symm
      simp only [findFrom, if_neg h, ih, List.mem_cons, h2, false_or]
      split
      · rw [List.indexOf_cons_ne _ h]
        push_cast
        omega
      · rfl

theorem find_eq {α : Type} [DecidableEq α] (l : List α) (x : α) :
    find l x = if x ∈ l then (l.indexOf x : Int) else -1 := by
  simp [find, findFrom_eq]

theorem find_of_mem {α : Type} [DecidableEq α] {l : List α} {x : α} (h : x ∈ l) :
    find l x = (l.indexOf x : Int) := by
  simp [find_eq, h]

theorem find_of_not_mem {α : Type} [DecidableEq α] {l : List α} {x : α} (h : x ∉ l) :
    find l x = -1 := by
  simp [find_eq, h]

theorem find_nonneg_iff {α : Type} [DecidableEq α] (l : List α) (x : α) :
    0 ≤ find l x ↔ x ∈ l := by
  rw [find_eq]
  split <;> simp_all

theorem find_neg_iff {α : Type} [DecidableEq α] (l : List α) (x : α) :
    find l x < 0 ↔ x ∉ l := by
  rw [find_eq]
  split <;> simp_all

theorem getElem?_find {α : Type} [DecidableEq α] {l : List α} {x : α} (h : x ∈ l) :
    l[(find l x).toNat]? = some x := by
  rw [find_of_mem h]
  simp only [Int.toNat_ofNat]
  rw [List.getElem?_eq_getElem (List.indexOf_lt_length.2 h)]
  simp

theorem find_lt_length {α : Type} [DecidableEq α] {l : List α} {x : α} (h : x ∈ l) :
    find l x < (l.length : Int) := by
  rw [find_of_mem h]
  exact_mod_cast List.indexOf_lt_length.2 h

theorem find_of_nodup_getElem? {α : Type} [DecidableEq α] {l : List α} {x : α} {i : Nat}
    (hn : l.Nodup) (h : l[i]? = some x) : find l x = (i : Int) := by
  obtain ⟨hi, hx⟩ := List.getElem?_eq_some.1 h
  have hm : x ∈ l := hx ▸ List.getElem_mem hi
  rw [find_of_mem hm]
  have : l.indexOf x = i := by
    subst hx
    exact List.indexOf_getElem hn i hi
  exact_mod_cast this

/-! ## The comparator and `std::sort` -/

theorem sortByFocusOrder_iff (a b : IWindow) :
    sortByFocusOrder a b = true ↔ focusBefore a b := by
  unfold sortByFocusOrder focusBefore
  by_cases h : a.focusOrder = b.focusOrder
  · simp [h]
  · simp only [h, if_false, decide_eq_true_eq, false_and, or_false]

theorem notAfter_iff (a b : IWindow) :
    notAfter sortByFocusOrder a b ↔ ¬ focusBefore b a := by
  unfold notAfter
  rw [← sortByFocusOrder_iff]
  simp

theorem stdSort_perm (comp : IWindow → IWindow → Bool) (v : List IWindow) :
    (stdSort comp v).Perm v :=
  List.perm_insertionSort _ v

theorem mem_stdSort (comp : IWindow → IWindow → Bool) (v : List IWindow) (w : IWindow) :
    w ∈ stdSort comp v ↔ w ∈ v :=
  (stdSort_perm comp v).mem_iff

theorem length_stdSort (comp : IWindow → IWindow → Bool) (v : List IWindow) :
    (stdSort comp v).length = v.length :=
  (stdSort_perm comp v).length_eq

theorem stdSort_sorted (v : List IWindow) :
    (stdSort sortByFocusOrder v).Sorted (notAfter sortByFocusOrder) := by
  haveI : IsTotal IWindow (notAfter sortByFocusOrder) := ⟨by
    intro a b
    simp only [notAfter_iff, focusBefore]
    omega⟩
  haveI : IsTrans IWindow (notAfter sortByFocusOrder) := ⟨by
    intro a b c
    simp only [notAfter_iff, focusBefore]
    omega⟩
  exact List.sorted_insertionSort _ v

/-- A duplicate-free range sorted by the comparator, whose windows have
pairwise distinct ids, is strictly ascending in (focus order, id). -/
theorem strictly_sorted_of_sorted {l : List IWindow}
    (hs : l.Sorted (notAfter sortByFocusOrder)) (hn : l.Nodup)
    (hid : ∀ a ∈ l, ∀ b ∈ l, a.id = b.id → a = b) : l.Sorted focusBefore := by
  have h := List.Pairwise.and hs hn
  refine List.Pairwise.imp_of_mem ?_ h
  intro a b ha hb hab
  obtain ⟨h1, h2⟩ := hab
  have h3 : a.id ≠ b.id := fun e => h2 (hid a ha b hb e)
  rw [notAfter_iff] at h1
  unfold focusBefore at h1 ⊢
  omega

/-- Two strictly ascending ranges with the same elements are equal. -/
theorem eq_of_strictly_sorted {l₁ l₂ : List IWindow}
    (h₁ : l₁.Sorted focusBefore) (h₂ : l₂.Sorted focusBefore)
    (hm : ∀ w, w ∈ l₁ ↔ w ∈ l₂) : l₁ = l₂ := by
  haveI : IsIrrefl IWindow focusBefore := ⟨by
    intro a
    unfold focusBefore
    omega⟩
  haveI : IsAntisymm IWindow focusBefore := ⟨by
    intro a b
    unfold focusBefore
    omega⟩
  have hp : l₁.Perm l₂ := (List.perm_ext_iff_of_nodup h₁.nodup h₂.nodup).2 hm
  exact List.eq_of_perm_of_sorted hp h₁ h₂

/-! ## Structural operations -/

theorem SortFocusables_focusable (s : LayoutBase) :
    (SortFocusables s).1.focusable = stdSort sortByFocusOrder s.focusable := by
  unfold SortFocusables
  simp only
  split <;> rfl

theorem SortFocusables_children (s : LayoutBase) :
    (SortFocusables s).1.children = s.children := by
  unfold SortFocusables
  simp only
  split <;> rfl

theorem SortFocusables_focusMode (s : LayoutBase) :
    (SortFocusables s).1.focusMode = s.focusMode := by
  unfold SortFocusables
  simp only
  split <;> rfl

theorem AddFocusable_children (s : LayoutBase) (w : IWindow) :
    (AddFocusable s w).1.children = s.children := by
  unfold AddFocusable
  simp only
  split
  · rw [SortFocusables_children]
  · rfl

theorem AddFocusable_focusMode (s : LayoutBase) (w : IWindow) :
    (AddFocusable s w).1.focusMode = s.focusMode := by
  unfold AddFocusable
  simp only
  split
  · rw [SortFocusables_focusMode]
  · rfl

theorem AddFocusable_focusable (s : LayoutBase) (w : IWindow) :
    (AddFocusable s w).1.focusable =
      if 0 ≤ w.focusOrder ∧ w ∉ s.focusable then
        stdSort sortByFocusOrder (s.focusable ++ [w])
      else s.focusable := by
  unfold AddFocusable
  simp only [find_neg_iff]
  split
  · rw [SortFocusables_focusable]
  · rfl

theorem mem_AddFocusable (s : LayoutBase) (w x : IWindow) :
    x ∈ (AddFocusable s w).1.focusable ↔
      x ∈ s.focusable ∨ (x = w ∧ 0 ≤ w.focusOrder) := by
  rw [AddFocusable_focusable]
  split
  · rename_i h
    simp only [mem_stdSort, List.mem_append, List.mem_singleton]
    constructor
    · rintro (h1 | h1)
      · exact Or.inl h1
      · exact Or.inr ⟨h1, h.1⟩
    · rintro (h1 | h1)
      · exact Or.inl h1
      · exact Or.inr h1.1
  · rename_i h
    constructor
    · exact Or.inl
    · rintro (h1 | ⟨h1, h2⟩)
      · exact h1
      · subst h1
        by_contra hx
        exact h ⟨h2, hx⟩

theorem AddWindow_children (s : LayoutBase) (w : IWindow) :
    (AddWindow s w).state.children =
      if w ∈ s.children then s.children else s.children ++ [w] := by
  unfold AddWindow
  simp only [find_nonneg_iff]
  split
  · rfl
  · simp only [AddFocusable_children]

theorem AddWindow_focusable (s : LayoutBase) (w : IWindow) :
    (AddWindow s w).state.focusable =
      if w ∉ s.children ∧ 0 ≤ w.focusOrder ∧ w ∉ s.focusable then
        stdSort sortByFocusOrder (s.focusable ++ [w])
      else s.focusable := by
  unfold AddWindow
  simp only [find_nonneg_iff]
  by_cases h : w ∈ s.children
  · simp [h]
  · simp only [h, if_false, not_false_eq_true, true_and, AddFocusable_focusable]

theorem AddWindow_focusMode (s : LayoutBase) (w : IWindow) :
    (AddWindow s w).state.focusMode = s.focusMode := by
  unfold AddWindow
  split
  · rfl
  · simp only [AddFocusable_focusMode]

theorem RemoveWindow_children (s : LayoutBase) (w : IWindow) :
    (RemoveWindow s w).state.children = s.children.erase w := by
  unfold RemoveWindow RemoveFocusable
  simp only
  split
  · rfl
  · rename_i h
    exact (List.erase_of_not_mem h).symm

theorem RemoveWindow_focusable (s : LayoutBase) (w : IWindow) :
    (RemoveWindow s w).state.focusable = s.focusable.erase w := by
  unfold RemoveWindow RemoveFocusable
  simp only
  split <;> rfl

theorem RemoveWindow_focused (s : LayoutBase) (w : IWindow) :
    (RemoveWindow s w).state.focused = s.focused := by
  unfold RemoveWindow RemoveFocusable
  simp only
  split <;> rfl

/-! ## Consistency of `children` and `focusable` under add and remove -/

theorem WellFormed_new : WellFormed LayoutBase.new :=
  { children_nodup := List.nodup_nil
    focusable_nodup := List.nodup_nil
    mem_focusable := by intro w; simp [LayoutBase.new]
    sorted := List.sorted_nil }

theorem WellFormed_AddWindow {s : LayoutBase} (h : WellFormed s) (w : IWindow) :
    WellFormed (AddWindow s w).state := by
  by_cases hc : w ∈ s.children
  · have e1 : (AddWindow s w).state.children = s.children := by
      rw [AddWindow_children, if_pos hc]
    have e2 : (AddWindow s w).state.focusable = s.focusable := by
      rw [AddWindow_focusable]
      simp [hc]
    exact
      { children_nodup := e1 ▸ h.children_nodup
        focusable_nodup := e2 ▸ h.focusable_nodup
        mem_focusable := by rw [e1, e2]; exact h.mem_focusable
        sorted := e2 ▸ h.sorted }
  · have e1 : (AddWindow s w).state.children = s.children ++ [w] := by
      rw [AddWindow_children, if_neg hc]
    have hf : w ∉ s.focusable := fun hw => hc ((h.mem_focusable w).1 hw).1
    have hcn : (s.children ++ [w]).Nodup := by
      rw [List.nodup_append]
      refine ⟨h.children_nodup, List.nodup_singleton w, ?_⟩
      intro a ha hb
      rw [List.mem_singleton] at hb
      exact hc (hb ▸ ha)
    by_cases ho : 0 ≤ w.focusOrder
    · have e2 : (AddWindow s w).state.focusable =
          stdSort sortByFocusOrder (s.focusable ++ [w]) := by
        rw [AddWindow_focusable, if_pos ⟨hc, ho, hf⟩]
      have hfn : (s.focusable ++ [w]).Nodup := by
        rw [List.nodup_append]
        refine ⟨h.focusable_nodup, List.nodup_singleton w, ?_⟩
        intro a ha hb
        rw [List.mem_singleton] at hb
        exact hf (hb ▸ ha)
      exact
        { children_nodup := e1 ▸ hcn
          focusable_nodup := by
            rw [e2]
            exact (stdSort_perm _ _).nodup_iff.2 hfn
          mem_focusable := by
            intro x
            rw [e1, e2, mem_stdSort, List.mem_append, List.mem_append,
              List.mem_singleton, h.mem_focusable x]
            constructor
            · rintro (h1 | h1)
              · exact ⟨Or.inl h1.1, h1.2⟩
              · exact ⟨Or.inr h1, h1 ▸ ho⟩
            · rintro ⟨h1 | h1, h2⟩
              · exact Or.inl ⟨h1, h2⟩
              · exact Or.inr h1
          sorted := by
            rw [e2]
            exact stdSort_sorted _ }
    · have e2 : (AddWindow s w).state.focusable = s.focusable := by
        rw [AddWindow_focusable]
        simp [ho]
      exact
        { children_nodup := e1 ▸ hcn
          focusable_nodup := e2 ▸ h.focusable_nodup
          mem_focusable := by
            intro x
            rw [e1, e2, List.mem_append, List.mem_singleton, h.mem_focusable x]
            constructor
            · rintro ⟨h1, h2⟩
              exact ⟨Or.inl h1, h2⟩
            · rintro ⟨h1 | h1, h2⟩
              · exact ⟨h1, h2⟩
              · exact absurd (h1 ▸ h2) ho
          sorted := e2 ▸ h.sorted }

theorem WellFormed_RemoveWindow {s : LayoutBase} (h : WellFormed s) (w : IWindow) :
    WellFormed (RemoveWindow s w).state :=
  { children_nodup := by
      rw [RemoveWindow_children]
      exact h.children_nodup.erase w
    focusable_nodup := by
      rw [RemoveWindow_focusable]
      exact h.focusable_nodup.erase w
    mem_focusable := by
      intro x
      rw [RemoveWindow_children, RemoveWindow_focusable,
        h.focusable_nodup.mem_erase_iff, h.children_nodup.mem_erase_iff,
        h.mem_focusable x]
      tauto
    sorted := by
      rw [RemoveWindow_focusable]
      exact List.Pairwise.sublist (List.erase_sublist w s.focusable) h.sorted }

theorem WellFormed_apply {s : LayoutBase} (h : WellFormed s) (e : Edit) :
    WellFormed (e.apply s) := by
  cases e with
  | AddWindow w => exact WellFormed_AddWindow h w
  | RemoveWindow w => exact WellFormed_RemoveWindow h w

theorem WellFormed_applyEdits (es : List Edit) {s : LayoutBase} (h : WellFormed s) :
    WellFormed (applyEdits s es) := by
  induction es generalizing s with
  | nil => exact h
  | cons e es ih => exact ih (WellFormed_apply h e)

theorem children_apply_subset (s : LayoutBase) (e : Edit) (x : IWindow)
    (hx : x ∈ (e.apply s).children) : x ∈ s.children ∨ x = e.window := by
  cases e with
  | AddWindow w =>
    simp only [Edit.apply, AddWindow_children] at hx
    split at hx
    · exact Or.inl hx
    · simpa [Edit.window] using hx
  | RemoveWindow w =>
    simp only [Edit.apply, RemoveWindow_children] at hx
    exact Or.inl (List.mem_of_mem_erase hx)

theorem children_applyEdits_subset (es : List Edit) (s : LayoutBase) (x : IWindow)
    (hx : x ∈ (applyEdits s es).children) :
    x ∈ s.children ∨ x ∈ es.map Edit.window := by
  induction es generalizing s with
  | nil => exact Or.inl hx
  | cons e es ih =>
    rcases ih (e.apply s) hx with h1 | h1
    · rcases children_apply_subset s e x h1 with h2 | h2
      · exact Or.inl h2
      · exact Or.inr (by simp [h2])
    · exact Or.inr (by simp only [List.map_cons, List.mem_cons]; exact Or.inr h1)

/-- In a consistent layout whose children have pairwise distinct ids the
focusable vector is the sorted vector of the focusable children. -/
theorem focusable_eq_sort_filter {s : LayoutBase} (h : WellFormed s)
    (hid : ∀ a ∈ s.children, ∀ b ∈ s.children, a.id = b.id → a = b) :
    s.focusable.Sorted focusBefore ∧
    s.focusable =
      stdSort sortByFocusOrder (s.children.filter (fun w => decide (0 ≤ w.focusOrder))) := by
  have hsub : ∀ a ∈ s.focusable, a ∈ s.children := fun a ha => ((h.mem_focusable a).1 ha).1
  have hs : s.focusable.Sorted focusBefore :=
    strictly_sorted_of_sorted h.sorted h.focusable_nodup
      (fun a ha b hb => hid a (hsub a ha) b (hsub b hb))
  refine ⟨hs, eq_of_strictly_sorted hs ?_ ?_⟩
  · refine strictly_sorted_of_sorted (stdSort_sorted _) ?_ ?_
    · exact (stdSort_perm _ _).nodup_iff.2 (h.children_nodup.filter _)
    · intro a ha b hb
      rw [mem_stdSort] at ha hb
      exact hid a (List.mem_filter.1 ha).1 b (List.mem_filter.1 hb).1
  · intro w
    rw [mem_stdSort, List.mem_filter, h.mem_focusable w]
    simp

theorem addAll_eq_applyEdits (ws : List IWindow) :
    addAll ws = applyEdits LayoutBase.new (ws.map Edit.AddWindow) := by
  unfold addAll applyEdits
  rw [List.foldl_map]
  rfl

theorem WellFormed_addAll (ws : List IWindow) : WellFormed (addAll ws) := by
  rw [addAll_eq_applyEdits]
  exact WellFormed_applyEdits _ WellFormed_new

theorem mem_children_foldl_AddWindow (ws : List IWindow) (s : LayoutBase) (x : IWindow) :
    x ∈ (ws.foldl (fun s w => (AddWindow s w).state) s).children ↔
      x ∈ s.children ∨ x ∈ ws := by
  induction ws generalizing s with
  | nil => simp
  | cons w ws ih =>
    rw [List.foldl_cons, ih, AddWindow_children]
    split
    · rename_i hw
      simp only [List.mem_cons]
      constructor
      · rintro (h | h)
        · exact Or.inl h
        · exact Or.inr (Or.inr h)
      · rintro (h | h | h)
        · exact Or.inl h
        · exact Or.inl (h ▸ hw)
        · exact Or.inr h
    · simp only [List.mem_append, List.mem_singleton, List.mem_cons]
      tauto

theorem mem_children_addAll (ws : List IWindow) (x : IWindow) :
    x ∈ (addAll ws).children ↔ x ∈ ws := by
  unfold addAll
  rw [mem_children_foldl_AddWindow]
  simp [LayoutBase.new]

/-- Adding the same windows, with pairwise distinct ids, in two orders gives
the same focusable vector. -/
theorem addAll_focusable_of_perm {l₁ l₂ : List IWindow} (hp : l₁.Perm l₂)
    (hid : ∀ a ∈ l₁, ∀ b ∈ l₁, a.id = b.id → a = b) :
    (addAll l₁).focusable = (addAll l₂).focusable := by
  have h₁ := focusable_eq_sort_filter (WellFormed_addAll l₁) (by
    intro a ha b hb
    rw [mem_children_addAll] at ha hb
    exact hid a ha b hb)
  have h₂ := focusable_eq_sort_filter (WellFormed_addAll l₂) (by
    intro a ha b hb
    rw [mem_children_addAll] at ha hb
    exact hid a (hp.mem_iff.2 ha) b (hp.mem_iff.2 hb))
  refine eq_of_strictly_sorted h₁.1 h₂.1 ?_
  intro w
  rw [(WellFormed_addAll l₁).mem_focusable, (WellFormed_addAll l₂).mem_focusable,
    mem_children_addAll, mem_children_addAll, hp.mem_iff]

/-! ## C1, C2: the focusable vector -/

/-- C1: after any sequence of `AddWindow` and `RemoveWindow` calls on a fresh
layout, over windows with pairwise distinct ids, the focusable vector has no
duplicates, holds exactly the current children whose focus order is at least
zero, is strictly ascending in (focus order, id), and so equals the sorted
vector of those children. -/
theorem C1_focusable_is_sorted_focusable_children (es : List Edit)
    (hid : ∀ a ∈ es.map Edit.window, ∀ b ∈ es.map Edit.window, a.id = b.id → a = b) :
    (applyEdits LayoutBase.new es).focusable.Nodup ∧
    (∀ w, w ∈ (applyEdits LayoutBase.new es).focusable ↔
      w ∈ (applyEdits LayoutBase.new es).children ∧ 0 ≤ w.focusOrder) ∧
    (applyEdits LayoutBase.new es).focusable.Sorted focusBefore ∧
    (applyEdits LayoutBase.new es).focusable =
      stdSort sortByFocusOrder
        ((applyEdits LayoutBase.new es).children.filter
          (fun w => decide (0 ≤ w.focusOrder))) := by
  have hw : WellFormed (applyEdits LayoutBase.new es) :=
    WellFormed_applyEdits es WellFormed_new
  have hsub : ∀ a ∈ (applyEdits LayoutBase.new es).children, a ∈ es.map Edit.window := by
    intro a ha
    rcases children_applyEdits_subset es LayoutBase.new a ha with h | h
    · simp [LayoutBase.new] at h
    · exact h
  have h := focusable_eq_sort_filter hw
    (fun a ha b hb => hid a (hsub a ha) b (hsub b hb))
  exact ⟨hw.focusable_nodup, hw.mem_focusable, h.1, h.2⟩

/-- The statement of C1 at the sample history `exampleEdits`. -/
theorem C1_witness :
    (∀ a ∈ exampleEdits.map Edit.window, ∀ b ∈ exampleEdits.map Edit.window,
      a.id = b.id → a = b) ∧
    (applyEdits LayoutBase.new exampleEdits).focusable = [⟨14, 4, 0⟩, ⟨11, 1, 5⟩] ∧
    (applyEdits LayoutBase.new exampleEdits).focusable.Sorted focusBefore :=
  ⟨by decide, by decide,
   (C1_focusable_is_sorted_focusable_children exampleEdits (by decide)).2.2.1⟩

/-- C2: the focusable vector does not depend on the order of insertion.  Two
permutations of a list of windows with pairwise distinct ids, each added to a
fresh layout with `AddWindow`, leave the same focusable vector, so
`GetFocusableAt` agrees at every index; and the windows with ids 1..5 and focus
orders 2, 2, 1, 3, 1 end up in the order 3, 5, 1, 2, 4 whatever order they are
added in. -/
theorem C2_focusable_independent_of_insertion_order (l₁ l₂ : List IWindow)
    (hp : l₁.Perm l₂) (hid : ∀ a ∈ l₁, ∀ b ∈ l₁, a.id = b.id → a = b) :
    (addAll l₁).focusable = (addAll l₂).focusable ∧
    (∀ i : Int, GetFocusableAt (addAll l₁) i = GetFocusableAt (addAll l₂) i) ∧
    (l₁.Perm exampleWindows →
      (addAll l₁).focusable.map IWindow.id = [3, 5, 1, 2, 4]) := by
  have h := addAll_focusable_of_perm hp hid
  refine ⟨h, ?_, ?_⟩
  · intro i
    unfold GetFocusableAt
    rw [h]
  · intro he
    rw [addAll_focusable_of_perm he hid]
    decide

/-- The statement of C2 at the example windows and their reversal. -/
theorem C2_witness :
    exampleWindows.reverse.Perm exampleWindows ∧
    (∀ a ∈ exampleWindows.reverse, ∀ b ∈ exampleWindows.reverse, a.id = b.id → a = b) ∧
    (addAll exampleWindows.reverse).focusable = (addAll exampleWindows).focusable ∧
    (addAll exampleWindows.reverse).focusable.map IWindow.id = [3, 5, 1, 2, 4] :=
  ⟨List.reverse_perm _, by decide,
   (C2_focusable_independent_of_insertion_order exampleWindows.reverse exampleWindows
      (List.reverse_perm _) (by decide)).1,
   (C2_focusable_independent_of_insertion_order exampleWindows.reverse exampleWindows
      (List.reverse_perm _) (by decide)).2.2 (List.reverse_perm _)⟩

/-! ## Traversal -/

theorem GetFocus_concrete {s : LayoutBase} {i : Nat} (h : s.focused = (i : Int))
    (hi : i < s.focusable.length) : GetFocus s = some (s.focusable[i]?) := by
  unfold GetFocus
  have h0 : 0 < s.focusable.length := by omega
  rw [h]
  simp only [Int.toNat_ofNat, Int.ofNat_zero_le, h0, and_self, if_true]
  rw [List.getElem?_eq_getElem hi]
  rfl

theorem GetFocus_negative {s : LayoutBase} (h : s.focused < 0) : GetFocus s = some none := by
  unfold GetFocus
  rw [if_neg]
  omega

theorem GetFocus_empty {s : LayoutBase} (h : s.focusable = []) : GetFocus s = some none := by
  unfold GetFocus
  rw [if_neg]
  simp [h]

theorem FocusNext_eq {s : LayoutBase} {o n : Option IWindow} (h₁ : GetFocus s = some o)
    (h₂ : GetFocus { s with focused := (FocusNext.advance s).1 } = some n) :
    FocusNext s = some
      { state := { s with focused := (FocusNext.advance s).1 }, ret := n,
        calls := adjustFocus o n,
        emitted := (FocusNext.advance s).2.map (fun x => (x, FocusDirection.FocusForward)) } := by
  unfold FocusNext
  simp [h₁, h₂]

theorem FocusPrev_eq {s : LayoutBase} {o n : Option IWindow} (h₁ : GetFocus s = some o)
    (h₂ : GetFocus { s with focused := (FocusPrev.retreat s).1 } = some n) :
    FocusPrev s = some
      { state := { s with focused := (FocusPrev.retreat s).1 }, ret := n,
        calls := adjustFocus o n,
        emitted := (FocusPrev.retreat s).2.map (fun x => (x, FocusDirection.FocusBackward)) } := by
  unfold FocusPrev
  simp [h₁, h₂]

theorem advance_inner {s : LayoutBase} {i : Nat} (h : s.focused = (i : Int))
    (hi : i + 1 < s.focusable.length) :
    FocusNext.advance s = (((i + 1 : Nat) : Int), none) := by
  unfold FocusNext.advance
  have h1 : ¬ (s.focused = NO_FOCUS ∧ s.focusMode = FocusMode.FocusModeTerminating) := by
    unfold NO_FOCUS
    omega
  have h2 : s.focused + 1 ≥ AUTO_FOCUS := by
    unfold AUTO_FOCUS
    omega
  have h3 : ¬ s.focused + 1 ≥ (s.focusable.length : Int) := by omega
  rw [if_neg h1, if_pos h2, if_neg h3, h]
  rfl

theorem advance_last_circular {s : LayoutBase}
    (hm : s.focusMode = FocusMode.FocusModeCircular)
    (h : s.focused = (s.focusable.length : Int) - 1) :
    FocusNext.advance s = (0, some Signal.FocusWrapped) := by
  unfold FocusNext.advance
  have h1 : ¬ (s.focused = NO_FOCUS ∧ s.focusMode = FocusMode.FocusModeTerminating) := by
    rw [hm]
    simp
  have h2 : s.focused + 1 ≥ AUTO_FOCUS := by
    unfold AUTO_FOCUS
    omega
  have h3 : s.focused + 1 ≥ (s.focusable.length : Int) := by omega
  rw [if_neg h1, if_pos h2, if_pos h3, if_pos hm]

theorem advance_last_terminating {s : LayoutBase}
    (hm : s.focusMode = FocusMode.FocusModeTerminating)
    (h : s.focused = (s.focusable.length : Int) - 1) :
    FocusNext.advance s = (NO_FOCUS, some Signal.FocusTerminated) := by
  unfold FocusNext.advance
  have h2 : s.focused + 1 ≥ AUTO_FOCUS := by
    unfold AUTO_FOCUS
    omega
  have h3 : s.focused + 1 ≥ (s.focusable.length : Int) := by omega
  have h4 : ¬ s.focusMode = FocusMode.FocusModeCircular := by
    rw [hm]
    simp
  by_cases h1 : s.focused = NO_FOCUS ∧ s.focusMode = FocusMode.FocusModeTerminating
  · rw [if_pos h1, h1.1]
  · rw [if_neg h1, if_pos h2, if_pos h3, if_neg h4]

theorem advance_terminated {s : LayoutBase}
    (hm : s.focusMode = FocusMode.FocusModeTerminating) (h : s.focused = NO_FOCUS) :
    FocusNext.advance s = (NO_FOCUS, some Signal.FocusTerminated) := by
  unfold FocusNext.advance
  rw [if_pos ⟨h, hm⟩, h]

/-- A forward step from a concrete index that is not the last one. -/
theorem FocusNext_inner {s : LayoutBase} {i : Nat} (h : s.focused = (i : Int))
    (hi : i + 1 < s.focusable.length) :
    FocusNext s = some
      { state := { s with focused := ((i + 1 : Nat) : Int) }, ret := s.focusable[i + 1]?,
        calls := adjustFocus s.focusable[i]? s.focusable[i + 1]?, emitted := none } := by
  have h₁ : GetFocus s = some (s.focusable[i]?) := GetFocus_concrete h (by omega)
  have ha := advance_inner h hi
  have h₂ : GetFocus { s with focused := (FocusNext.advance s).1 } =
      some (s.focusable[i + 1]?) := by
    rw [ha]
    exact GetFocus_concrete (s := { s with focused := ((i + 1 : Nat) : Int) }) rfl hi
  rw [FocusNext_eq h₁ h₂, ha]
  rfl

/-- A forward step from the last index in circular mode. -/
theorem FocusNext_wrap {s : LayoutBase} (hm : s.focusMode = FocusMode.FocusModeCircular)
    (hlen : 1 ≤ s.focusable.length) (h : s.focused = (s.focusable.length : Int) - 1) :
    FocusNext s = some
      { state := { s with focused := 0 }, ret := s.focusable[0]?,
        calls := adjustFocus s.focusable[s.focusable.length - 1]? s.focusable[0]?,
        emitted := some (Signal.FocusWrapped, FocusDirection.FocusForward) } := by
  have h' : s.focused = ((s.focusable.length - 1 : Nat) : Int) := by omega
  have h₁ : GetFocus s = some (s.focusable[s.focusable.length - 1]?) :=
    GetFocus_concrete h' (by omega)
  have ha := advance_last_circular hm h
  have h₂ : GetFocus { s with focused := (FocusNext.advance s).1 } =
      some (s.focusable[0]?) := by
    rw [ha]
    exact GetFocus_concrete (s := { s with focused := 0 }) (i := 0) rfl
      (show 0 < s.focusable.length by omega)
  rw [FocusNext_eq h₁ h₂, ha]
  rfl

/-- A forward step from the last index in terminating mode. -/
theorem FocusNext_terminate {s : LayoutBase}
    (hm : s.focusMode = FocusMode.FocusModeTerminating)
    (hlen : 1 ≤ s.focusable.length) (h : s.focused = (s.focusable.length : Int) - 1) :
    FocusNext s = some
      { state := { s with focused := NO_FOCUS }, ret := none,
        calls := adjustFocus s.focusable[s.focusable.length - 1]? none,
        emitted := some (Signal.FocusTerminated, FocusDirection.FocusForward) } := by
  have h' : s.focused = ((s.focusable.length - 1 : Nat) : Int) := by omega
  have h₁ : GetFocus s = some (s.focusable[s.focusable.length - 1]?) :=
    GetFocus_concrete h' (by omega)
  have ha := advance_last_terminating hm h
  have h₂ : GetFocus { s with focused := (FocusNext.advance s).1 } = some none := by
    rw [ha]
    exact GetFocus_negative (s := { s with focused := NO_FOCUS })
      (show NO_FOCUS < 0 by decide)
  rw [FocusNext_eq h₁ h₂, ha]
  rfl

/-- A forward step from the terminated sentinel in terminating mode. -/
theorem FocusNext_terminated {s : LayoutBase}
    (hm : s.focusMode = FocusMode.FocusModeTerminating) (h : s.focused = NO_FOCUS) :
    FocusNext s = some
      { state := s, ret := none, calls := [],
        emitted := some (Signal.FocusTerminated, FocusDirection.FocusForward) } := by
  have hneg : s.focused < 0 := by
    rw [h]
    decide
  have h₁ : GetFocus s = some none := GetFocus_negative hneg
  have ha := advance_terminated hm h
  have hs : { s with focused := (FocusNext.advance s).1 } = s := by
    rw [ha, ← h]
  have h₂ : GetFocus { s with focused := (FocusNext.advance s).1 } = some none := by
    rw [hs]
    exact h₁
  rw [FocusNext_eq h₁ h₂, hs, ha]
  rfl

theorem FocusNextN_succ {s : LayoutBase} {r : FocusResult} {n : Nat} {t : LayoutBase}
    {rs : List FocusResult} (h₁ : FocusNext s = some r)
    (h₂ : FocusNextN n r.state = some (t, rs)) :
    FocusNextN (n + 1) s = some (t, r :: rs) := by
  simp [FocusNextN, h₁, h₂]

theorem FocusNextN_add {s t u : LayoutBase} {a b : Nat} {rs₁ rs₂ : List FocusResult}
    (h₁ : FocusNextN a s = some (t, rs₁)) (h₂ : FocusNextN b t = some (u, rs₂)) :
    FocusNextN (a + b) s = some (u, rs₁ ++ rs₂) := by
  induction a generalizing s rs₁ with
  | zero =>
    simp only [FocusNextN, Option.some.injEq, Prod.mk.injEq] at h₁
    obtain ⟨e1, e2⟩ := h₁
    subst e1 e2
    simpa using h₂
  | succ a ih =>
    simp only [FocusNextN, Option.bind_eq_bind, Option.pure_def] at h₁
    cases hr : FocusNext s with
    | none => simp [hr] at h₁
    | some r =>
      simp only [hr, Option.some_bind] at h₁
      cases hrest : FocusNextN a r.state with
      | none => simp [hrest] at h₁
      | some rest =>
        simp only [hrest, Option.some_bind, Option.some.injEq, Prod.mk.injEq] at h₁
        obtain ⟨e1, e2⟩ := h₁
        have hr1 : FocusNextN a r.state = some (t, rest.2) := by rw [hrest, ← e1]
        have h3 := ih hr1
        have e : a + 1 + b = (a + b) + 1 := by omega
        rw [e, FocusNextN_succ hr h3, ← e2]
        rfl

/-- Forward steps that stay below the last index: `k` steps from index `i`
end on index `i + k`, and none of them raises a signal. -/
theorem FocusNextN_inner (k : Nat) {s : LayoutBase} {i : Nat} (h : s.focused = (i : Int))
    (hik : i + k < s.focusable.length) :
    ∃ rs, FocusNextN k s = some ({ s with focused := ((i + k : Nat) : Int) }, rs) ∧
      rs.map FocusResult.emitted = List.replicate k none := by
  induction k generalizing s i with
  | zero =>
    refine ⟨[], ?_, rfl⟩
    simp only [FocusNextN, Nat.add_zero, ← h]
  | succ k ih =>
    obtain ⟨r, hstep, hst, hem⟩ : ∃ r, FocusNext s = some r ∧
        r.state = { s with focused := ((i + 1 : Nat) : Int) } ∧ r.emitted = none :=
      ⟨_, FocusNext_inner h (show i + 1 < s.focusable.length by omega), rfl, rfl⟩
    obtain ⟨rs, h1, h2⟩ := ih (s := { s with focused := ((i + 1 : Nat) : Int) }) (i := i + 1)
      rfl (show i + 1 + k < s.focusable.length by omega)
    have h1r : FocusNextN k r.state = some
        ({ s with focused := ((i + (k + 1) : Nat) : Int) }, rs) := by
      have e : i + (k + 1) = i + 1 + k := by omega
      rw [hst, e]
      exact h1
    refine ⟨r :: rs, FocusNextN_succ hstep h1r, ?_⟩
    simp only [List.map_cons, h2, hem, List.replicate_succ]

/-! ## C3, C4, C5: forward and backward steps -/

/-- C3: in circular mode, from a concrete index `i` of a layout with `M ≥ 1`
focusable windows, `M` calls of `FocusNext` in a row all return, end in the
starting state (focus index `i`, hence the starting window), and exactly one of
them, the call number `M - i`, raises `FocusWrapped(FocusForward)` while the
other `M - 1` raise nothing. -/
theorem C3_circular_full_cycle (s : LayoutBase) (i : Nat)
    (hm : s.focusMode = FocusMode.FocusModeCircular) (h : s.focused = (i : Int))
    (hi : i < s.focusable.length) :
    ∃ rs, FocusNextN s.focusable.length s = some (s, rs) ∧
      rs.length = s.focusable.length ∧
      rs.map FocusResult.emitted =
        List.replicate (s.focusable.length - 1 - i) none ++
          some (Signal.FocusWrapped, FocusDirection.FocusForward) :: List.replicate i none ∧
      (rs.map FocusResult.emitted).count
        (some (Signal.FocusWrapped, FocusDirection.FocusForward)) = 1 ∧
      (rs.map FocusResult.emitted).count none = s.focusable.length - 1 := by
  obtain ⟨rs₁, h1, e1⟩ := FocusNextN_inner (s.focusable.length - 1 - i) h (by omega)
  have hlast : ({ s with focused := ((i + (s.focusable.length - 1 - i) : Nat) : Int) } :
      LayoutBase).focused = (s.focusable.length : Int) - 1 := by
    show ((i + (s.focusable.length - 1 - i) : Nat) : Int) = (s.focusable.length : Int) - 1
    omega
  obtain ⟨r, h2, hst, hem⟩ : ∃ r,
      FocusNext { s with focused := ((i + (s.focusable.length - 1 - i) : Nat) : Int) } = some r ∧
      r.state = { s with focused := 0 } ∧
      r.emitted = some (Signal.FocusWrapped, FocusDirection.FocusForward) :=
    ⟨_, FocusNext_wrap (s := { s with focused :=
      ((i + (s.focusable.length - 1 - i) : Nat) : Int) }) hm
      (show 1 ≤ s.focusable.length by omega) hlast, rfl, rfl⟩
  obtain ⟨rs₃, h3, e3⟩ := FocusNextN_inner i (s := { s with focused := 0 }) (i := 0) rfl
    (show 0 + i < s.focusable.length by omega)
  have hback : ({ s with focused := ((0 + i : Nat) : Int) } : LayoutBase) = s := by
    rw [Nat.zero_add, ← h]
  rw [hback] at h3
  have h3r : FocusNextN i r.state = some (s, rs₃) := by
    rw [hst]
    exact h3
  have h23 := FocusNextN_succ h2 h3r
  have hall := FocusNextN_add h1 h23
  have hM : s.focusable.length - 1 - i + (i + 1) = s.focusable.length := by omega
  rw [hM] at hall
  have hev : (rs₁ ++ r :: rs₃).map FocusResult.emitted =
      List.replicate (s.focusable.length - 1 - i) none ++
        some (Signal.FocusWrapped, FocusDirection.FocusForward) :: List.replicate i none := by
    rw [List.map_append, List.map_cons, e1, e3, hem]
  refine ⟨rs₁ ++ r :: rs₃, hall, ?_, hev, ?_, ?_⟩
  · have hl := congrArg List.length hev
    simp only [List.length_map, List.length_append, List.length_cons,
      List.length_replicate] at hl
    simp only [List.length_append, List.length_cons]
    omega
  · rw [hev]
    simp [List.count_replicate]
  · rw [hev]
    simp [List.count_replicate]
    omega

/-- The statement of C3 at `circularLayout`: five steps from index 2. -/
theorem C3_witness :
    circularLayout.focusMode = FocusMode.FocusModeCircular ∧
    circularLayout.focused = ((2 : Nat) : Int) ∧ 2 < circularLayout.focusable.length ∧
    ∃ rs, FocusNextN 5 circularLayout = some (circularLayout, rs) ∧
      rs.map FocusResult.emitted =
        [none, none, some (Signal.FocusWrapped, FocusDirection.FocusForward), none, none] :=
  ⟨rfl, rfl, by decide,
   (C3_circular_full_cycle circularLayout 2 rfl rfl (by decide)).imp
     (fun _ h => ⟨h.1, h.2.2.1⟩)⟩

/-- C4: in terminating mode, `FocusNext` from the last index of a layout
with `M ≥ 1` focusable windows sets the focus index to the terminated sentinel,
returns no window and raises `FocusTerminated(FocusForward)`; from then on any
number of further `FocusNext` calls each leave the state as it is, make no call
on any window, return no window and raise `FocusTerminated(FocusForward)`. -/
theorem C4_terminating_past_the_end (s : LayoutBase)
    (hm : s.focusMode = FocusMode.FocusModeTerminating)
    (hlen : 1 ≤ s.focusable.length) (h : s.focused = (s.focusable.length : Int) - 1) :
    FocusNext s = some
      { state := { s with focused := NO_FOCUS }, ret := none,
        calls := adjustFocus s.focusable[s.focusable.length - 1]? none,
        emitted := some (Signal.FocusTerminated, FocusDirection.FocusForward) } ∧
    ∀ n : Nat, FocusNextN n { s with focused := NO_FOCUS } = some
      ({ s with focused := NO_FOCUS },
        List.replicate n
          { state := { s with focused := NO_FOCUS }, ret := none, calls := [],
            emitted := some (Signal.FocusTerminated, FocusDirection.FocusForward) }) := by
  refine ⟨FocusNext_terminate hm hlen h, ?_⟩
  intro n
  induction n with
  | zero => rfl
  | succ n ih =>
    have hstep := FocusNext_terminated (s := { s with focused := NO_FOCUS }) hm rfl
    rw [FocusNextN_succ hstep ih]
    rfl

/-- The statement of C4 at `terminatingLayout`, with four further steps. -/
theorem C4_witness :
    terminatingLayout.focusMode = FocusMode.FocusModeTerminating ∧
    1 ≤ terminatingLayout.focusable.length ∧
    terminatingLayout.focused = (terminatingLayout.focusable.length : Int) - 1 ∧
    FocusNextN 4 { terminatingLayout with focused := NO_FOCUS } = some
      ({ terminatingLayout with focused := NO_FOCUS },
        List.replicate 4
          { state := { terminatingLayout with focused := NO_FOCUS }, ret := none, calls := [],
            emitted := some (Signal.FocusTerminated, FocusDirection.FocusForward) }) :=
  ⟨rfl, by decide, by decide,
   (C4_terminating_past_the_end terminatingLayout rfl (by decide) (by decide)).2 4⟩

theorem retreat_first_circular {s : LayoutBase}
    (hm : s.focusMode = FocusMode.FocusModeCircular) (h : s.focused = 0) :
    FocusPrev.retreat s = ((s.focusable.length : Int) - 1, some Signal.FocusWrapped) := by
  unfold FocusPrev.retreat
  have h1 : s.focused - 1 < 0 := by omega
  rw [if_pos h1, if_pos hm]

theorem retreat_inner {s : LayoutBase} {i : Nat} (h : s.focused = ((i + 1 : Nat) : Int)) :
    FocusPrev.retreat s = ((i : Int), none) := by
  unfold FocusPrev.retreat
  have h1 : ¬ s.focused - 1 < 0 := by omega
  have h2 : s.focused - 1 = (i : Int) := by omega
  rw [if_neg h1, h2]

/-- A backward step from index 0 in circular mode. -/
theorem FocusPrev_wrap {s : LayoutBase} (hm : s.focusMode = FocusMode.FocusModeCircular)
    (hlen : 1 ≤ s.focusable.length) (h : s.focused = 0) :
    FocusPrev s = some
      { state := { s with focused := (s.focusable.length : Int) - 1 },
        ret := s.focusable[s.focusable.length - 1]?,
        calls := adjustFocus s.focusable[0]? s.focusable[s.focusable.length - 1]?,
        emitted := some (Signal.FocusWrapped, FocusDirection.FocusBackward) } := by
  have h₁ : GetFocus s = some (s.focusable[0]?) :=
    GetFocus_concrete (i := 0) h (by omega)
  have ha := retreat_first_circular hm h
  have h₂ : GetFocus { s with focused := (FocusPrev.retreat s).1 } =
      some (s.focusable[s.focusable.length - 1]?) := by
    rw [ha]
    exact GetFocus_concrete (s := { s with focused := (s.focusable.length : Int) - 1 })
      (i := s.focusable.length - 1)
      (show (s.focusable.length : Int) - 1 = ((s.focusable.length - 1 : Nat) : Int) by omega)
      (show s.focusable.length - 1 < s.focusable.length by omega)
  rw [FocusPrev_eq h₁ h₂, ha]
  rfl

/-- A backward step from a concrete index that is not the first one. -/
theorem FocusPrev_inner {s : LayoutBase} {i : Nat} (h : s.focused = ((i + 1 : Nat) : Int))
    (hi : i + 1 < s.focusable.length) :
    FocusPrev s = some
      { state := { s with focused := (i : Int) }, ret := s.focusable[i]?,
        calls := adjustFocus s.focusable[i + 1]? s.focusable[i]?, emitted := none } := by
  have h₁ : GetFocus s = some (s.focusable[i + 1]?) := GetFocus_concrete h hi
  have ha := retreat_inner h
  have h₂ : GetFocus { s with focused := (FocusPrev.retreat s).1 } =
      some (s.focusable[i]?) := by
    rw [ha]
    exact GetFocus_concrete (s := { s with focused := (i : Int) }) rfl
      (show i < s.focusable.length by omega)
  rw [FocusPrev_eq h₁ h₂, ha]
  rfl

/-- C5: in circular mode with `M ≥ 1` focusable windows, `FocusNext` from the
last index moves the focus to index 0, returns `focusable[0]` and raises
`FocusWrapped(FocusForward)`; `FocusPrev` from index 0 moves the focus to index
`M - 1`, returns `focusable[M - 1]` and raises `FocusWrapped(FocusBackward)`;
`FocusNext` from an index below the last, and `FocusPrev` from an index above
the first, move the index by exactly one, return the window there and raise
nothing. -/
theorem C5_circular_wrap_and_single_step (s : LayoutBase)
    (hm : s.focusMode = FocusMode.FocusModeCircular) (hlen : 1 ≤ s.focusable.length) :
    (s.focused = (s.focusable.length : Int) - 1 →
      (s.focusable[0]?).isSome = true ∧
      FocusNext s = some
        { state := { s with focused := 0 }, ret := s.focusable[0]?,
          calls := adjustFocus s.focusable[s.focusable.length - 1]? s.focusable[0]?,
          emitted := some (Signal.FocusWrapped, FocusDirection.FocusForward) }) ∧
    (s.focused = 0 →
      (s.focusable[s.focusable.length - 1]?).isSome = true ∧
      FocusPrev s = some
        { state := { s with focused := (s.focusable.length : Int) - 1 },
          ret := s.focusable[s.focusable.length - 1]?,
          calls := adjustFocus s.focusable[0]? s.focusable[s.focusable.length - 1]?,
          emitted := some (Signal.FocusWrapped, FocusDirection.FocusBackward) }) ∧
    (∀ i : Nat, s.focused = (i : Int) → i + 1 < s.focusable.length →
      FocusNext s = some
        { state := { s with focused := s.focused + 1 }, ret := s.focusable[i + 1]?,
          calls := adjustFocus s.focusable[i]? s.focusable[i + 1]?, emitted := none }) ∧
    (∀ i : Nat, s.focused = (i : Int) + 1 → i + 1 < s.focusable.length →
      FocusPrev s = some
        { state := { s with focused := s.focused - 1 }, ret := s.focusable[i]?,
          calls := adjustFocus s.focusable[i + 1]? s.focusable[i]?, emitted := none }) := by
  refine ⟨?_, ?_, ?_, ?_⟩
  · intro h
    refine ⟨?_, FocusNext_wrap hm hlen h⟩
    rw [List.getElem?_eq_getElem (show 0 < s.focusable.length by omega)]
    rfl
  · intro h
    refine ⟨?_, FocusPrev_wrap hm hlen h⟩
    rw [List.getElem?_eq_getElem (show s.focusable.length - 1 < s.focusable.length by omega)]
    rfl
  · intro i h hi
    rw [FocusNext_inner h hi, h]
    rfl
  · intro i h hi
    have h' : s.focused = ((i + 1 : Nat) : Int) := by
      rw [h]
      rfl
    rw [FocusPrev_inner h' hi, h]
    have e : (i : Int) + 1 - 1 = (i : Int) := by omega
    rw [e]

/-- The statement of C5 at `circularLayout`: the forward step from index 2
and the backward step from index 2. -/
theorem C5_witness :
    circularLayout.focusMode = FocusMode.FocusModeCircular ∧
    1 ≤ circularLayout.focusable.length ∧
    (FocusNext circularLayout).map (fun r => (r.state.focused, r.ret, r.emitted)) =
      some (3, some ⟨102, 2, 2⟩, none) ∧
    (FocusPrev circularLayout).map (fun r => (r.state.focused, r.ret, r.emitted)) =
      some (1, some ⟨105, 5, 1⟩, none) :=
  ⟨rfl, by decide,
   by rw [(C5_circular_wrap_and_single_step circularLayout rfl (by decide)).2.2.1 2 rfl
        (by decide)]; rfl,
   by rw [(C5_circular_wrap_and_single_step circularLayout rfl (by decide)).2.2.2 1 rfl
        (by decide)]; rfl⟩

/-! ## C6, C7: `SetFocus` -/

theorem scan_of_not_mem (s : LayoutBase) (w : IWindow) (l : List IWindow) (i : Nat)
    (h : w ∉ l) : SetFocus.scan s w l i = some { state := s, ret := false, calls := [] } := by
  induction l generalizing i with
  | nil => rfl
  | cons x xs ih =>
    rw [List.mem_cons, not_or] at h
    have hx : ¬ x = w := fun e => h.1 e.symm
    simp only [SetFocus.scan, if_neg hx]
    exact ih (i + 1) h.2

theorem scan_of_mem (s : LayoutBase) (w : IWindow) (l : List IWindow) (i : Nat)
    (o : Option IWindow) (hg : GetFocus s = some o) (h : w ∈ l) :
    SetFocus.scan s w l i = some
      { state := { s with focused := ((i + l.indexOf w : Nat) : Int) }, ret := true,
        calls := adjustFocus o (some w) } := by
  induction l generalizing i with
  | nil => simp at h
  | cons x xs ih =>
    by_cases hx : x = w
    · subst hx
      simp [SetFocus.scan, hg]
    · have hw : w ∈ xs := by
        rcases List.mem_cons.1 h with e | e
        · exact absurd e.symm hx
        · exact e
      simp only [SetFocus.scan, if_neg hx]
      rw [ih (i + 1) hw, List.indexOf_cons_ne _ hx]
      have e : i + 1 + xs.indexOf w = i + (xs.indexOf w + 1) := by omega
      rw [e]

theorem GetFocus_of_valid {s : LayoutBase} (h : ValidFocus s) :
    ∃ o, GetFocus s = some o := by
  rcases h with h | h | ⟨h1, h2⟩
  · exact ⟨none, GetFocus_negative (by rw [h]; decide)⟩
  · exact ⟨none, GetFocus_negative (by rw [h]; decide)⟩
  · have e : s.focused = ((s.focused.toNat : Nat) : Int) := (Int.toNat_of_nonneg h1).symm
    exact ⟨_, GetFocus_concrete e (by omega)⟩

/-- C6: `SetFocus` on a non-null window that is not in the focusable vector
returns `false`, leaves every field of the layout as it is and makes no call on
any window, whatever the state of the layout. -/
theorem C6_SetFocus_non_member (s : LayoutBase) (w : IWindow) (h : w ∉ s.focusable) :
    SetFocus s (some w) = some { state := s, ret := false, calls := [] } := by
  unfold SetFocus
  exact scan_of_not_mem s w s.focusable 0 h

/-- The statement of C6 at `circularLayout` and a window it does not hold. -/
theorem C6_witness :
    (⟨999, 9, 0⟩ : IWindow) ∉ circularLayout.focusable ∧
    SetFocus circularLayout (some ⟨999, 9, 0⟩) =
      some { state := circularLayout, ret := false, calls := [] } :=
  ⟨by decide, C6_SetFocus_non_member circularLayout ⟨999, 9, 0⟩ (by decide)⟩

/-- C7: in a layout whose focus index is a sentinel or a concrete index,
`SetFocus(w)` for a member `w` of the focusable vector returns `true`, leaves the
vector as it is, and afterwards `GetFocus()` is `w` and `GetFocusIndex()` is the
index `find` gives for `w`, where the vector holds `w`; `SetFocus(none)` returns
`true` and leaves the index at the auto sentinel with `GetFocus()` null. -/
theorem C7_SetFocus_member (s : LayoutBase) (hv : ValidFocus s) :
    (∀ w, w ∈ s.focusable → ∃ r, SetFocus s (some w) = some r ∧ r.ret = true ∧
      r.state.focusable = s.focusable ∧ r.state.children = s.children ∧
      GetFocus r.state = some (some w) ∧
      GetFocusIndex r.state = find s.focusable w ∧
      0 ≤ GetFocusIndex r.state ∧
      s.focusable[(GetFocusIndex r.state).toNat]? = some w) ∧
    (∃ r, SetFocus s none = some r ∧ r.ret = true ∧
      r.state.focusable = s.focusable ∧ r.state.children = s.children ∧
      GetFocusIndex r.state = AUTO_FOCUS ∧ GetFocus r.state = some none) := by
  obtain ⟨o, ho⟩ := GetFocus_of_valid hv
  constructor
  · intro w hw
    have hscan := scan_of_mem s w s.focusable 0 o ho hw
    have hidx : ((0 + s.focusable.indexOf w : Nat) : Int) = find s.focusable w := by
      rw [find_of_mem hw, Nat.zero_add]
    rw [hidx] at hscan
    have hnn : 0 ≤ find s.focusable w := (find_nonneg_iff _ _).2 hw
    have hget : s.focusable[(find s.focusable w).toNat]? = some w := getElem?_find hw
    refine ⟨_, hscan, rfl, rfl, rfl, ?_, rfl, hnn, hget⟩
    unfold GetFocus
    have hlen : 0 < s.focusable.length := List.length_pos_of_mem hw
    simp only [hnn, hlen, and_self, if_true, hget]
    rfl
  · refine ⟨{ state := { s with focused := AUTO_FOCUS }, ret := true,
              calls := adjustFocus o none }, ?_, rfl, rfl, rfl, rfl, ?_⟩
    · unfold SetFocus
      simp [ho]
    · exact GetFocus_negative (s := { s with focused := AUTO_FOCUS })
        (show AUTO_FOCUS < 0 by decide)

/-- The statement of C7 at `circularLayout` and its window with id 4. -/
theorem C7_witness :
    ValidFocus circularLayout ∧
    ∃ r, SetFocus circularLayout (some ⟨104, 4, 3⟩) = some r ∧ r.ret = true ∧
      GetFocus r.state = some (some ⟨104, 4, 3⟩) ∧ GetFocusIndex r.state = 4 :=
  ⟨by decide,
   ((C7_SetFocus_member circularLayout (by decide)).1 ⟨104, 4, 3⟩ (by decide)).imp
     (fun _ h => ⟨h.1, h.2.1, h.2.2.2.2.1, h.2.2.2.2.2.1.trans (by decide)⟩)⟩

/-! ## C8: removing the focused window -/

/-- C8 fails on the code: `RemoveWindow` never writes `focused`.  The layout
`twoWindowLayout` is what `AddWindow`, `AddWindow`, `FocusNext` make of a fresh
layout, with the focus on its second window.  Removing that window leaves the
index at 1, past the end of the one remaining focusable window, so the
unchecked read in `GetFocus` is out of range; and with the focus on the first
window, removing it leaves the index at 0, which now names the other window. -/
theorem C8_RemoveWindow_leaves_stale_index :
    ((FocusNext (addAll [⟨301, 1, 0⟩, ⟨302, 2, 1⟩])).map FocusResult.state =
      some twoWindowLayout) ∧
    GetFocus twoWindowLayout = some (some ⟨302, 2, 1⟩) ∧
    (RemoveWindow twoWindowLayout ⟨302, 2, 1⟩).state.focusable = [⟨301, 1, 0⟩] ∧
    GetFocusIndex (RemoveWindow twoWindowLayout ⟨302, 2, 1⟩).state = 1 ∧
    GetFocusIndex (RemoveWindow twoWindowLayout ⟨302, 2, 1⟩).state ≠ AUTO_FOCUS ∧
    GetFocus (RemoveWindow twoWindowLayout ⟨302, 2, 1⟩).state = none ∧
    GetFocus (addAll [⟨301, 1, 0⟩, ⟨302, 2, 1⟩]) = some (some ⟨301, 1, 0⟩) ∧
    GetFocusIndex (RemoveWindow (addAll [⟨301, 1, 0⟩, ⟨302, 2, 1⟩]) ⟨301, 1, 0⟩).state = 0 ∧
    GetFocus (RemoveWindow (addAll [⟨301, 1, 0⟩, ⟨302, 2, 1⟩]) ⟨301, 1, 0⟩).state =
      some (some ⟨302, 2, 1⟩) := by
  refine ⟨?_, ?_, ?_, ?_, ?_, ?_, ?_, ?_, ?_⟩ <;> decide

/-! ## C9: the range of the focus index -/

theorem guarded_iff (s : LayoutBase) :
    GuardedFocus s ↔
      -2 ≤ s.focused ∧ (s.focused < (s.focusable.length : Int) ∨ s.focused ≤ 0) := by
  unfold GuardedFocus ValidFocus AUTO_FOCUS NO_FOCUS
  constructor
  · rintro ((h | h | ⟨h1, h2⟩) | ⟨h1, h2⟩)
    · omega
    · omega
    · omega
    · have h3 := congrArg List.length h2
      simp only [List.length_nil] at h3
      omega
  · rintro ⟨h1, h2⟩
    by_cases h0 : s.focusable.length = 0
    · have he : s.focusable = [] := List.length_eq_zero.1 h0
      by_cases h3 : s.focused = 0
      · exact Or.inr ⟨h3, he⟩
      · left
        omega
    · left
      omega

theorem guarded_of_bounds (s : LayoutBase) (j : Int)
    (h : -2 ≤ j ∧ (j < (s.focusable.length : Int) ∨ j ≤ 0)) :
    GuardedFocus { s with focused := j } :=
  (guarded_iff _).2 h

theorem GetFocus_of_guarded {s : LayoutBase} (h : GuardedFocus s) :
    ∃ o, GetFocus s = some o := by
  rcases h with h | ⟨_, h⟩
  · exact GetFocus_of_valid h
  · exact ⟨none, GetFocus_empty h⟩

theorem advance_bounds (s : LayoutBase) (h : -2 ≤ s.focused) :
    -2 ≤ (FocusNext.advance s).1 ∧
      ((FocusNext.advance s).1 < (s.focusable.length : Int) ∨ (FocusNext.advance s).1 ≤ 0) := by
  unfold FocusNext.advance AUTO_FOCUS NO_FOCUS
  split_ifs <;> simp only <;> omega

theorem retreat_bounds (s : LayoutBase)
    (h : s.focused < (s.focusable.length : Int) ∨ s.focused ≤ 0) :
    -2 ≤ (FocusPrev.retreat s).1 ∧
      ((FocusPrev.retreat s).1 < (s.focusable.length : Int) ∨ (FocusPrev.retreat s).1 ≤ 0) := by
  unfold FocusPrev.retreat NO_FOCUS
  split_ifs <;> simp only <;> omega

theorem FocusNext_guarded {s : LayoutBase} (h : GuardedFocus s) :
    ∃ r, FocusNext s = some r ∧ GuardedFocus r.state := by
  obtain ⟨o, ho⟩ := GetFocus_of_guarded h
  have hg := guarded_of_bounds s _ (advance_bounds s ((guarded_iff s).1 h).1)
  obtain ⟨n, hn⟩ := GetFocus_of_guarded hg
  exact ⟨_, FocusNext_eq ho hn, hg⟩

theorem FocusPrev_guarded {s : LayoutBase} (h : GuardedFocus s) :
    ∃ r, FocusPrev s = some r ∧ GuardedFocus r.state := by
  obtain ⟨o, ho⟩ := GetFocus_of_guarded h
  have hg := guarded_of_bounds s _ (retreat_bounds s ((guarded_iff s).1 h).2)
  obtain ⟨n, hn⟩ := GetFocus_of_guarded hg
  exact ⟨_, FocusPrev_eq ho hn, hg⟩

theorem FocusFirst_guarded {s : LayoutBase} (h : GuardedFocus s) :
    ∃ r, FocusFirst s = some r ∧ GuardedFocus r.state := by
  obtain ⟨o, ho⟩ := GetFocus_of_guarded h
  have hg := guarded_of_bounds s 0 (by omega)
  obtain ⟨n, hn⟩ := GetFocus_of_guarded hg
  refine ⟨{ state := { s with focused := 0 }, ret := n, calls := adjustFocus o n,
            emitted := none }, ?_, hg⟩
  unfold FocusFirst
  simp [ho, hn]

theorem FocusLast_guarded {s : LayoutBase} (h : GuardedFocus s) :
    ∃ r, FocusLast s = some r ∧ GuardedFocus r.state := by
  obtain ⟨o, ho⟩ := GetFocus_of_guarded h
  have hg := guarded_of_bounds s ((s.focusable.length : Int) - 1) (by omega)
  obtain ⟨n, hn⟩ := GetFocus_of_guarded hg
  refine ⟨{ state := { s with focused := (s.focusable.length : Int) - 1 }, ret := n,
            calls := adjustFocus o n, emitted := none }, ?_, hg⟩
  unfold FocusLast
  simp [ho, hn]

theorem SetFocus_guarded {s : LayoutBase} (h : GuardedFocus s) (focus : Option IWindow) :
    ∃ r, SetFocus s focus = some r ∧ GuardedFocus r.state := by
  obtain ⟨o, ho⟩ := GetFocus_of_guarded h
  cases focus with
  | none =>
    refine ⟨{ state := { s with focused := AUTO_FOCUS }, ret := true,
              calls := adjustFocus o none }, ?_, ?_⟩
    · unfold SetFocus
      simp [ho]
    · exact guarded_of_bounds s AUTO_FOCUS (by unfold AUTO_FOCUS; omega)
  | some w =>
    by_cases hw : w ∈ s.focusable
    · refine ⟨_, scan_of_mem s w s.focusable 0 o ho hw, ?_⟩
      refine guarded_of_bounds s _ ?_
      have hlt := List.indexOf_lt_length.2 hw
      omega
    · exact ⟨_, scan_of_not_mem s w s.focusable 0 hw, h⟩

theorem focusedWindow_mem {s : LayoutBase} {w : IWindow} (h : focusedWindow s = some w) :
    w ∈ s.focusable := by
  unfold focusedWindow at h
  split at h
  · exact List.getElem?_mem h
  · simp at h

theorem focusedWindow_of_getElem? {s : LayoutBase} {i : Nat} {w : IWindow}
    (hf : s.focused = (i : Int)) (hw : s.focusable[i]? = some w) :
    focusedWindow s = some w := by
  obtain ⟨hi, _⟩ := List.getElem?_eq_some.1 hw
  unfold focusedWindow
  have hg : 0 ≤ s.focused ∧ s.focused < (s.focusable.length : Int) := by omega
  rw [if_pos hg, hf]
  exact hw

theorem focusedWindow_none_of_outside {s : LayoutBase}
    (h : ¬ (0 ≤ s.focused ∧ s.focused < (s.focusable.length : Int))) :
    focusedWindow s = none := by
  unfold focusedWindow
  rw [if_neg h]

/-- What `SortFocusables` does to the index when a focused window was
captured: it is the place `find` gives for that window in the sorted vector. -/
theorem SortFocusables_focused_of_some {s : LayoutBase} {w : IWindow}
    (h : focusedWindow s = some w) :
    (SortFocusables s).1.focused = find (stdSort sortByFocusOrder s.focusable) w := by
  have hm : w ∈ stdSort sortByFocusOrder s.focusable :=
    (mem_stdSort _ _ _).2 (focusedWindow_mem h)
  have hnn : 0 ≤ find (stdSort sortByFocusOrder s.focusable) w := (find_nonneg_iff _ _).2 hm
  unfold SortFocusables
  simp only [h]
  rw [if_neg]
  unfold AUTO_FOCUS
  omega

theorem SortFocusables_valid {s : LayoutBase} (h : ValidFocus s) :
    ValidFocus (SortFocusables s).1 := by
  cases hfw : focusedWindow s with
  | some w =>
    have hm : w ∈ stdSort sortByFocusOrder s.focusable :=
      (mem_stdSort _ _ _).2 (focusedWindow_mem hfw)
    right
    right
    rw [SortFocusables_focused_of_some hfw, SortFocusables_focusable]
    exact ⟨(find_nonneg_iff _ _).2 hm, find_lt_length hm⟩
  | none =>
    have hlen := length_stdSort sortByFocusOrder s.focusable
    unfold SortFocusables
    simp only [hfw]
    split
    · right
      right
      rename_i hc
      constructor
      · exact le_refl _
      · show (0 : Int) < ((stdSort sortByFocusOrder s.focusable).length : Int)
        exact_mod_cast hc.2
    · unfold ValidFocus at h ⊢
      simp only [hlen]
      exact h

theorem AddWindow_state_cases (s : LayoutBase) (w : IWindow) :
    (AddWindow s w).state = s ∨
    (AddWindow s w).state = { s with children := s.children ++ [w] } ∨
    (AddWindow s w).state =
      (SortFocusables
        { s with children := s.children ++ [w], focusable := s.focusable ++ [w] }).1 := by
  unfold AddWindow AddFocusable
  simp only
  split_ifs
  · exact Or.inl rfl
  · exact Or.inr (Or.inr rfl)
  · exact Or.inr (Or.inl rfl)

theorem AddWindow_guarded {s : LayoutBase} (h : GuardedFocus s) (w : IWindow) :
    GuardedFocus (AddWindow s w).state := by
  rcases AddWindow_state_cases s w with e | e | e
  · rw [e]
    exact h
  · rw [e]
    exact (guarded_iff _).2 ((guarded_iff s).1 h)
  · rw [e]
    left
    apply SortFocusables_valid
    have hb := (guarded_iff s).1 h
    unfold ValidFocus AUTO_FOCUS NO_FOCUS
    simp only [List.length_append, List.length_singleton]
    push_cast
    omega

theorem step_guarded {s : LayoutBase} (h : GuardedFocus s) (op : Op)
    (hop : op.isRemoveWindow = false) :
    ∃ t, op.step s = some t ∧ GuardedFocus t := by
  cases op with
  | AddWindow w => exact ⟨_, rfl, AddWindow_guarded h w⟩
  | RemoveWindow w => simp [Op.isRemoveWindow] at hop
  | FocusNext =>
    obtain ⟨r, h1, h2⟩ := FocusNext_guarded h
    exact ⟨r.state, by simp [Op.step, h1], h2⟩
  | FocusPrev =>
    obtain ⟨r, h1, h2⟩ := FocusPrev_guarded h
    exact ⟨r.state, by simp [Op.step, h1], h2⟩
  | FocusFirst =>
    obtain ⟨r, h1, h2⟩ := FocusFirst_guarded h
    exact ⟨r.state, by simp [Op.step, h1], h2⟩
  | FocusLast =>
    obtain ⟨r, h1, h2⟩ := FocusLast_guarded h
    exact ⟨r.state, by simp [Op.step, h1], h2⟩
  | SetFocus focus =>
    obtain ⟨r, h1, h2⟩ := SetFocus_guarded h focus
    exact ⟨r.state, by simp [Op.step, h1], h2⟩
  | SetFocusMode mode => exact ⟨_, rfl, (guarded_iff _).2 ((guarded_iff s).1 h)⟩

theorem runOps_guarded (ops : List Op) {s : LayoutBase} (h : GuardedFocus s)
    (hops : ∀ op ∈ ops, op.isRemoveWindow = false) :
    ∃ t, runOps s ops = some t ∧ GuardedFocus t := by
  induction ops generalizing s with
  | nil => exact ⟨s, rfl, h⟩
  | cons op ops ih =>
    obtain ⟨t, h1, h2⟩ := step_guarded h op (hops op (List.mem_cons_self _ _))
    obtain ⟨u, h3, h4⟩ := ih h2 (fun o ho => hops o (List.mem_cons_of_mem _ ho))
    exact ⟨u, by simp [runOps, h1, h3], h4⟩

/-- C9, as amended: every sequence of `AddWindow`, `FocusNext`, `FocusPrev`,
`FocusFirst`, `FocusLast`, `SetFocus` and `SetFocusMode` calls on a fresh layout
runs without an out-of-range read and ends in a state whose focus index is the
auto sentinel, the terminated sentinel, a concrete index below the number of
focusable windows, or the index 0 of a layout without focusable windows; in
every such state `GetFocus` returns. -/
theorem C9_focus_index_in_range_without_RemoveWindow (ops : List Op)
    (hops : ∀ op ∈ ops, op.isRemoveWindow = false) :
    ∃ s, runOps LayoutBase.new ops = some s ∧
      (s.focused = AUTO_FOCUS ∨ s.focused = NO_FOCUS ∨
        (0 ≤ s.focused ∧ s.focused < (s.focusable.length : Int)) ∨
        (s.focused = 0 ∧ s.focusable = [])) ∧
      ∃ o, GetFocus s = some o := by
  have h0 : GuardedFocus LayoutBase.new := Or.inl (Or.inl rfl)
  obtain ⟨s, h1, h2⟩ := runOps_guarded ops h0 hops
  refine ⟨s, h1, ?_, GetFocus_of_guarded h2⟩
  rcases h2 with (h | h | h) | h
  · exact Or.inl h
  · exact Or.inr (Or.inl h)
  · exact Or.inr (Or.inr (Or.inl h))
  · exact Or.inr (Or.inr (Or.inr h))

/-- The statement of C9, as amended, at the sample session `exampleOps`. -/
theorem C9_witness :
    (∀ op ∈ exampleOps, op.isRemoveWindow = false) ∧
    ∃ s, runOps LayoutBase.new exampleOps = some s ∧ ∃ o, GetFocus s = some o :=
  ⟨by decide,
   (C9_focus_index_in_range_without_RemoveWindow exampleOps (by decide)).imp
     (fun _ h => ⟨h.1, h.2.2⟩)⟩

/-- C9 as stated fails twice.  `FocusNext` on a fresh layout leaves the index
at 0 with no focusable window, which is none of the three cases of the claim.
And `AddWindow`, `AddWindow`, `FocusNext`, `RemoveWindow` of the focused window
leave the index at 1 with one focusable window, where `GetFocus` reads out of
range. -/
theorem C9_counterexample :
    runOps LayoutBase.new [Op.FocusNext] = some { LayoutBase.new with focused := 0 } ∧
    ¬ ValidFocus { LayoutBase.new with focused := 0 } ∧
    runOps LayoutBase.new
      [Op.AddWindow ⟨301, 1, 0⟩, Op.AddWindow ⟨302, 2, 1⟩, Op.FocusNext,
       Op.RemoveWindow ⟨302, 2, 1⟩] =
      some { twoWindowLayout with children := [⟨301, 1, 0⟩], focusable := [⟨301, 1, 0⟩] } ∧
    ¬ ValidFocus { twoWindowLayout with children := [⟨301, 1, 0⟩], focusable := [⟨301, 1, 0⟩] } ∧
    GetFocus { twoWindowLayout with children := [⟨301, 1, 0⟩], focusable := [⟨301, 1, 0⟩] } =
      none := by
  refine ⟨?_, ?_, ?_, ?_, ?_⟩ <;> decide

/-! ## C10: the focus follows the window through a rebuild -/

theorem focus_at_find {t : LayoutBase} {w : IWindow} (hm : w ∈ t.focusable)
    (hf : t.focused = find t.focusable w) :
    GetFocus t = some (some w) ∧ 0 ≤ GetFocusIndex t ∧
      t.focusable[(GetFocusIndex t).toNat]? = some w := by
  have hnn : 0 ≤ find t.focusable w := (find_nonneg_iff _ _).2 hm
  have hget : t.focusable[(find t.focusable w).toNat]? = some w := getElem?_find hm
  have hlen : 0 < t.focusable.length := List.length_pos_of_mem hm
  unfold GetFocusIndex GetFocus
  rw [hf]
  refine ⟨?_, hnn, hget⟩
  simp only [hnn, hlen, and_self, if_true, hget]
  rfl

theorem focus_at_index {t : LayoutBase} {w : IWindow} {i : Nat} (hf : t.focused = (i : Int))
    (hw : t.focusable[i]? = some w) :
    GetFocus t = some (some w) ∧ 0 ≤ GetFocusIndex t ∧
      t.focusable[(GetFocusIndex t).toNat]? = some w ∧
      (t.focusable.Nodup → GetFocusIndex t = find t.focusable w) := by
  obtain ⟨hi, _⟩ := List.getElem?_eq_some.1 hw
  unfold GetFocusIndex
  refine ⟨?_, ?_, ?_, ?_⟩
  · rw [GetFocus_concrete hf hi, hw]
  · omega
  · rw [hf]
    exact hw
  · intro hn
    rw [hf, find_of_nodup_getElem? hn hw]

theorem mem_indexLoop (cs : List IWindow) (acc : LayoutBase × List Call) (x : IWindow) :
    x ∈ (indexLoop cs acc).1.focusable ↔
      x ∈ acc.1.focusable ∨ (x ∈ cs ∧ 0 ≤ x.focusOrder) := by
  induction cs generalizing acc with
  | nil => simp [indexLoop]
  | cons c cs ih =>
    simp only [indexLoop]
    rw [ih, mem_AddFocusable, List.mem_cons]
    constructor
    · rintro ((h | ⟨h1, h2⟩) | ⟨h1, h2⟩)
      · exact Or.inl h
      · exact Or.inr ⟨Or.inl h1, h1 ▸ h2⟩
      · exact Or.inr ⟨Or.inr h1, h2⟩
    · rintro (h | ⟨h1 | h1, h2⟩)
      · exact Or.inl (Or.inl h)
      · exact Or.inl (Or.inr ⟨h1, h1 ▸ h2⟩)
      · exact Or.inr ⟨h1, h2⟩

theorem IndexFocusables_focusable (s : LayoutBase) :
    (IndexFocusables s).1.focusable =
      (indexLoop s.children ({ s with focusable := [] }, [])).1.focusable := by
  unfold IndexFocusables
  simp only
  split <;> rfl

theorem mem_IndexFocusables (s : LayoutBase) (x : IWindow) :
    x ∈ (IndexFocusables s).1.focusable ↔ x ∈ s.children ∧ 0 ≤ x.focusOrder := by
  rw [IndexFocusables_focusable, mem_indexLoop]
  simp

theorem IndexFocusables_focused_of_some {s : LayoutBase} {w : IWindow}
    (h : focusedWindow s = some w) :
    (IndexFocusables s).1.focused = find (IndexFocusables s).1.focusable w := by
  rw [IndexFocusables_focusable]
  unfold IndexFocusables
  simp only [h]

/-- C10: with the focus on a concrete window `w`, a rebuild of the focusable
vector relocates the focus by identity.  After `AddWindow` of any window the
focus index is non-negative, the new vector holds `w` at it and `GetFocus()` is
`w` (and the index is the one `find` gives when the old vector had no
duplicates).  After `IndexFocusables` the index is the one `find` gives for `w`
in the rebuilt vector: when `w` is a child with a non-negative focus order the
vector holds `w` there and `GetFocus()` is `w`; otherwise `w` is not in the
rebuilt vector and the index is the auto sentinel. -/
theorem C10_focus_follows_window (s : LayoutBase) (w : IWindow) (i : Nat)
    (hf : s.focused = (i : Int)) (hw : s.focusable[i]? = some w) :
    (∀ x : IWindow,
      GetFocus (AddWindow s x).state = some (some w) ∧
      0 ≤ GetFocusIndex (AddWindow s x).state ∧
      (AddWindow s x).state.focusable[(GetFocusIndex (AddWindow s x).state).toNat]? = some w ∧
      (s.focusable.Nodup →
        GetFocusIndex (AddWindow s x).state = find (AddWindow s x).state.focusable w)) ∧
    GetFocusIndex (IndexFocusables s).1 = find (IndexFocusables s).1.focusable w ∧
    (w ∈ s.children ∧ 0 ≤ w.focusOrder →
      GetFocus (IndexFocusables s).1 = some (some w) ∧
      0 ≤ GetFocusIndex (IndexFocusables s).1 ∧
      (IndexFocusables s).1.focusable[(GetFocusIndex (IndexFocusables s).1).toNat]? =
        some w) ∧
    (¬ (w ∈ s.children ∧ 0 ≤ w.focusOrder) →
      w ∉ (IndexFocusables s).1.focusable ∧
      GetFocusIndex (IndexFocusables s).1 = AUTO_FOCUS ∧
      GetFocus (IndexFocusables s).1 = some none) := by
  have hfw : focusedWindow s = some w := focusedWindow_of_getElem? hf hw
  have hidx := IndexFocusables_focused_of_some hfw
  refine ⟨?_, hidx, ?_, ?_⟩
  · intro x
    rcases AddWindow_state_cases s x with e | e | e
    · rw [e]
      exact focus_at_index hf hw
    · rw [e]
      exact focus_at_index (t := { s with children := s.children ++ [x] }) hf hw
    · obtain ⟨hi, _⟩ := List.getElem?_eq_some.1 hw
      have hw1 : (s.focusable ++ [x])[i]? = some w := by
        rw [List.getElem?_append_left hi]
        exact hw
      have hfw1 : focusedWindow
          { s with children := s.children ++ [x], focusable := s.focusable ++ [x] } =
          some w :=
        focusedWindow_of_getElem?
          (s := { s with children := s.children ++ [x], focusable := s.focusable ++ [x] })
          hf hw1
      have hfoc := SortFocusables_focused_of_some hfw1
      have hfl := SortFocusables_focusable
        { s with children := s.children ++ [x], focusable := s.focusable ++ [x] }
      have hm : w ∈ (AddWindow s x).state.focusable := by
        rw [e, hfl, mem_stdSort]
        exact List.getElem?_mem hw1
      have hfind : (AddWindow s x).state.focused = find (AddWindow s x).state.focusable w := by
        rw [e, hfoc, hfl]
      obtain ⟨h1, h2, h3⟩ := focus_at_find hm hfind
      exact ⟨h1, h2, h3, fun _ => hfind⟩
  · intro hc
    exact focus_at_find ((mem_IndexFocusables s w).2 hc) hidx
  · intro hc
    have hnm : w ∉ (IndexFocusables s).1.focusable := fun hm =>
      hc ((mem_IndexFocusables s w).1 hm)
    have hauto : GetFocusIndex (IndexFocusables s).1 = AUTO_FOCUS := by
      unfold GetFocusIndex
      rw [hidx, find_of_not_mem hnm]
      rfl
    refine ⟨hnm, hauto, ?_⟩
    apply GetFocus_negative
    unfold GetFocusIndex at hauto
    rw [hauto]
    decide

/-- The statement of C10 at `circularLayout`, whose focus is on the window
with id 1: a window sorted to the front is added, and the vector is rebuilt. -/
theorem C10_witness :
    circularLayout.focused = ((2 : Nat) : Int) ∧
    circularLayout.focusable[2]? = some ⟨101, 1, 2⟩ ∧
    GetFocus (AddWindow circularLayout ⟨106, 6, 0⟩).state = some (some ⟨101, 1, 2⟩) ∧
    GetFocusIndex (AddWindow circularLayout ⟨106, 6, 0⟩).state = 3 ∧
    GetFocus (IndexFocusables circularLayout).1 = some (some ⟨101, 1, 2⟩) :=
  ⟨rfl, rfl,
   ((C10_focus_follows_window circularLayout ⟨101, 1, 2⟩ 2 rfl rfl).1 ⟨106, 6, 0⟩).1,
   by decide,
   ((C10_focus_follows_window circularLayout ⟨101, 1, 2⟩ 2 rfl rfl).2.2.1
      (by decide)).1⟩

/-! ## C11: where the auto focus lands -/

theorem AddWindow_FocusOn {s : LayoutBase} {w : IWindow} (h : FocusOn s w) (x : IWindow) :
    FocusOn (AddWindow s x).state w := by
  obtain ⟨h0, hw⟩ := h
  have hf : s.focused = ((s.focused.toNat : Nat) : Int) := (Int.toNat_of_nonneg h0).symm
  rcases AddWindow_state_cases s x with e | e | e
  · rw [e]
    exact ⟨h0, hw⟩
  · rw [e]
    exact ⟨h0, hw⟩
  · obtain ⟨hi, _⟩ := List.getElem?_eq_some.1 hw
    have hw1 : (s.focusable ++ [x])[s.focused.toNat]? = some w := by
      rw [List.getElem?_append_left hi]
      exact hw
    have hfw1 : focusedWindow
        { s with children := s.children ++ [x], focusable := s.focusable ++ [x] } = some w :=
      focusedWindow_of_getElem?
        (s := { s with children := s.children ++ [x], focusable := s.focusable ++ [x] })
        hf hw1
    have hfoc := SortFocusables_focused_of_some hfw1
    have hfl := SortFocusables_focusable
      { s with children := s.children ++ [x], focusable := s.focusable ++ [x] }
    have hm : w ∈ (AddWindow s x).state.focusable := by
      rw [e, hfl, mem_stdSort]
      exact List.getElem?_mem hw1
    have hfind : (AddWindow s x).state.focused = find (AddWindow s x).state.focusable w := by
      rw [e, hfoc, hfl]
    obtain ⟨_, h2, h3⟩ := focus_at_find hm hfind
    exact ⟨h2, h3⟩

theorem foldl_AddWindow_FocusOn (ws : List IWindow) {s : LayoutBase} {w : IWindow}
    (h : FocusOn s w) :
    FocusOn (ws.foldl (fun s x => (AddWindow s x).state) s) w := by
  induction ws generalizing s with
  | nil => exact h
  | cons x xs ih => exact ih (AddWindow_FocusOn h x)

theorem AddWindow_new (w : IWindow) (hw : 0 ≤ w.focusOrder) :
    (AddWindow LayoutBase.new w).state =
      { children := [w], focusable := [w], focused := 0,
        focusMode := FocusMode.FocusModeCircular } := by
  simp [AddWindow, AddFocusable, SortFocusables, LayoutBase.new, find, findFrom, hw,
    focusedWindow, stdSort, AUTO_FOCUS]

theorem FocusOn_addAll (w : IWindow) (ws : List IWindow) (hw : 0 ≤ w.focusOrder) :
    FocusOn (addAll (w :: ws)) w := by
  unfold addAll
  rw [List.foldl_cons]
  apply foldl_AddWindow_FocusOn
  rw [AddWindow_new w hw]
  exact ⟨le_refl _, rfl⟩

/-- C11, as amended: after a window with a non-negative focus order and then
any further windows are added to a fresh layout with `AddWindow`, the focus is on
the window that was added first: `GetFocus()` is that window and
`GetFocusIndex()` is the index `find` gives for it in the focusable vector.  The
index is 0 when every other focusable window added sorts after it. -/
theorem C11_auto_focus_stays_on_first_added (w : IWindow) (ws : List IWindow)
    (hw : 0 ≤ w.focusOrder) :
    GetFocus (addAll (w :: ws)) = some (some w) ∧
    0 ≤ GetFocusIndex (addAll (w :: ws)) ∧
    (addAll (w :: ws)).focusable[(GetFocusIndex (addAll (w :: ws))).toNat]? = some w ∧
    GetFocusIndex (addAll (w :: ws)) = find (addAll (w :: ws)).focusable w ∧
    ((∀ x ∈ ws, 0 ≤ x.focusOrder → x ≠ w → focusBefore w x) →
      GetFocusIndex (addAll (w :: ws)) = 0) := by
  obtain ⟨h0, hget⟩ := FocusOn_addAll w ws hw
  have hwf := WellFormed_addAll (w :: ws)
  have hf : (addAll (w :: ws)).focused = (((addAll (w :: ws)).focused.toNat : Nat) : Int) :=
    (Int.toNat_of_nonneg h0).symm
  obtain ⟨h1, _, h3, h4⟩ := focus_at_index hf hget
  refine ⟨h1, h0, hget, h4 hwf.focusable_nodup, ?_⟩
  intro hleast
  by_contra hne
  have hpos : 0 < (addAll (w :: ws)).focused.toNat := by
    unfold GetFocusIndex at hne
    omega
  obtain ⟨hi, hwi⟩ := List.getElem?_eq_some.1 hget
  have h0lt : 0 < (addAll (w :: ws)).focusable.length := by omega
  have hrel := List.pairwise_iff_getElem.1 hwf.sorted 0 _ h0lt hi hpos
  rw [hwi, notAfter_iff] at hrel
  have hy : (addAll (w :: ws)).focusable[0] ∈ (addAll (w :: ws)).focusable :=
    List.getElem_mem h0lt
  have hyw : (addAll (w :: ws)).focusable[0] ≠ w := by
    intro e
    have hidx : (0 : Nat) = (addAll (w :: ws)).focused.toNat :=
      (List.Nodup.getElem_inj_iff hwf.focusable_nodup).1 (e.trans hwi.symm)
    omega
  obtain ⟨hyc, hyo⟩ := (hwf.mem_focusable _).1 hy
  rw [mem_children_addAll, List.mem_cons] at hyc
  rcases hyc with hyc | hyc
  · exact hyw hyc
  · exact hrel (hleast _ hyc hyo hyw)

/-- The statement of C11, as amended, at three windows of which the first
added sorts last. -/
theorem C11_witness :
    (0 : Int) ≤ (⟨501, 1, 5⟩ : IWindow).focusOrder ∧
    GetFocus (addAll [⟨501, 1, 5⟩, ⟨502, 2, 0⟩, ⟨503, 3, 2⟩]) = some (some ⟨501, 1, 5⟩) ∧
    GetFocusIndex (addAll [⟨501, 1, 5⟩, ⟨502, 2, 0⟩, ⟨503, 3, 2⟩]) = 2 :=
  ⟨by decide,
   (C11_auto_focus_stays_on_first_added ⟨501, 1, 5⟩ [⟨502, 2, 0⟩, ⟨503, 3, 2⟩]
      (by decide)).1,
   by decide⟩

/-- C11 as stated fails: a window with focus order 5 is added, then one with
focus order 0.  The focus stays on the first, which now sits at index 1, while
the window with the least (focus order, id) is at index 0. -/
theorem C11_counterexample :
    GetFocusIndex (addAll [⟨501, 1, 5⟩, ⟨502, 2, 0⟩]) = 1 ∧
    GetFocus (addAll [⟨501, 1, 5⟩, ⟨502, 2, 0⟩]) = some (some ⟨501, 1, 5⟩) ∧
    GetFocusableAt (addAll [⟨501, 1, 5⟩, ⟨502, 2, 0⟩]) 0 = some ⟨502, 2, 0⟩ := by
  refine ⟨?_, ?_, ?_⟩ <;> decide

/-! ## C12: the order of the window calls -/

theorem FocusNext_calls {s : LayoutBase} {o : Option IWindow} (ho : GetFocus s = some o)
    {r : FocusResult} (h : FocusNext s = some r) :
    GetFocus r.state = some r.ret ∧ r.calls = adjustFocus o r.ret := by
  unfold FocusNext at h
  simp only [ho, Option.bind_eq_bind, Option.some_bind, Option.pure_def] at h
  cases hn : GetFocus { s with focused := (FocusNext.advance s).1 } with
  | none => simp [hn] at h
  | some n =>
    simp only [hn, Option.some_bind, Option.some.injEq] at h
    subst h
    exact ⟨hn, rfl⟩

theorem FocusPrev_calls {s : LayoutBase} {o : Option IWindow} (ho : GetFocus s = some o)
    {r : FocusResult} (h : FocusPrev s = some r) :
    GetFocus r.state = some r.ret ∧ r.calls = adjustFocus o r.ret := by
  unfold FocusPrev at h
  simp only [ho, Option.bind_eq_bind, Option.some_bind, Option.pure_def] at h
  cases hn : GetFocus { s with focused := (FocusPrev.retreat s).1 } with
  | none => simp [hn] at h
  | some n =>
    simp only [hn, Option.some_bind, Option.some.injEq] at h
    subst h
    exact ⟨hn, rfl⟩

theorem FocusFirst_calls {s : LayoutBase} {o : Option IWindow} (ho : GetFocus s = some o)
    {r : FocusResult} (h : FocusFirst s = some r) :
    GetFocus r.state = some r.ret ∧ r.calls = adjustFocus o r.ret := by
  unfold FocusFirst at h
  simp only [ho, Option.bind_eq_bind, Option.some_bind, Option.pure_def] at h
  cases hn : GetFocus { s with focused := 0 } with
  | none => simp [hn] at h
  | some n =>
    simp only [hn, Option.some_bind, Option.some.injEq] at h
    subst h
    exact ⟨hn, rfl⟩

theorem FocusLast_calls {s : LayoutBase} {o : Option IWindow} (ho : GetFocus s = some o)
    {r : FocusResult} (h : FocusLast s = some r) :
    GetFocus r.state = some r.ret ∧ r.calls = adjustFocus o r.ret := by
  unfold FocusLast at h
  simp only [ho, Option.bind_eq_bind, Option.some_bind, Option.pure_def] at h
  cases hn : GetFocus { s with focused := (s.focusable.length : Int) - 1 } with
  | none => simp [hn] at h
  | some n =>
    simp only [hn, Option.some_bind, Option.some.injEq] at h
    subst h
    exact ⟨hn, rfl⟩

theorem SetFocus_calls {s : LayoutBase} {o : Option IWindow} (ho : GetFocus s = some o)
    (focus : Option IWindow) {r : EditResult} (h : SetFocus s focus = some r) :
    (r.ret = false ∧ r.calls = [] ∧ r.state = s) ∨
    (r.ret = true ∧ GetFocus r.state = some focus ∧ r.calls = adjustFocus o focus) := by
  cases focus with
  | none =>
    unfold SetFocus at h
    simp only [ho, Option.bind_eq_bind, Option.some_bind, Option.pure_def,
      Option.some.injEq] at h
    subst h
    exact Or.inr ⟨rfl, GetFocus_negative (s := { s with focused := AUTO_FOCUS })
      (show AUTO_FOCUS < 0 by decide), rfl⟩
  | some w =>
    by_cases hw : w ∈ s.focusable
    · have hscan := scan_of_mem s w s.focusable 0 o ho hw
      unfold SetFocus at h
      simp only [hscan, Option.some.injEq] at h
      subst h
      refine Or.inr ⟨rfl, ?_, rfl⟩
      have hidx : ((0 + s.focusable.indexOf w : Nat) : Int) = find s.focusable w := by
        rw [find_of_mem hw, Nat.zero_add]
      exact (focus_at_find (t := { s with focused := ((0 + s.focusable.indexOf w : Nat) : Int) })
        hw hidx).1
    · have hscan := scan_of_not_mem s w s.focusable 0 hw
      unfold SetFocus at h
      simp only [hscan, Option.some.injEq] at h
      subst h
      exact Or.inl ⟨rfl, rfl, rfl⟩

theorem SetFocusIndex_calls {s : LayoutBase} {o : Option IWindow} (ho : GetFocus s = some o)
    (index : Int) {t : LayoutBase} {cs : List Call} (h : SetFocusIndex s index = some (t, cs)) :
    (index = s.focused ∧ cs = [] ∧ t = s) ∨
    (index ≠ s.focused ∧ t = { s with focused := index } ∧
      ∃ n, GetFocus t = some n ∧ cs = adjustFocus o n) := by
  unfold SetFocusIndex at h
  by_cases hi : s.focused = index
  · simp only [hi, ne_eq, not_true_eq_false, if_false, Option.some.injEq, Prod.mk.injEq] at h
    exact Or.inl ⟨hi.symm, h.2.symm, h.1.symm⟩
  · simp only [ne_eq, hi, not_false_eq_true, if_true, ho, Option.bind_eq_bind,
      Option.some_bind, Option.pure_def] at h
    cases hn : GetFocus { s with focused := index } with
    | none => simp [hn] at h
    | some n =>
      simp only [hn, Option.some_bind, Option.some.injEq, Prod.mk.injEq] at h
      obtain ⟨h1, h2⟩ := h
      subst h1 h2
      exact Or.inr ⟨fun e => hi e.symm, rfl, n, hn, rfl⟩

theorem GetFocus_defined_of {s : LayoutBase}
    (h : s.focused < 0 ∨ s.focusable = [] ∨ s.focused < (s.focusable.length : Int)) :
    ∃ o, GetFocus s = some o := by
  rcases h with h | h | h
  · exact ⟨none, GetFocus_negative h⟩
  · exact ⟨none, GetFocus_empty h⟩
  · by_cases hn : s.focused < 0
    · exact ⟨none, GetFocus_negative hn⟩
    · have e : s.focused = ((s.focused.toNat : Nat) : Int) :=
        (Int.toNat_of_nonneg (by omega)).symm
      exact ⟨_, GetFocus_concrete e (by omega)⟩

theorem inRange_of_GetFocus {s : LayoutBase} {o : Option IWindow} (h : GetFocus s = some o) :
    s.focused < 0 ∨ s.focusable = [] ∨ s.focused < (s.focusable.length : Int) := by
  by_contra hc
  simp only [not_or, not_lt] at hc
  obtain ⟨h0, hne, hge⟩ := hc
  have hlen : 0 < s.focusable.length := List.length_pos.2 hne
  unfold GetFocus at h
  rw [if_pos ⟨h0, hlen⟩] at h
  have hnone : s.focusable[s.focused.toNat]? = none := by
    rw [List.getElem?_eq_none_iff]
    omega
  rw [hnone] at h
  simp at h

theorem advance_inRange (s : LayoutBase)
    (h : s.focused < 0 ∨ s.focusable = [] ∨ s.focused < (s.focusable.length : Int)) :
    (FocusNext.advance s).1 < 0 ∨ s.focusable = [] ∨
      (FocusNext.advance s).1 < (s.focusable.length : Int) := by
  by_cases he : s.focusable = []
  · exact Or.inr (Or.inl he)
  · have hlen : 0 < s.focusable.length := List.length_pos.2 he
    have h' : s.focused < 0 ∨ s.focused < (s.focusable.length : Int) := by
      rcases h with h | h | h
      · exact Or.inl h
      · exact absurd h he
      · exact Or.inr h
    have : (FocusNext.advance s).1 < 0 ∨
        (FocusNext.advance s).1 < (s.focusable.length : Int) := by
      unfold FocusNext.advance AUTO_FOCUS NO_FOCUS
      split_ifs <;> simp only <;> omega
    rcases this with t | t
    · exact Or.inl t
    · exact Or.inr (Or.inr t)

theorem retreat_inRange (s : LayoutBase)
    (h : s.focused < 0 ∨ s.focusable = [] ∨ s.focused < (s.focusable.length : Int)) :
    (FocusPrev.retreat s).1 < 0 ∨ s.focusable = [] ∨
      (FocusPrev.retreat s).1 < (s.focusable.length : Int) := by
  by_cases he : s.focusable = []
  · exact Or.inr (Or.inl he)
  · have hlen : 0 < s.focusable.length := List.length_pos.2 he
    have h' : s.focused < 0 ∨ s.focused < (s.focusable.length : Int) := by
      rcases h with h | h | h
      · exact Or.inl h
      · exact absurd h he
      · exact Or.inr h
    have : (FocusPrev.retreat s).1 < 0 ∨
        (FocusPrev.retreat s).1 < (s.focusable.length : Int) := by
      unfold FocusPrev.retreat NO_FOCUS
      split_ifs <;> simp only <;> omega
    rcases this with t | t
    · exact Or.inl t
    · exact Or.inr (Or.inr t)

theorem advance_lt_INT_MAX (s : LayoutBase) (hhi : s.focused < INT_MAX)
    (hlen : (s.focusable.length : Int) ≤ INT_MAX) :
    (FocusNext.advance s).1 < INT_MAX := by
  unfold INT_MAX at *
  unfold FocusNext.advance AUTO_FOCUS NO_FOCUS
  split_ifs <;> simp only <;> omega

theorem INT_MIN_lt_retreat (s : LayoutBase) : INT_MIN < (FocusPrev.retreat s).1 := by
  unfold INT_MIN
  unfold FocusPrev.retreat NO_FOCUS
  split_ifs <;> simp only <;> omega

theorem FocusNext_returns {s : LayoutBase} {o : Option IWindow} (ho : GetFocus s = some o) :
    ∃ r, FocusNext s = some r ∧ r.state = { s with focused := (FocusNext.advance s).1 } ∧
      GetFocus r.state = some r.ret ∧ r.calls = adjustFocus o r.ret := by
  obtain ⟨n, hn⟩ := GetFocus_defined_of
    (s := { s with focused := (FocusNext.advance s).1 })
    (advance_inRange s (inRange_of_GetFocus ho))
  exact ⟨_, FocusNext_eq ho hn, rfl, hn, rfl⟩

theorem FocusPrev_returns {s : LayoutBase} {o : Option IWindow} (ho : GetFocus s = some o) :
    ∃ r, FocusPrev s = some r ∧ r.state = { s with focused := (FocusPrev.retreat s).1 } ∧
      GetFocus r.state = some r.ret ∧ r.calls = adjustFocus o r.ret := by
  obtain ⟨n, hn⟩ := GetFocus_defined_of
    (s := { s with focused := (FocusPrev.retreat s).1 })
    (retreat_inRange s (inRange_of_GetFocus ho))
  exact ⟨_, FocusPrev_eq ho hn, rfl, hn, rfl⟩

theorem FocusFirst_returns {s : LayoutBase} {o : Option IWindow} (ho : GetFocus s = some o) :
    ∃ r, FocusFirst s = some r ∧ r.state = { s with focused := 0 } ∧
      GetFocus r.state = some r.ret ∧ r.calls = adjustFocus o r.ret := by
  have hr : (0 : Int) < 0 ∨ s.focusable = [] ∨ (0 : Int) < (s.focusable.length : Int) := by
    by_cases he : s.focusable = []
    · exact Or.inr (Or.inl he)
    · have hlen : 0 < s.focusable.length := List.length_pos.2 he
      exact Or.inr (Or.inr (by omega))
  obtain ⟨n, hn⟩ := GetFocus_defined_of (s := { s with focused := 0 }) hr
  refine ⟨{ state := { s with focused := 0 }, ret := n, calls := adjustFocus o n,
            emitted := none }, ?_, rfl, hn, rfl⟩
  unfold FocusFirst
  simp [ho, hn]

theorem FocusLast_returns {s : LayoutBase} {o : Option IWindow} (ho : GetFocus s = some o) :
    ∃ r, FocusLast s = some r ∧
      r.state = { s with focused := (s.focusable.length : Int) - 1 } ∧
      GetFocus r.state = some r.ret ∧ r.calls = adjustFocus o r.ret := by
  have hr : (s.focusable.length : Int) - 1 < 0 ∨ s.focusable = [] ∨
      (s.focusable.length : Int) - 1 < (s.focusable.length : Int) :=
    Or.inr (Or.inr (by omega))
  obtain ⟨n, hn⟩ := GetFocus_defined_of
    (s := { s with focused := (s.focusable.length : Int) - 1 }) hr
  refine ⟨{ state := { s with focused := (s.focusable.length : Int) - 1 }, ret := n,
            calls := adjustFocus o n, emitted := none }, ?_, rfl, hn, rfl⟩
  unfold FocusLast
  simp [ho, hn]

theorem SetFocus_returns {s : LayoutBase} {o : Option IWindow} (ho : GetFocus s = some o)
    (focus : Option IWindow) :
    ∃ r, SetFocus s focus = some r ∧
      ((r.ret = false ∧ r.calls = [] ∧ r.state = s) ∨
       (r.ret = true ∧ GetFocus r.state = some focus ∧ r.calls = adjustFocus o focus)) := by
  have hex : ∃ r, SetFocus s focus = some r := by
    cases focus with
    | none =>
      refine ⟨{ state := { s with focused := AUTO_FOCUS }, ret := true,
                calls := adjustFocus o none }, ?_⟩
      unfold SetFocus
      simp [ho]
    | some w =>
      by_cases hw : w ∈ s.focusable
      · exact ⟨_, scan_of_mem s w s.focusable 0 o ho hw⟩
      · exact ⟨_, scan_of_not_mem s w s.focusable 0 hw⟩
  obtain ⟨r, hr⟩ := hex
  exact ⟨r, hr, SetFocus_calls ho focus hr⟩

theorem SetFocusIndex_returns {s : LayoutBase} {o : Option IWindow} (ho : GetFocus s = some o)
    (index : Int) (hidx : index < (s.focusable.length : Int) ∨ s.focusable = []) :
    ∃ t cs, SetFocusIndex s index = some (t, cs) ∧
      ((index = s.focused ∧ cs = [] ∧ t = s) ∨
       (index ≠ s.focused ∧ t = { s with focused := index } ∧
         ∃ n, GetFocus t = some n ∧ cs = adjustFocus o n)) := by
  have hex : ∃ t cs, SetFocusIndex s index = some (t, cs) := by
    by_cases hi : s.focused = index
    · refine ⟨s, [], ?_⟩
      unfold SetFocusIndex
      simp [hi]
    · have hr : index < 0 ∨ s.focusable = [] ∨ index < (s.focusable.length : Int) := by
        rcases hidx with h | h
        · exact Or.inr (Or.inr h)
        · exact Or.inr (Or.inl h)
      obtain ⟨n, hn⟩ := GetFocus_defined_of (s := { s with focused := index }) hr
      refine ⟨{ s with focused := index }, adjustFocus o n, ?_⟩
      unfold SetFocusIndex
      simp [hi, ho, hn]
  obtain ⟨t, cs, h⟩ := hex
  exact ⟨t, cs, h, SetFocusIndex_calls ho index h⟩

/-- C12: every focus change goes through `adjustFocus(old, new)`, where `old`
is what `GetFocus()` gave before the index was written and `new` is what it
gives after (for `SetFocus`, the window asked for).  From every state in which
`GetFocus()` is defined, with a focusable vector whose size fits an `int`, each
of `FocusNext` (from an index below `INT_MAX`), `FocusPrev` (from an index above
`INT_MIN`), `FocusFirst`, `FocusLast`, `SetFocus` and `SetFocusIndex` (to an index
below the size of the vector, or on an empty vector) returns, and the calls it
makes are, in this order: `SetFrameColor(default)` and `Blur` on the old window if
there is one, then `SetFrameColor(focused)` and `Focus` on the new window if there
is one, and nothing else; a `SetFocus` that fails and a `SetFocusIndex` to the
current index make no call.  The index `FocusNext` leaves is below `INT_MAX`
again, and the one `FocusPrev` leaves is above `INT_MIN`. -/
theorem C12_focus_change_call_order (s : LayoutBase) (o : Option IWindow)
    (ho : GetFocus s = some o) (hlen : (s.focusable.length : Int) ≤ INT_MAX) :
    (s.focused < INT_MAX →
      ∃ r, FocusNext s = some r ∧ GetFocus r.state = some r.ret ∧
        r.calls = adjustFocus o r.ret ∧ r.state.focused < INT_MAX) ∧
    (INT_MIN < s.focused →
      ∃ r, FocusPrev s = some r ∧ GetFocus r.state = some r.ret ∧
        r.calls = adjustFocus o r.ret ∧ INT_MIN < r.state.focused) ∧
    (∃ r, FocusFirst s = some r ∧ r.state = { s with focused := 0 } ∧
      GetFocus r.state = some r.ret ∧ r.calls = adjustFocus o r.ret) ∧
    (∃ r, FocusLast s = some r ∧
      r.state = { s with focused := (s.focusable.length : Int) - 1 } ∧
      GetFocus r.state = some r.ret ∧ r.calls = adjustFocus o r.ret) ∧
    (∀ focus, ∃ r, SetFocus s focus = some r ∧
      ((r.ret = false ∧ r.calls = [] ∧ r.state = s) ∨
       (r.ret = true ∧ GetFocus r.state = some focus ∧ r.calls = adjustFocus o focus))) ∧
    (∀ index, index < (s.focusable.length : Int) ∨ s.focusable = [] →
      ∃ t cs, SetFocusIndex s index = some (t, cs) ∧
        ((index = s.focused ∧ cs = [] ∧ t = s) ∨
         (index ≠ s.focused ∧ t = { s with focused := index } ∧
           ∃ n, GetFocus t = some n ∧ cs = adjustFocus o n))) ∧
    (∀ a b : IWindow,
      adjustFocus none none = [] ∧
      adjustFocus (some a) none =
        [Call.SetFrameColor a FrameColor.CURSESPP_DEFAULT_FRAME_COLOR, Call.Blur a] ∧
      adjustFocus none (some b) =
        [Call.SetFrameColor b FrameColor.CURSESPP_FOCUSED_FRAME_COLOR, Call.Focus b] ∧
      adjustFocus (some a) (some b) =
        [Call.SetFrameColor a FrameColor.CURSESPP_DEFAULT_FRAME_COLOR, Call.Blur a,
         Call.SetFrameColor b FrameColor.CURSESPP_FOCUSED_FRAME_COLOR, Call.Focus b]) :=
  ⟨fun hhi => (FocusNext_returns ho).imp fun r h =>
     ⟨h.1, h.2.2.1, h.2.2.2, by rw [h.2.1]; exact advance_lt_INT_MAX s hhi hlen⟩,
   fun _ => (FocusPrev_returns ho).imp fun r h =>
     ⟨h.1, h.2.2.1, h.2.2.2, by rw [h.2.1]; exact INT_MIN_lt_retreat s⟩,
   FocusFirst_returns ho,
   FocusLast_returns ho, fun focus => SetFocus_returns ho focus,
   fun index hidx => SetFocusIndex_returns ho index hidx,
   fun _ _ => ⟨rfl, rfl, rfl, rfl⟩⟩

/-- The statement of C12 at `circularLayout`, whose focus is on window 101 at
index 2: `FocusNext` and `SetFocusIndex(4)` return, and each blurs window 101
before it focuses the new window. -/
theorem C12_witness :
    GetFocus circularLayout = some (some ⟨101, 1, 2⟩) ∧
    (circularLayout.focusable.length : Int) ≤ INT_MAX ∧
    circularLayout.focused < INT_MAX ∧
    ((4 : Int) < (circularLayout.focusable.length : Int) ∨ circularLayout.focusable = []) ∧
    (∃ r, FocusNext circularLayout = some r ∧ GetFocus r.state = some r.ret ∧
      r.calls = adjustFocus (some ⟨101, 1, 2⟩) r.ret ∧ r.state.focused < INT_MAX) ∧
    (∃ t cs, SetFocusIndex circularLayout 4 = some (t, cs) ∧
      (((4 : Int) = circularLayout.focused ∧ cs = [] ∧ t = circularLayout) ∨
       ((4 : Int) ≠ circularLayout.focused ∧ t = { circularLayout with focused := 4 } ∧
         ∃ n, GetFocus t = some n ∧ cs = adjustFocus (some ⟨101, 1, 2⟩) n))) ∧
    FocusNext circularLayout = some
      { state := { circularLayout with focused := 3 }, ret := some ⟨102, 2, 2⟩,
        calls := [Call.SetFrameColor ⟨101, 1, 2⟩ FrameColor.CURSESPP_DEFAULT_FRAME_COLOR,
                  Call.Blur ⟨101, 1, 2⟩,
                  Call.SetFrameColor ⟨102, 2, 2⟩ FrameColor.CURSESPP_FOCUSED_FRAME_COLOR,
                  Call.Focus ⟨102, 2, 2⟩],
        emitted := none } ∧
    SetFocusIndex circularLayout 4 = some
      ({ circularLayout with focused := 4 },
       [Call.SetFrameColor ⟨101, 1, 2⟩ FrameColor.CURSESPP_DEFAULT_FRAME_COLOR,
        Call.Blur ⟨101, 1, 2⟩,
        Call.SetFrameColor ⟨104, 4, 3⟩ FrameColor.CURSESPP_FOCUSED_FRAME_COLOR,
        Call.Focus ⟨104, 4, 3⟩]) :=
  ⟨by decide, by decide, by decide, Or.inl (by decide),
   (C12_focus_change_call_order circularLayout (some ⟨101, 1, 2⟩) (by decide)
      (by decide)).1 (by decide),
   (C12_focus_change_call_order circularLayout (some ⟨101, 1, 2⟩) (by decide)
      (by decide)).2.2.2.2.2.1 4 (Or.inl (by decide)),
   by decide, by decide⟩

/-! ## C13: backward steps past the first item in terminating mode -/

theorem retreat_terminating {s : LayoutBase}
    (hm : s.focusMode = FocusMode.FocusModeTerminating) (h : s.focused ≤ 0) :
    FocusPrev.retreat s = (NO_FOCUS, some Signal.FocusTerminated) := by
  unfold FocusPrev.retreat
  have h1 : s.focused - 1 < 0 := by omega
  have h2 : ¬ s.focusMode = FocusMode.FocusModeCircular := by
    rw [hm]
    simp
  rw [if_pos h1, if_neg h2]

/-- A backward step from index 0 in terminating mode. -/
theorem FocusPrev_terminate {s : LayoutBase}
    (hm : s.focusMode = FocusMode.FocusModeTerminating)
    (hlen : 1 ≤ s.focusable.length) (h : s.focused = 0) :
    FocusPrev s = some
      { state := { s with focused := NO_FOCUS }, ret := none,
        calls := adjustFocus s.focusable[0]? none,
        emitted := some (Signal.FocusTerminated, FocusDirection.FocusBackward) } := by
  have h₁ : GetFocus s = some (s.focusable[0]?) :=
    GetFocus_concrete (i := 0) h (by omega)
  have ha := retreat_terminating hm (le_of_eq h)
  have h₂ : GetFocus { s with focused := (FocusPrev.retreat s).1 } = some none := by
    rw [ha]
    exact GetFocus_negative (s := { s with focused := NO_FOCUS })
      (show NO_FOCUS < 0 by decide)
  rw [FocusPrev_eq h₁ h₂, ha]
  rfl

/-- A backward step from the terminated sentinel in terminating mode. -/
theorem FocusPrev_terminated {s : LayoutBase}
    (hm : s.focusMode = FocusMode.FocusModeTerminating) (h : s.focused = NO_FOCUS) :
    FocusPrev s = some
      { state := s, ret := none, calls := [],
        emitted := some (Signal.FocusTerminated, FocusDirection.FocusBackward) } := by
  have hneg : s.focused < 0 := by
    rw [h]
    decide
  have h₁ : GetFocus s = some none := GetFocus_negative hneg
  have ha := retreat_terminating hm (le_of_lt hneg)
  have hs : { s with focused := (FocusPrev.retreat s).1 } = s := by
    rw [ha, ← h]
  have h₂ : GetFocus { s with focused := (FocusPrev.retreat s).1 } = some none := by
    rw [hs]
    exact h₁
  rw [FocusPrev_eq h₁ h₂, hs, ha]
  rfl

theorem FocusPrevN_succ {s : LayoutBase} {r : FocusResult} {n : Nat} {t : LayoutBase}
    {rs : List FocusResult} (h₁ : FocusPrev s = some r)
    (h₂ : FocusPrevN n r.state = some (t, rs)) :
    FocusPrevN (n + 1) s = some (t, r :: rs) := by
  simp [FocusPrevN, h₁, h₂]

/-- C13: in terminating mode, `FocusPrev` from index 0 of a layout with
`M ≥ 1` focusable windows sets the focus index to the terminated sentinel, makes
exactly the calls `SetFrameColor(default)` and `Blur` on the window that was
focused, returns no window and raises `FocusTerminated(FocusBackward)`; from
then on any number of further `FocusPrev` calls each leave the state as it is,
make no call, return no window and raise `FocusTerminated(FocusBackward)`. -/
theorem C13_terminating_before_the_start (s : LayoutBase)
    (hm : s.focusMode = FocusMode.FocusModeTerminating)
    (hlen : 1 ≤ s.focusable.length) (h : s.focused = 0) :
    (∃ w, s.focusable[0]? = some w ∧ FocusPrev s = some
      { state := { s with focused := NO_FOCUS }, ret := none,
        calls := [Call.SetFrameColor w FrameColor.CURSESPP_DEFAULT_FRAME_COLOR, Call.Blur w],
        emitted := some (Signal.FocusTerminated, FocusDirection.FocusBackward) }) ∧
    ∀ n : Nat, FocusPrevN n { s with focused := NO_FOCUS } = some
      ({ s with focused := NO_FOCUS },
        List.replicate n
          { state := { s with focused := NO_FOCUS }, ret := none, calls := [],
            emitted := some (Signal.FocusTerminated, FocusDirection.FocusBackward) }) := by
  constructor
  · have h0 : 0 < s.focusable.length := by omega
    refine ⟨s.focusable[0], List.getElem?_eq_getElem h0, ?_⟩
    rw [FocusPrev_terminate hm hlen h, List.getElem?_eq_getElem h0]
    rfl
  · intro n
    induction n with
    | zero => rfl
    | succ n ih =>
      have hstep := FocusPrev_terminated (s := { s with focused := NO_FOCUS }) hm rfl
      rw [FocusPrevN_succ hstep ih]
      rfl

/-- The statement of C13 at `terminatingLayout` with the focus moved to index
0, with three further steps. -/
theorem C13_witness :
    ({ terminatingLayout with focused := 0 } : LayoutBase).focusMode =
      FocusMode.FocusModeTerminating ∧
    1 ≤ ({ terminatingLayout with focused := 0 } : LayoutBase).focusable.length ∧
    FocusPrev { terminatingLayout with focused := 0 } = some
      { state := { terminatingLayout with focused := NO_FOCUS }, ret := none,
        calls := [Call.SetFrameColor ⟨201, 1, 0⟩ FrameColor.CURSESPP_DEFAULT_FRAME_COLOR,
                  Call.Blur ⟨201, 1, 0⟩],
        emitted := some (Signal.FocusTerminated, FocusDirection.FocusBackward) } ∧
    FocusPrevN 3 { terminatingLayout with focused := NO_FOCUS } = some
      ({ terminatingLayout with focused := NO_FOCUS },
        List.replicate 3
          { state := { terminatingLayout with focused := NO_FOCUS }, ret := none, calls := [],
            emitted := some (Signal.FocusTerminated, FocusDirection.FocusBackward) }) :=
  ⟨rfl, by decide, by decide,
   (C13_terminating_before_the_start { terminatingLayout with focused := 0 } rfl
      (by decide) rfl).2 3⟩

/-! ## C14: traversal without focusable windows -/

theorem FocusNext_empty {s : LayoutBase} (he : s.focusable = []) :
    FocusNext s = some
      { state := { s with focused := (FocusNext.advance s).1 }, ret := none, calls := [],
        emitted := (FocusNext.advance s).2.map (fun x => (x, FocusDirection.FocusForward)) } := by
  have h₁ : GetFocus s = some none := GetFocus_empty he
  have h₂ : GetFocus { s with focused := (FocusNext.advance s).1 } = some none :=
    GetFocus_empty (s := { s with focused := (FocusNext.advance s).1 }) he
  rw [FocusNext_eq h₁ h₂]
  rfl

theorem FocusPrev_empty {s : LayoutBase} (he : s.focusable = []) :
    FocusPrev s = some
      { state := { s with focused := (FocusPrev.retreat s).1 }, ret := none, calls := [],
        emitted := (FocusPrev.retreat s).2.map (fun x => (x, FocusDirection.FocusBackward)) } := by
  have h₁ : GetFocus s = some none := GetFocus_empty he
  have h₂ : GetFocus { s with focused := (FocusPrev.retreat s).1 } = some none :=
    GetFocus_empty (s := { s with focused := (FocusPrev.retreat s).1 }) he
  rw [FocusPrev_eq h₁ h₂]
  rfl

theorem advance_empty {s : LayoutBase} (he : s.focusable = []) :
    (s.focusMode = FocusMode.FocusModeCircular → -1 ≤ s.focused →
      FocusNext.advance s = (0, some Signal.FocusWrapped)) ∧
    (s.focusMode = FocusMode.FocusModeCircular → s.focused = NO_FOCUS →
      FocusNext.advance s = (AUTO_FOCUS, none)) ∧
    (s.focusMode = FocusMode.FocusModeTerminating → -2 ≤ s.focused →
      FocusNext.advance s = (NO_FOCUS, some Signal.FocusTerminated)) := by
  have hl : (s.focusable.length : Int) = 0 := by simp [he]
  refine ⟨?_, ?_, ?_⟩
  · intro hm h
    unfold FocusNext.advance
    have h1 : ¬ (s.focused = NO_FOCUS ∧ s.focusMode = FocusMode.FocusModeTerminating) := by
      rw [hm]
      simp
    have h2 : s.focused + 1 ≥ AUTO_FOCUS := by
      unfold AUTO_FOCUS
      omega
    have h3 : s.focused + 1 ≥ (s.focusable.length : Int) := by omega
    rw [if_neg h1, if_pos h2, if_pos h3, if_pos hm]
  · intro hm h
    unfold FocusNext.advance
    have h1 : ¬ (s.focused = NO_FOCUS ∧ s.focusMode = FocusMode.FocusModeTerminating) := by
      rw [hm]
      simp
    have h2 : s.focused + 1 ≥ AUTO_FOCUS := by
      rw [h]
      decide
    have h3 : ¬ s.focused + 1 ≥ (s.focusable.length : Int) := by
      rw [h, hl]
      decide
    rw [if_neg h1, if_pos h2, if_neg h3, h]
    rfl
  · intro hm h
    by_cases hn : s.focused = NO_FOCUS
    · exact advance_terminated hm hn
    · unfold FocusNext.advance
      have h1 : ¬ (s.focused = NO_FOCUS ∧ s.focusMode = FocusMode.FocusModeTerminating) :=
        fun hc => hn hc.1
      have h2 : s.focused + 1 ≥ AUTO_FOCUS := by
        unfold AUTO_FOCUS
        omega
      have h3 : s.focused + 1 ≥ (s.focusable.length : Int) := by
        unfold NO_FOCUS at hn
        omega
      have h4 : ¬ s.focusMode = FocusMode.FocusModeCircular := by
        rw [hm]
        simp
      rw [if_neg h1, if_pos h2, if_pos h3, if_neg h4]

theorem retreat_empty {s : LayoutBase} (he : s.focusable = []) :
    (s.focusMode = FocusMode.FocusModeCircular → s.focused ≤ 0 →
      FocusPrev.retreat s = (AUTO_FOCUS, some Signal.FocusWrapped)) ∧
    (s.focusMode = FocusMode.FocusModeTerminating → s.focused ≤ 0 →
      FocusPrev.retreat s = (NO_FOCUS, some Signal.FocusTerminated)) ∧
    (0 < s.focused → FocusPrev.retreat s = (s.focused - 1, none)) := by
  have hl : (s.focusable.length : Int) = 0 := by simp [he]
  refine ⟨?_, ?_, ?_⟩
  · intro hm h
    unfold FocusPrev.retreat
    have h1 : s.focused - 1 < 0 := by omega
    rw [if_pos h1, if_pos hm, hl]
    rfl
  · intro hm h
    exact retreat_terminating hm h
  · intro h
    unfold FocusPrev.retreat
    have h1 : ¬ s.focused - 1 < 0 := by omega
    rw [if_neg h1]

theorem advance_below_sentinels {s : LayoutBase} (h : s.focused < NO_FOCUS) :
    FocusNext.advance s = (s.focused, none) := by
  unfold NO_FOCUS at h
  unfold FocusNext.advance
  have h1 : ¬ (s.focused = NO_FOCUS ∧ s.focusMode = FocusMode.FocusModeTerminating) := by
    intro hc
    have := hc.1
    unfold NO_FOCUS at this
    omega
  have h2 : ¬ s.focused + 1 ≥ AUTO_FOCUS := by
    unfold AUTO_FOCUS
    omega
  rw [if_neg h1, if_neg h2]

/-- C14, as amended: on a layout without focusable windows, in either mode,
`FocusNext` from any focus index below `INT_MAX` and `FocusPrev` from any focus
index above `INT_MIN` return, return no window, make no call on any window and
leave both vectors and the mode as they are (at `INT_MAX` the `focused + 1` of
`FocusNext`, and at `INT_MIN` the `--focused` of `FocusPrev`, overflow an `int`).
The focus index is written all the same.  `FocusNext` leaves 0 and raises
`FocusWrapped` in circular mode from any index from the auto sentinel up, leaves
the auto sentinel there from the terminated sentinel, leaves the terminated
sentinel and raises `FocusTerminated` in terminating mode, and from an index
below both sentinels it leaves the index and raises nothing.  `FocusPrev` from
an index of at most 0 leaves the auto sentinel and raises `FocusWrapped` in
circular mode, leaves the terminated sentinel and raises `FocusTerminated` in
terminating mode, and from an index above 0 it goes one down. -/
theorem C14_traversal_without_focusables (s : LayoutBase) (he : s.focusable = []) :
    (s.focused < INT_MAX →
      ∃ r, FocusNext s = some r ∧ r.ret = none ∧ r.calls = [] ∧
        r.state.focusable = [] ∧ r.state.children = s.children ∧
        r.state.focusMode = s.focusMode ∧
        (s.focusMode = FocusMode.FocusModeCircular → -1 ≤ s.focused →
          r.state.focused = 0 ∧
          r.emitted = some (Signal.FocusWrapped, FocusDirection.FocusForward)) ∧
        (s.focusMode = FocusMode.FocusModeCircular → s.focused = NO_FOCUS →
          r.state.focused = AUTO_FOCUS ∧ r.emitted = none) ∧
        (s.focusMode = FocusMode.FocusModeTerminating → -2 ≤ s.focused →
          r.state.focused = NO_FOCUS ∧
          r.emitted = some (Signal.FocusTerminated, FocusDirection.FocusForward)) ∧
        (s.focused < NO_FOCUS → r.state.focused = s.focused ∧ r.emitted = none)) ∧
    (INT_MIN < s.focused →
      ∃ r, FocusPrev s = some r ∧ r.ret = none ∧ r.calls = [] ∧
        r.state.focusable = [] ∧ r.state.children = s.children ∧
        r.state.focusMode = s.focusMode ∧
        (s.focusMode = FocusMode.FocusModeCircular → s.focused ≤ 0 →
          r.state.focused = AUTO_FOCUS ∧
          r.emitted = some (Signal.FocusWrapped, FocusDirection.FocusBackward)) ∧
        (s.focusMode = FocusMode.FocusModeTerminating → s.focused ≤ 0 →
          r.state.focused = NO_FOCUS ∧
          r.emitted = some (Signal.FocusTerminated, FocusDirection.FocusBackward)) ∧
        (0 < s.focused → r.state.focused = s.focused - 1 ∧ r.emitted = none)) := by
  obtain ⟨a1, a2, a3⟩ := advance_empty he
  obtain ⟨b1, b2, b3⟩ := retreat_empty he
  constructor
  · intro _
    refine ⟨_, FocusNext_empty he, rfl, rfl, he, rfl, rfl, ?_, ?_, ?_, ?_⟩
    · intro hm h
      simp [a1 hm h]
    · intro hm h
      simp [a2 hm h]
    · intro hm h
      simp [a3 hm h]
    · intro h
      simp [advance_below_sentinels h]
  · intro _
    refine ⟨_, FocusPrev_empty he, rfl, rfl, he, rfl, rfl, ?_, ?_, ?_⟩
    · intro hm h
      simp [b1 hm h]
    · intro hm h
      simp [b2 hm h]
    · intro h
      simp [b3 h]

/-- The statement of C14, as amended, at a fresh layout, whose focus index is
the auto sentinel. -/
theorem C14_witness :
    LayoutBase.new.focusable = [] ∧
    LayoutBase.new.focused < INT_MAX ∧ INT_MIN < LayoutBase.new.focused ∧
    (∃ r, FocusNext LayoutBase.new = some r ∧ r.ret = none ∧ r.calls = []) ∧
    (∃ r, FocusPrev LayoutBase.new = some r ∧ r.ret = none ∧ r.calls = []) :=
  ⟨rfl, by decide, by decide,
   ((C14_traversal_without_focusables LayoutBase.new rfl).1 (by decide)).imp
     (fun _ h => ⟨h.1, h.2.1, h.2.2.1⟩),
   ((C14_traversal_without_focusables LayoutBase.new rfl).2 (by decide)).imp
     (fun _ h => ⟨h.1, h.2.1, h.2.2.1⟩)⟩

/-- C14 as stated fails: on a fresh layout, which has no focusable window,
`FocusNext` moves the focus index from the auto sentinel to 0 and raises
`FocusWrapped`; in terminating mode `FocusPrev` moves it from the auto sentinel
to the terminated sentinel. -/
theorem C14_counterexample :
    LayoutBase.new.focusable = [] ∧ GetFocusIndex LayoutBase.new = -1 ∧
    FocusNext LayoutBase.new = some
      { state := { LayoutBase.new with focused := 0 }, ret := none, calls := [],
        emitted := some (Signal.FocusWrapped, FocusDirection.FocusForward) } ∧
    FocusPrev (SetFocusMode LayoutBase.new FocusMode.FocusModeTerminating) = some
      { state := { LayoutBase.new with
                   focused := -2, focusMode := FocusMode.FocusModeTerminating },
        ret := none, calls := [],
        emitted := some (Signal.FocusTerminated, FocusDirection.FocusBackward) } := by
  refine ⟨?_, ?_, ?_, ?_⟩ <;> decide

/-! ## C18: the guard of `FocusNext` -/

/-- C18: the guard `focused + 1 >= AUTO_FOCUS` of `FocusNext` is the test
`focused >= -2` for every `int` index below `INT_MAX` (at `INT_MAX` the sum
`focused + 1` overflows), so it lets both sentinels and every concrete index
through.  From any such index of a layout whose focusable vector has at most
`INT_MAX` elements, the incremented index is an `int` again, the index
`FocusNext` leaves is again at least -2 and below `INT_MAX`, and, unless the
layout is terminated in terminating mode, the index is incremented and then
wrapped or terminated when it reaches the number of focusable windows.  From the
auto sentinel with `M ≥ 1` focusable windows `FocusNext` focuses index 0, returns
`focusable[0]` and raises nothing, in either mode; in circular mode from the
terminated sentinel it leaves the auto sentinel, returns no window, makes no
call and raises nothing. -/
theorem C18_FocusNext_guard (s : LayoutBase) (hge : -2 ≤ s.focused)
    (hhi : s.focused < INT_MAX) (hlen : (s.focusable.length : Int) ≤ INT_MAX) :
    (s.focused + 1 ≥ AUTO_FOCUS ∧ s.focused + 1 ≤ INT_MAX) ∧
    (-2 ≤ (FocusNext.advance s).1 ∧ (FocusNext.advance s).1 < INT_MAX) ∧
    (∀ f : Int, f < INT_MAX → (f + 1 ≥ AUTO_FOCUS ↔ NO_FOCUS ≤ f)) ∧
    (¬ (s.focused = NO_FOCUS ∧ s.focusMode = FocusMode.FocusModeTerminating) →
      FocusNext.advance s =
        if s.focused + 1 ≥ (s.focusable.length : Int) then
          if s.focusMode = FocusMode.FocusModeCircular then (0, some Signal.FocusWrapped)
          else (NO_FOCUS, some Signal.FocusTerminated)
        else (s.focused + 1, none)) ∧
    (s.focused = AUTO_FOCUS → 1 ≤ s.focusable.length →
      (s.focusable[0]?).isSome = true ∧
      FocusNext s = some
        { state := { s with focused := 0 }, ret := s.focusable[0]?,
          calls := adjustFocus none s.focusable[0]?, emitted := none }) ∧
    (s.focusMode = FocusMode.FocusModeCircular → s.focused = NO_FOCUS →
      FocusNext s = some
        { state := { s with focused := AUTO_FOCUS }, ret := none, calls := [],
          emitted := none }) := by
  have hg : s.focused + 1 ≥ AUTO_FOCUS := by
    unfold AUTO_FOCUS
    omega
  have hmax : s.focused + 1 ≤ INT_MAX := by omega
  have hinv : -2 ≤ (FocusNext.advance s).1 := by
    unfold FocusNext.advance AUTO_FOCUS NO_FOCUS
    split_ifs <;> simp only <;> omega
  refine ⟨⟨hg, hmax⟩, ⟨hinv, advance_lt_INT_MAX s hhi hlen⟩, ?_, ?_, ?_, ?_⟩
  · intro f _
    unfold AUTO_FOCUS NO_FOCUS
    omega
  · intro h1
    unfold FocusNext.advance
    rw [if_neg h1, if_pos hg]
  · intro h hlen
    have h0 : 0 < s.focusable.length := by omega
    have hneg : s.focused < 0 := by
      rw [h]
      decide
    have h₁ : GetFocus s = some none := GetFocus_negative hneg
    have ha : FocusNext.advance s = (0, none) := by
      unfold FocusNext.advance
      have h1 : ¬ (s.focused = NO_FOCUS ∧ s.focusMode = FocusMode.FocusModeTerminating) := by
        rw [h]
        simp [AUTO_FOCUS, NO_FOCUS]
      have h3 : ¬ s.focused + 1 ≥ (s.focusable.length : Int) := by
        rw [h]
        unfold AUTO_FOCUS
        omega
      rw [if_neg h1, if_pos hg, if_neg h3, h]
      rfl
    have h₂ : GetFocus { s with focused := (FocusNext.advance s).1 } =
        some (s.focusable[0]?) := by
      rw [ha]
      exact GetFocus_concrete (s := { s with focused := 0 }) (i := 0) rfl h0
    refine ⟨?_, ?_⟩
    · rw [List.getElem?_eq_getElem h0]
      rfl
    · rw [FocusNext_eq h₁ h₂, ha]
      rfl
  · intro hm h
    have hneg : s.focused < 0 := by
      rw [h]
      decide
    have h₁ : GetFocus s = some none := GetFocus_negative hneg
    have ha : FocusNext.advance s = (AUTO_FOCUS, none) := by
      unfold FocusNext.advance
      have h1 : ¬ (s.focused = NO_FOCUS ∧ s.focusMode = FocusMode.FocusModeTerminating) := by
        rw [hm]
        simp
      have h3 : ¬ s.focused + 1 ≥ (s.focusable.length : Int) := by
        rw [h]
        unfold NO_FOCUS
        omega
      rw [if_neg h1, if_pos hg, if_neg h3, h]
      rfl
    have h₂ : GetFocus { s with focused := (FocusNext.advance s).1 } = some none := by
      rw [ha]
      exact GetFocus_negative (s := { s with focused := AUTO_FOCUS })
        (show AUTO_FOCUS < 0 by decide)
    rw [FocusNext_eq h₁ h₂, ha]
    rfl

/-- The statement of C18 at `terminatingLayout` with the focus at the auto
sentinel: the first forward step lands on index 0 without a signal. -/
theorem C18_witness :
    (-2 : Int) ≤ ({ terminatingLayout with focused := AUTO_FOCUS } : LayoutBase).focused ∧
    ({ terminatingLayout with focused := AUTO_FOCUS } : LayoutBase).focused < INT_MAX ∧
    (({ terminatingLayout with focused := AUTO_FOCUS } : LayoutBase).focusable.length : Int)
      ≤ INT_MAX ∧
    FocusNext { terminatingLayout with focused := AUTO_FOCUS } = some
      { state := { terminatingLayout with focused := 0 }, ret := some ⟨201, 1, 0⟩,
        calls := [Call.SetFrameColor ⟨201, 1, 0⟩ FrameColor.CURSESPP_FOCUSED_FRAME_COLOR,
                  Call.Focus ⟨201, 1, 0⟩],
        emitted := none } :=
  ⟨by decide, by decide, by decide,
   ((C18_FocusNext_guard { terminatingLayout with focused := AUTO_FOCUS }
      (by decide) (by decide) (by decide)).2.2.2.2.1 rfl (by decide)).2⟩

/-! ## C20: forward and backward steps undo each other -/

/-- C20: in circular mode, from a concrete index `i` of a layout with `M ≥ 1`
focusable windows, `FocusNext` followed by `FocusPrev`, and `FocusPrev` followed
by `FocusNext`, both return and end in the starting state: the focus index is
`i` again and both vectors are as they were. -/
theorem C20_next_and_prev_are_inverse (s : LayoutBase) (i : Nat)
    (hm : s.focusMode = FocusMode.FocusModeCircular) (h : s.focused = (i : Int))
    (hi : i < s.focusable.length) :
    (∃ r₁ r₂, FocusNext s = some r₁ ∧ FocusPrev r₁.state = some r₂ ∧ r₂.state = s) ∧
    (∃ r₁ r₂, FocusPrev s = some r₁ ∧ FocusNext r₁.state = some r₂ ∧ r₂.state = s) := by
  have hlen : 1 ≤ s.focusable.length := by omega
  constructor
  · by_cases hlast : i + 1 < s.focusable.length
    · have h1 := FocusNext_inner h hlast
      have h2 := FocusPrev_inner (s := { s with focused := ((i + 1 : Nat) : Int) }) (i := i)
        rfl hlast
      refine ⟨_, _, h1, h2, ?_⟩
      show ({ s with focused := (i : Int) } : LayoutBase) = s
      rw [← h]
    · have hl : s.focused = (s.focusable.length : Int) - 1 := by omega
      have h1 := FocusNext_wrap hm hlen hl
      have h2 := FocusPrev_wrap (s := { s with focused := 0 }) hm hlen rfl
      refine ⟨_, _, h1, h2, ?_⟩
      show ({ s with focused := (s.focusable.length : Int) - 1 } : LayoutBase) = s
      rw [← hl]
  · cases i with
    | zero =>
      have h0 : s.focused = 0 := by
        rw [h]
        rfl
      have h1 := FocusPrev_wrap hm hlen h0
      have h2 := FocusNext_wrap (s := { s with focused := (s.focusable.length : Int) - 1 })
        hm hlen rfl
      refine ⟨_, _, h1, h2, ?_⟩
      show ({ s with focused := 0 } : LayoutBase) = s
      rw [← h0]
    | succ j =>
      have h1 := FocusPrev_inner h hi
      have h2 := FocusNext_inner (s := { s with focused := (j : Int) }) (i := j) rfl hi
      refine ⟨_, _, h1, h2, ?_⟩
      show ({ s with focused := ((j + 1 : Nat) : Int) } : LayoutBase) = s
      rw [← h]

/-- The statement of C20 at `circularLayout`. -/
theorem C20_witness :
    circularLayout.focusMode = FocusMode.FocusModeCircular ∧
    circularLayout.focused = ((2 : Nat) : Int) ∧ 2 < circularLayout.focusable.length ∧
    (∃ r₁ r₂, FocusNext circularLayout = some r₁ ∧ FocusPrev r₁.state = some r₂ ∧
      r₂.state = circularLayout) ∧
    (∃ r₁ r₂, FocusPrev circularLayout = some r₁ ∧ FocusNext r₁.state = some r₂ ∧
      r₂.state = circularLayout) :=
  ⟨rfl, rfl, by decide, C20_next_and_prev_are_inverse circularLayout 2 rfl rfl (by decide)⟩

/-! ## Rounding to `float` -/

theorem floor_le_roundHalfEven (x : ℚ) : ⌊x⌋ ≤ roundHalfEven x := by
  unfold roundHalfEven
  split_ifs <;> omega

theorem roundHalfEven_le_floor_add_one (x : ℚ) : roundHalfEven x ≤ ⌊x⌋ + 1 := by
  unfold roundHalfEven
  split_ifs <;> omega

theorem roundHalfEven_intCast (z : ℤ) : roundHalfEven (z : ℚ) = z := by
  unfold roundHalfEven
  simp

/-- A value below the midpoint `N - 1/2` is not rounded up to `N`. -/
theorem roundHalfEven_le_of_lt_half {x : ℚ} {N : ℤ} (h : x < (N : ℚ) - 1 / 2) :
    roundHalfEven x ≤ N - 1 := by
  have hfl : ⌊x⌋ ≤ N - 1 := by
    have h1 : x < (N : ℚ) := by linarith
    have h2 : ⌊x⌋ < N := Int.floor_lt.2 h1
    omega
  rcases lt_or_eq_of_le hfl with h2 | h2
  · have := roundHalfEven_le_floor_add_one x
    omega
  · have hx : x - (⌊x⌋ : ℚ) < 1 / 2 := by
      rw [h2]
      push_cast
      linarith
    unfold roundHalfEven
    rw [if_pos hx]
    exact hfl

/-- A value within half a unit of the integer `z` is rounded to `z`. -/
theorem roundHalfEven_eq_of_near {x : ℚ} {z : ℤ} (h₁ : (z : ℚ) - 1 / 2 < x)
    (h₂ : x < (z : ℚ) + 1 / 2) : roundHalfEven x = z := by
  by_cases hx : (z : ℚ) ≤ x
  · have hf : ⌊x⌋ = z := Int.floor_eq_iff.2 ⟨hx, by linarith⟩
    unfold roundHalfEven
    rw [hf, if_pos (by linarith)]
  · have hf : ⌊x⌋ = z - 1 := Int.floor_eq_iff.2 ⟨by push_cast; linarith, by push_cast; linarith⟩
    unfold roundHalfEven
    rw [hf]
    have h3 : ¬ x - ((z - 1 : ℤ) : ℚ) < 1 / 2 := by
      push_cast
      linarith
    have h4 : 1 / 2 < x - ((z - 1 : ℤ) : ℚ) := by
      push_cast
      linarith
    rw [if_neg h3, if_pos h4]
    omega

theorem roundHalfEven_mono {x y : ℚ} (h : x ≤ y) : roundHalfEven x ≤ roundHalfEven y := by
  have hf : ⌊x⌋ ≤ ⌊y⌋ := Int.floor_mono h
  rcases lt_or_eq_of_le hf with h1 | h1
  · have h2 := roundHalfEven_le_floor_add_one x
    have h3 := floor_le_roundHalfEven y
    omega
  · have hq : (⌊x⌋ : ℚ) = (⌊y⌋ : ℚ) := by rw [h1]
    unfold roundHalfEven
    rw [← h1]
    split_ifs <;> first | omega | (exfalso; linarith)

theorem two_zpow_pos (k : ℤ) : (0 : ℚ) < 2 ^ k := zpow_pos (by norm_num) k

theorem two_zpow_split (e k : ℤ) : (2 : ℚ) ^ k * 2 ^ (e - k) = 2 ^ e := by
  rw [← zpow_add₀ (by norm_num : (2 : ℚ) ≠ 0)]
  congr 1
  ring

theorem ulp_pos (x : ℚ) : 0 < ulp x := two_zpow_pos _

/-- The binade of a positive value: `2 ^ 23 ≤ x / ulp x < 2 ^ 24`. -/
theorem scaled_bounds {x : ℚ} (hx : 0 < x) :
    (2 : ℚ) ^ (23 : ℤ) ≤ x / ulp x ∧ x / ulp x < (2 : ℚ) ^ (24 : ℤ) := by
  have h1 : ((2 : ℕ) : ℚ) ^ Int.log 2 x ≤ x := Int.zpow_log_le_self (by norm_num) hx
  have h2 : x < ((2 : ℕ) : ℚ) ^ (Int.log 2 x + 1) := Int.lt_zpow_succ_log_self (by norm_num) x
  rw [Nat.cast_ofNat] at h1 h2
  have hu : ulp x = 2 ^ (Int.log 2 x - 23) := by
    unfold ulp
    rw [abs_of_pos hx]
  have hup := ulp_pos x
  constructor
  · rw [le_div_iff₀ hup, hu, ← zpow_add₀ (by norm_num : (2 : ℚ) ≠ 0)]
    have e : (23 : ℤ) + (Int.log 2 x - 23) = Int.log 2 x := by ring
    rw [e]
    exact h1
  · rw [div_lt_iff₀ hup, hu, ← zpow_add₀ (by norm_num : (2 : ℚ) ≠ 0)]
    have e : (24 : ℤ) + (Int.log 2 x - 23) = Int.log 2 x + 1 := by ring
    rw [e]
    exact h2

theorem toFloat_zero : toFloat 0 = 0 := by
  unfold toFloat
  simp

theorem toFloat_of_pos {x : ℚ} (hx : 0 < x) :
    toFloat x = (roundHalfEven (x / ulp x) : ℚ) * ulp x := by
  unfold toFloat
  rw [if_neg (ne_of_gt hx)]

/-- A positive value is rounded to a value of its own binade, the upper end
included. -/
theorem toFloat_bounds {x : ℚ} (hx : 0 < x) :
    (2 : ℚ) ^ Int.log 2 x ≤ toFloat x ∧ toFloat x ≤ (2 : ℚ) ^ (Int.log 2 x + 1) := by
  obtain ⟨h1, h2⟩ := scaled_bounds hx
  have hu : ulp x = 2 ^ (Int.log 2 x - 23) := by
    unfold ulp
    rw [abs_of_pos hx]
  have hup := ulp_pos x
  have r1 : ((2 ^ 23 : ℤ) : ℚ) ≤ (roundHalfEven (x / ulp x) : ℚ) := by
    have := roundHalfEven_mono (x := ((2 ^ 23 : ℤ) : ℚ)) (y := x / ulp x) (by
      push_cast
      exact_mod_cast h1)
    rw [roundHalfEven_intCast] at this
    exact_mod_cast this
  have r2 : (roundHalfEven (x / ulp x) : ℚ) ≤ ((2 ^ 24 : ℤ) : ℚ) := by
    have := roundHalfEven_mono (x := x / ulp x) (y := ((2 ^ 24 : ℤ) : ℚ)) (by
      push_cast
      exact_mod_cast h2.le)
    rw [roundHalfEven_intCast] at this
    exact_mod_cast this
  rw [toFloat_of_pos hx]
  constructor
  · have e : (2 : ℚ) ^ Int.log 2 x = ((2 ^ 23 : ℤ) : ℚ) * ulp x := by
      rw [hu, ← two_zpow_split (Int.log 2 x) 23]
      norm_num
    rw [e]
    exact mul_le_mul_of_nonneg_right r1 hup.le
  · have e : (2 : ℚ) ^ (Int.log 2 x + 1) = ((2 ^ 24 : ℤ) : ℚ) * ulp x := by
      have e1 : Int.log 2 x - 23 = Int.log 2 x + 1 - 24 := by ring
      rw [hu, e1, ← two_zpow_split (Int.log 2 x + 1) 24]
      norm_num
    rw [e]
    exact mul_le_mul_of_nonneg_right r2 hup.le

theorem toFloat_nonneg {x : ℚ} (hx : 0 ≤ x) : 0 ≤ toFloat x := by
  rcases eq_or_lt_of_le hx with h | h
  · rw [← h, toFloat_zero]
  · exact le_trans (two_zpow_pos _).le (toFloat_bounds h).1

/-- Rounding to `float` is monotone on the non-negative values. -/
theorem toFloat_mono {x y : ℚ} (hx : 0 ≤ x) (h : x ≤ y) : toFloat x ≤ toFloat y := by
  rcases eq_or_lt_of_le hx with h0 | h0
  · rw [← h0, toFloat_zero]
    exact toFloat_nonneg (le_trans hx h)
  · have hy : 0 < y := lt_of_lt_of_le h0 h
    have hlog : Int.log 2 x ≤ Int.log 2 y := Int.log_mono_right h0 h
    rcases lt_or_eq_of_le hlog with hl | hl
    · have h1 := (toFloat_bounds h0).2
      have h2 := (toFloat_bounds hy).1
      have h3 : (2 : ℚ) ^ (Int.log 2 x + 1) ≤ (2 : ℚ) ^ Int.log 2 y :=
        zpow_le_zpow_right₀ (by norm_num) (by omega)
      linarith
    · have hu : ulp x = ulp y := by
        unfold ulp
        rw [abs_of_pos h0, abs_of_pos hy, hl]
      rw [toFloat_of_pos h0, toFloat_of_pos hy, hu]
      have hup := ulp_pos y
      have hdiv : x / ulp y ≤ y / ulp y := div_le_div_of_nonneg_right h hup.le
      have := roundHalfEven_mono hdiv
      exact mul_le_mul_of_nonneg_right (by exact_mod_cast this) hup.le

theorem log_eq_of_bounds {x : ℚ} {e : ℤ} (h₁ : (2 : ℚ) ^ e ≤ x) (h₂ : x < (2 : ℚ) ^ (e + 1)) :
    Int.log 2 x = e := by
  have hx : 0 < x := lt_of_lt_of_le (two_zpow_pos e) h₁
  have a : e ≤ Int.log 2 x := by
    rw [← Int.zpow_le_iff_le_log (by norm_num) hx, Nat.cast_ofNat]
    exact h₁
  have b : Int.log 2 x < e + 1 := by
    rw [← Int.lt_zpow_iff_log_lt (by norm_num) hx, Nat.cast_ofNat]
    exact h₂
  omega

theorem ulp_eq_of_bounds {x : ℚ} {e : ℤ} (h₁ : (2 : ℚ) ^ e ≤ x) (h₂ : x < (2 : ℚ) ^ (e + 1)) :
    ulp x = (2 : ℚ) ^ (e - 23) := by
  have hx : 0 < x := lt_of_lt_of_le (two_zpow_pos e) h₁
  unfold ulp
  rw [abs_of_pos hx, log_eq_of_bounds h₁ h₂]

/-- The value of `toFloat` at `x`, from the binade `e` of `x` and the integer
`z` nearest to `x` scaled by that binade. -/
theorem toFloat_eq_of_near {x : ℚ} (e z : ℤ) (h₁ : (2 : ℚ) ^ e ≤ x)
    (h₂ : x < (2 : ℚ) ^ (e + 1)) (h₃ : (z : ℚ) - 1 / 2 < x / (2 : ℚ) ^ (e - 23))
    (h₄ : x / (2 : ℚ) ^ (e - 23) < (z : ℚ) + 1 / 2) :
    toFloat x = (z : ℚ) * (2 : ℚ) ^ (e - 23) := by
  have hx : 0 < x := lt_of_lt_of_le (two_zpow_pos e) h₁
  rw [toFloat_of_pos hx, ulp_eq_of_bounds h₁ h₂, roundHalfEven_eq_of_near h₃ h₄]

/-- A value with at most 24 significant bits is a `float`: rounding leaves it
as it is. -/
theorem toFloat_of_dyadic (m k : ℤ) (hm₀ : 0 < m) (hm : m ≤ 2 ^ 24) :
    toFloat ((m : ℚ) * (2 : ℚ) ^ k) = (m : ℚ) * (2 : ℚ) ^ k := by
  have hmq : (0 : ℚ) < (m : ℚ) := by exact_mod_cast hm₀
  have hx : 0 < (m : ℚ) * (2 : ℚ) ^ k := mul_pos hmq (two_zpow_pos k)
  obtain ⟨b1, b2⟩ := scaled_bounds hx
  have hup := ulp_pos ((m : ℚ) * (2 : ℚ) ^ k)
  have hlog : Int.log 2 ((m : ℚ) * (2 : ℚ) ^ k) ≤ 24 + k := by
    have hle : (m : ℚ) * (2 : ℚ) ^ k ≤ (2 : ℚ) ^ (24 + k) := by
      rw [zpow_add₀ (by norm_num : (2 : ℚ) ≠ 0)]
      have : (m : ℚ) ≤ (2 : ℚ) ^ (24 : ℤ) := by
        have h : (m : ℚ) ≤ ((2 ^ 24 : ℤ) : ℚ) := by exact_mod_cast hm
        norm_num at h ⊢
        exact h
      exact mul_le_mul_of_nonneg_right this (two_zpow_pos k).le
    have h1 := Int.log_mono_right (b := 2) hx hle
    have h2 : Int.log 2 ((2 : ℚ) ^ (24 + k)) = 24 + k := by
      have := Int.log_zpow (R := ℚ) (b := 2) (by norm_num) (24 + k)
      rw [Nat.cast_ofNat] at this
      exact this
    omega
  -- the case of the upper end `m = 2 ^ 24` has `log = 24 + k`, the others below
  set e := Int.log 2 ((m : ℚ) * (2 : ℚ) ^ k) with he
  have hu : ulp ((m : ℚ) * (2 : ℚ) ^ k) = (2 : ℚ) ^ (e - 23) := by
    unfold ulp
    rw [abs_of_pos hx]
  by_cases hlt : e ≤ 23 + k
  · obtain ⟨n, hn⟩ : ∃ n : ℕ, (n : ℤ) = k - (e - 23) := ⟨(k - (e - 23)).toNat, by omega⟩
    have hdiv : (m : ℚ) * (2 : ℚ) ^ k / ulp ((m : ℚ) * (2 : ℚ) ^ k) =
        ((m * 2 ^ n : ℤ) : ℚ) := by
      rw [hu, mul_div_assoc, ← zpow_sub₀ (by norm_num : (2 : ℚ) ≠ 0), ← hn, zpow_natCast]
      push_cast
      rfl
    rw [toFloat_of_pos hx, hdiv, roundHalfEven_intCast, hu]
    push_cast
    rw [mul_assoc, ← zpow_natCast, hn, ← zpow_add₀ (by norm_num : (2 : ℚ) ≠ 0)]
    congr 2
    ring
  · have he24 : e = 24 + k := by omega
    have hdiv : (m : ℚ) * (2 : ℚ) ^ k / ulp ((m : ℚ) * (2 : ℚ) ^ k) < (2 : ℚ) ^ (24 : ℤ) := b2
    rw [hu, he24, div_lt_iff₀ (two_zpow_pos _), ← zpow_add₀ (by norm_num : (2 : ℚ) ≠ 0)] at hdiv
    have e1 : (24 : ℤ) + (24 + k - 23) = 25 + k := by ring
    rw [e1, zpow_add₀ (by norm_num : (2 : ℚ) ≠ 0)] at hdiv
    have h3 : (m : ℚ) < (2 : ℚ) ^ (25 : ℤ) := lt_of_mul_lt_mul_right hdiv (two_zpow_pos k).le
    have h4 : (2 : ℚ) ^ (24 + k) ≤ (m : ℚ) * (2 : ℚ) ^ k := by
      have := Int.zpow_log_le_self (R := ℚ) (b := 2) (by norm_num) hx
      rw [Nat.cast_ofNat, ← he, he24] at this
      exact this
    rw [zpow_add₀ (by norm_num : (2 : ℚ) ≠ 0)] at h4
    have h5 : (2 : ℚ) ^ (24 : ℤ) ≤ (m : ℚ) := le_of_mul_le_mul_right h4 (two_zpow_pos k)
    have h6 : (m : ℚ) = 2 ^ (24 : ℤ) := by
      have h : (m : ℚ) ≤ ((2 ^ 24 : ℤ) : ℚ) := by exact_mod_cast hm
      norm_num at h h5 ⊢
      linarith
    have hdiv2 : (m : ℚ) * (2 : ℚ) ^ k / ulp ((m : ℚ) * (2 : ℚ) ^ k) =
        ((2 ^ 23 : ℤ) : ℚ) := by
      rw [hu, he24, h6, div_eq_iff (ne_of_gt (two_zpow_pos _))]
      have e2 : (24 : ℤ) + k - 23 = 1 + k := by ring
      rw [e2, zpow_add₀ (by norm_num : (2 : ℚ) ≠ 0) 1 k]
      push_cast
      norm_num
      ring
    rw [toFloat_of_pos hx, hdiv2, roundHalfEven_intCast, hu, he24, h6]
    have e2 : (24 : ℤ) + k - 23 = 1 + k := by ring
    rw [e2, zpow_add₀ (by norm_num : (2 : ℚ) ≠ 0) 1 k]
    push_cast
    norm_num
    ring

/-- A non-negative integer of at most 24 bits converts to `float` exactly. -/
theorem toFloat_natCast {n : ℕ} (hn : n ≤ 2 ^ 24) : toFloat (n : ℚ) = (n : ℚ) := by
  rcases Nat.eq_zero_or_pos n with h | h
  · rw [h]
    simp [toFloat_zero]
  · have := toFloat_of_dyadic (n : ℤ) 0 (by exact_mod_cast h) (by exact_mod_cast hn)
    simpa using this

theorem abs_roundHalfEven_sub_le (t : ℚ) : |(roundHalfEven t : ℚ) - t| ≤ 1 / 2 := by
  have h1 : (⌊t⌋ : ℚ) ≤ t := Int.floor_le t
  have h2 : t < (⌊t⌋ : ℚ) + 1 := Int.lt_floor_add_one t
  rw [abs_le]
  unfold roundHalfEven
  split_ifs <;> push_cast <;> constructor <;> linarith

/-- The relative error of rounding to `float` is at most `2 ^ (-24)`. -/
theorem abs_toFloat_sub_le {x : ℚ} (hx : 0 ≤ x) : |toFloat x - x| ≤ x / 2 ^ 24 := by
  rcases eq_or_lt_of_le hx with h0 | h0
  · rw [← h0, toFloat_zero]
    simp
  · obtain ⟨b1, _⟩ := scaled_bounds h0
    have hup := ulp_pos x
    have hlow : (2 : ℚ) ^ (23 : ℤ) * ulp x ≤ x := by
      rw [← le_div_iff₀ hup]
      exact b1
    norm_num at hlow
    have hr := abs_roundHalfEven_sub_le (x / ulp x)
    have e : toFloat x - x = ((roundHalfEven (x / ulp x) : ℚ) - x / ulp x) * ulp x := by
      rw [toFloat_of_pos h0, sub_mul, div_mul_cancel₀ _ (ne_of_gt hup)]
    rw [e, abs_mul, abs_of_pos hup]
    have := mul_le_mul_of_nonneg_right hr hup.le
    linarith

theorem toFloat_one : toFloat 1 = 1 := by
  have := toFloat_natCast (n := 1) (by norm_num)
  simpa using this

/-- A product of an integer `R ≤ 2 ^ 24` with a `float` below 1 is rounded
to a value below `R`. -/
theorem toFloat_mul_lt {R : ℕ} (hR₀ : 0 < R) (hR : R ≤ 2 ^ 24) {p : ℚ} (hp₀ : 0 ≤ p)
    (hp : p ≤ 1 - 1 / 2 ^ 24) : toFloat ((R : ℚ) * p) < (R : ℚ) := by
  have hRq : (0 : ℚ) < (R : ℚ) := by exact_mod_cast hR₀
  have hRle : (R : ℚ) ≤ 2 ^ 24 := by exact_mod_cast hR
  rcases eq_or_lt_of_le (mul_nonneg hRq.le hp₀) with h0 | h0
  · rw [← h0, toFloat_zero]
    exact hRq
  · set w := (R : ℚ) * p with hw
    obtain ⟨b1, b2⟩ := scaled_bounds h0
    have hup := ulp_pos w
    have hwle : w ≤ (R : ℚ) - (R : ℚ) / 2 ^ 24 := by
      have := mul_le_mul_of_nonneg_left hp hRq.le
      rw [hw]
      linarith
    have hwlt : w < (R : ℚ) := by
      have : (0 : ℚ) < (R : ℚ) / 2 ^ 24 := by positivity
      linarith
    -- the binade of `w` lies at or below 23, so `R` is a multiple of the unit
    have hlog : Int.log 2 w ≤ 23 := by
      have h24 : w < ((2 : ℕ) : ℚ) ^ (24 : ℤ) := by
        rw [Nat.cast_ofNat]
        norm_num
        linarith
      have := (Int.lt_zpow_iff_log_lt (R := ℚ) (b := 2) (by norm_num) h0).1 h24
      omega
    have hu : ulp w = (2 : ℚ) ^ (Int.log 2 w - 23) := by
      unfold ulp
      rw [abs_of_pos h0]
    obtain ⟨n, hn⟩ : ∃ n : ℕ, (n : ℤ) = 23 - Int.log 2 w := ⟨(23 - Int.log 2 w).toNat, by omega⟩
    have hinv : ulp w * (2 : ℚ) ^ n = 1 := by
      rw [hu, ← zpow_natCast, hn, ← zpow_add₀ (by norm_num : (2 : ℚ) ≠ 0)]
      have : Int.log 2 w - 23 + (23 - Int.log 2 w) = 0 := by ring
      rw [this, zpow_zero]
    have hN : (((R * 2 ^ n : ℕ) : ℤ) : ℚ) * ulp w = (R : ℚ) := by
      push_cast
      rw [mul_assoc, mul_comm ((2 : ℚ) ^ n), hinv, mul_one]
    have hlow : (2 : ℚ) ^ (23 : ℤ) * ulp w ≤ w := by
      rw [← le_div_iff₀ hup]
      exact b1
    have hhalf : w < (R : ℚ) - ulp w / 2 := by
      norm_num at hlow
      have : ulp w / 2 < (R : ℚ) / 2 ^ 24 := by
        have h1 : 8388608 * ulp w < (R : ℚ) := lt_of_le_of_lt hlow hwlt
        norm_num
        linarith
      linarith
    have hscaled : w / ulp w < (((R * 2 ^ n : ℕ) : ℤ) : ℚ) - 1 / 2 := by
      rw [div_lt_iff₀ hup, sub_mul, hN]
      linarith
    have hr := roundHalfEven_le_of_lt_half hscaled
    rw [toFloat_of_pos h0]
    have hr' : (roundHalfEven (w / ulp w) : ℚ) ≤ (((R * 2 ^ n : ℕ) : ℤ) : ℚ) - 1 := by
      exact_mod_cast hr
    have := mul_le_mul_of_nonneg_right hr' hup.le
    rw [sub_mul, hN] at this
    linarith

namespace Scrollbar

/-! ## The geometry of `Scrollbar::Draw` -/

theorem range_eq {height : Int} (onList : Bool) (h₃ : 2 < height) (hh : height ≤ 2 ^ 24) :
    range height onList = ((usableRange height onList : Int) : ℚ) := by
  obtain ⟨n, rfl⟩ := Int.eq_ofNat_of_zero_le (show 0 ≤ height by omega)
  have hn : n ≤ 2 ^ 24 := by exact_mod_cast hh
  have hn2 : 2 < n := by exact_mod_cast h₃
  have e1 : toFloat ((n : ℤ) : ℚ) = (n : ℚ) := by
    rw [Int.cast_natCast]
    exact toFloat_natCast hn
  unfold range usableRange
  cases onList with
  | false => simpa using e1
  | true =>
    simp only [if_true]
    rw [e1]
    have e2 : (n : ℚ) - 2 = ((n - 2 : ℕ) : ℚ) := by
      rw [Nat.cast_sub hn2.le]
      norm_num
    rw [e2, toFloat_natCast (by omega)]
    push_cast
    rw [Nat.cast_sub hn2.le]
    norm_num

theorem range_nonneg {height : Int} (onList : Bool) (h₃ : 2 < height) :
    0 ≤ range height onList := by
  have hq : (2 : ℚ) ≤ (height : ℚ) := by exact_mod_cast h₃.le
  unfold range
  cases onList with
  | false => exact toFloat_nonneg (by linarith)
  | true =>
    simp only [if_true]
    apply toFloat_nonneg
    have h2 : toFloat 2 = 2 := by
      have := toFloat_natCast (n := 2) (by norm_num)
      simpa using this
    have := toFloat_mono (x := 2) (y := (height : ℚ)) (by norm_num) hq
    rw [h2] at this
    linarith

theorem total_nonneg (entryCount : Nat) (onList : Bool) : 0 ≤ total entryCount onList :=
  toFloat_nonneg (Nat.cast_nonneg _)

theorem total_eq {entryCount : Nat} (onList : Bool)
    (h : max (minY onList) entryCount ≤ 2 ^ 24) :
    total entryCount onList = ((max (minY onList) entryCount : Nat) : ℚ) :=
  toFloat_natCast h

theorem percent_nonneg (entryCount logicalIndex : Nat) (onList : Bool) :
    0 ≤ percent entryCount logicalIndex onList :=
  toFloat_nonneg (div_nonneg (toFloat_nonneg (Nat.cast_nonneg _)) (total_nonneg _ _))

theorem scaled_nonneg {height : Int} (entryCount logicalIndex : Nat) (onList : Bool)
    (h₃ : 2 < height) : 0 ≤ scaled height entryCount logicalIndex onList :=
  toFloat_nonneg (mul_nonneg (range_nonneg onList h₃) (percent_nonneg _ _ _))

theorem percent_mono (entryCount : Nat) (onList : Bool) {a b : Nat} (h : a ≤ b) :
    percent entryCount a onList ≤ percent entryCount b onList := by
  unfold percent
  have h1 : toFloat (a : ℚ) ≤ toFloat (b : ℚ) :=
    toFloat_mono (Nat.cast_nonneg _) (by exact_mod_cast h)
  exact toFloat_mono (div_nonneg (toFloat_nonneg (Nat.cast_nonneg _)) (total_nonneg _ _))
    (div_le_div_of_nonneg_right h1 (total_nonneg _ _))

theorem scaled_mono {height : Int} (entryCount : Nat) (onList : Bool) (h₃ : 2 < height)
    {a b : Nat} (h : a ≤ b) :
    scaled height entryCount a onList ≤ scaled height entryCount b onList := by
  unfold scaled
  exact toFloat_mono (mul_nonneg (range_nonneg onList h₃) (percent_nonneg _ _ _))
    (mul_le_mul_of_nonneg_left (percent_mono entryCount onList h) (range_nonneg onList h₃))

theorem truncate_of_nonneg {x : ℚ} (h : 0 ≤ x) : truncate x = ⌊x⌋ := by
  unfold truncate
  rw [if_pos h]

theorem yOffset_of_thumb {height : Int} {entryCount logicalIndex : Nat} {onList : Bool}
    (ht : range height onList < total entryCount onList) :
    yOffset height entryCount logicalIndex onList =
      if -(2 ^ 31 : ℚ) - 1 < scaled height entryCount logicalIndex onList ∧
          scaled height entryCount logicalIndex onList < 2 ^ 31 then
        some (truncate (scaled height entryCount logicalIndex onList) + (minY onList : Int))
      else none := by
  unfold yOffset
  rw [if_neg (not_le.2 ht)]

theorem yOffset_of_fits {height : Int} {entryCount logicalIndex : Nat} {onList : Bool}
    (h₃ : 2 < height) (ht : range height onList < total entryCount onList)
    (hfit : scaled height entryCount logicalIndex onList < 2 ^ 31) :
    yOffset height entryCount logicalIndex onList =
      some (⌊scaled height entryCount logicalIndex onList⌋ + (minY onList : Int)) := by
  have h0 := scaled_nonneg entryCount logicalIndex onList h₃
  rw [yOffset_of_thumb ht, if_pos ⟨by linarith, hfit⟩, truncate_of_nonneg h0]

theorem yOffset_eq_some_iff {height : Int} {entryCount logicalIndex : Nat} {onList : Bool}
    (h₃ : 2 < height) (ht : range height onList < total entryCount onList) (y : Int) :
    yOffset height entryCount logicalIndex onList = some y ↔
      scaled height entryCount logicalIndex onList < 2 ^ 31 ∧
      y = ⌊scaled height entryCount logicalIndex onList⌋ + (minY onList : Int) := by
  have h0 := scaled_nonneg entryCount logicalIndex onList h₃
  constructor
  · intro h
    rw [yOffset_of_thumb ht] at h
    split at h
    · rename_i hc
      rw [truncate_of_nonneg h0] at h
      exact ⟨hc.2, (Option.some.inj h).symm⟩
    · simp at h
  · rintro ⟨h1, h2⟩
    rw [yOffset_of_fits h₃ ht h1, h2]

/-! ## C15: when no thumb is drawn -/

/-- C15, as amended: `Scrollbar::Draw` produces no thumb whenever the usable
range, which is the list height less 2 on the list's own frame and the list
height on an external target, is at least `max(minY, total)`; the offset is then
-1 for every `logicalIndex` and no row is drawn highlighted.  Heights up to
`2 ^ 24` convert to `float` exactly. -/
theorem C15_no_thumb_when_range_covers_total (height : Int) (entryCount logicalIndex : Nat)
    (onList : Bool) (hh : height ≤ 2 ^ 24)
    (hc : ((max (minY onList) entryCount : Nat) : Int) ≤ usableRange height onList) :
    (2 < height → yOffset height entryCount logicalIndex onList = some (-1)) ∧
    ∃ rows, Draw height entryCount logicalIndex onList = some rows ∧
      ∀ row ∈ rows, row.2 = false := by
  have hy : 2 < height → yOffset height entryCount logicalIndex onList = some (-1) := by
    intro h₃
    have hu : usableRange height onList ≤ 2 ^ 24 := by
      unfold usableRange
      split <;> omega
    have hmax : max (minY onList) entryCount ≤ 2 ^ 24 := by
      have : ((max (minY onList) entryCount : Nat) : Int) ≤ 2 ^ 24 := le_trans hc hu
      exact_mod_cast this
    unfold yOffset
    rw [if_pos]
    rw [range_eq onList h₃ hh, total_eq onList hmax]
    have : (((max (minY onList) entryCount : Nat) : Int) : ℚ) ≤
        ((usableRange height onList : Int) : ℚ) := by exact_mod_cast hc
    simpa using this
  refine ⟨hy, ?_⟩
  unfold Draw
  by_cases h₃ : height > 2
  · rw [if_pos h₃, hy h₃]
    refine ⟨_, rfl, ?_⟩
    intro row hrow
    simp only [List.mem_map, List.mem_range] at hrow
    obtain ⟨k, _, rfl⟩ := hrow
    have hf : 0 ≤ firstRow onList := by
      unfold firstRow
      split <;> decide
    simp only [decide_eq_false_iff_not]
    omega
  · rw [if_neg h₃]
    exact ⟨[], rfl, fun _ h => absurd h (List.not_mem_nil _)⟩

/-! ## C17: the offset grows with `logicalIndex` -/

/-- C17: for a list height above 2, an entry count and a drawing context for
which `Draw` produces a thumb, the thumb offset is monotonic non-decreasing in
`logicalIndex`: for `a ≤ b`, when the offset at `b` is defined so is the offset at
`a`, and it is at most the offset at `b`. -/
theorem C17_offset_monotone (height : Int) (entryCount : Nat) (onList : Bool) (a b : Nat)
    (h₃ : 2 < height) (ht : range height onList < total entryCount onList) (hab : a ≤ b) :
    (∀ yb, yOffset height entryCount b onList = some yb →
      ∃ ya, yOffset height entryCount a onList = some ya ∧ ya ≤ yb) ∧
    (scaled height entryCount b onList < 2 ^ 31 →
      ∃ yb, yOffset height entryCount b onList = some yb) := by
  have hm := scaled_mono entryCount onList h₃ hab
  constructor
  · intro yb hb
    obtain ⟨hb1, hb2⟩ := (yOffset_eq_some_iff h₃ ht yb).1 hb
    have ha1 : scaled height entryCount a onList < 2 ^ 31 := lt_of_le_of_lt hm hb1
    refine ⟨_, yOffset_of_fits h₃ ht ha1, ?_⟩
    rw [hb2]
    have := Int.floor_mono hm
    omega
  · intro hfit
    exact ⟨_, yOffset_of_fits h₃ ht hfit⟩

/-! ## C19: the thumb lies on the track -/

theorem countP_rows (F y : Int) (n : Nat) (h₁ : F ≤ y) (h₂ : y < F + n) :
    ((List.range n).map
      (fun (k : Nat) => (F + (k : Int), decide (F + (k : Int) = y)))).countP
        (fun row => row.2) = 1 := by
  rw [List.countP_map]
  have hj : (y - F).toNat ∈ List.range n := by
    rw [List.mem_range]
    omega
  rw [← List.count_eq_one_of_mem (List.nodup_range n) hj, List.count_eq_countP]
  apply List.countP_congr
  intro k _
  simp only [Function.comp_apply, decide_eq_true_eq, beq_iff_eq]
  omega

theorem toFloat_below_one : toFloat (1 - 1 / 2 ^ 24) = 1 - 1 / 2 ^ 24 := by
  have h := toFloat_of_dyadic (2 ^ 24 - 1) (-24) (by norm_num) (by norm_num)
  have e : (((2 ^ 24 - 1 : ℤ)) : ℚ) * (2 : ℚ) ^ (-24 : ℤ) = 1 - 1 / 2 ^ 24 := by
    norm_num
  rw [e] at h
  exact h

/-- In the bounds of C19 the scaled value stays below the usable range. -/
theorem scaled_lt_range {height : Int} {entryCount logicalIndex : Nat} (onList : Bool)
    (h₃ : 2 < height) (hh : height ≤ 2 ^ 24) (hcnt : entryCount ≤ 2 ^ 24)
    (hidx : logicalIndex < entryCount) :
    scaled height entryCount logicalIndex onList < ((usableRange height onList : Int) : ℚ) := by
  have hminY : minY onList ≤ 1 := by
    unfold minY
    split <;> omega
  have hmax : max (minY onList) entryCount = entryCount := max_eq_right (by omega)
  have htot : total entryCount onList = (entryCount : ℚ) := by
    rw [total_eq onList (by rw [hmax]; exact hcnt), hmax]
  have hidxf : toFloat (logicalIndex : ℚ) = (logicalIndex : ℚ) := toFloat_natCast (by omega)
  have hcq : (0 : ℚ) < (entryCount : ℚ) := by exact_mod_cast (show 0 < entryCount by omega)
  have hq : (logicalIndex : ℚ) / (entryCount : ℚ) ≤ 1 - 1 / 2 ^ 24 := by
    rw [div_le_iff₀ hcq]
    have h1 : (logicalIndex : ℚ) + 1 ≤ (entryCount : ℚ) := by exact_mod_cast hidx
    have h2 : (entryCount : ℚ) ≤ 2 ^ 24 := by exact_mod_cast hcnt
    nlinarith
  have hp : percent entryCount logicalIndex onList ≤ 1 - 1 / 2 ^ 24 := by
    unfold percent
    rw [htot, hidxf, ← toFloat_below_one]
    exact toFloat_mono (div_nonneg (Nat.cast_nonneg _) hcq.le) hq
  have hu1 : 1 ≤ usableRange height onList := by
    unfold usableRange
    split <;> omega
  have hu2 : usableRange height onList ≤ 2 ^ 24 := by
    unfold usableRange
    split <;> omega
  obtain ⟨R, hR⟩ := Int.eq_ofNat_of_zero_le (show 0 ≤ usableRange height onList by omega)
  have hR0 : 0 < R := by omega
  have hR24 : R ≤ 2 ^ 24 := by omega
  unfold scaled
  rw [range_eq onList h₃ hh, hR, Int.cast_natCast]
  exact toFloat_mul_lt hR0 hR24 (percent_nonneg _ _ _) hp

/-- C19, as amended: for a list height above 2 and at most `2 ^ 24`, an entry
count of at most `2 ^ 24` and `logicalIndex` below the entry count, whenever
`Draw` produces a thumb the offset is defined and lies on a row the draw loop
visits, `from ≤ offset < to`, and exactly one row of the track is drawn
highlighted.  And for every input the division is safe: with a height above 2
the divisor `total` is positive whenever the division is reached, and with a
height of at most 2 `Draw` computes and writes nothing. -/
theorem C19_thumb_on_track (height : Int) (entryCount logicalIndex : Nat) (onList : Bool)
    (h₃ : 2 < height) (hh : height ≤ 2 ^ 24) (hcnt : entryCount ≤ 2 ^ 24)
    (hidx : logicalIndex < entryCount)
    (ht : range height onList < total entryCount onList) :
    (∃ y, yOffset height entryCount logicalIndex onList = some y ∧
      firstRow onList ≤ y ∧ y < endRow height onList ∧
      ∃ rows, Draw height entryCount logicalIndex onList = some rows ∧
        rows.countP (fun row => row.2) = 1) ∧
    (∀ (h : Int) (c : Nat) (o : Bool), 2 < h → range h o < total c o → 0 < total c o) ∧
    (∀ (h : Int) (c i : Nat) (o : Bool), h ≤ 2 → Draw h c i o = some []) := by
  refine ⟨?_, ?_, ?_⟩
  · have hs := scaled_lt_range onList h₃ hh hcnt hidx
    have h0 := scaled_nonneg entryCount logicalIndex onList h₃
    have hu2 : usableRange height onList ≤ 2 ^ 24 := by
      unfold usableRange
      split <;> omega
    have hfit : scaled height entryCount logicalIndex onList < 2 ^ 31 := by
      have : ((usableRange height onList : Int) : ℚ) ≤ 2 ^ 24 := by exact_mod_cast hu2
      have : (2 : ℚ) ^ 24 < 2 ^ 31 := by norm_num
      linarith
    have hy := yOffset_of_fits h₃ ht hfit
    have hfl0 : 0 ≤ ⌊scaled height entryCount logicalIndex onList⌋ := Int.floor_nonneg.2 h0
    have hfl1 : ⌊scaled height entryCount logicalIndex onList⌋ < usableRange height onList :=
      Int.floor_lt.2 hs
    have hfirst : firstRow onList = (minY onList : Int) := by
      unfold firstRow minY
      split <;> rfl
    have hend : endRow height onList = usableRange height onList + (minY onList : Int) := by
      unfold endRow usableRange minY
      split
      · push_cast
        ring
      · push_cast
        ring
    refine ⟨_, hy, by omega, by omega, ?_⟩
    unfold Draw
    rw [if_pos h₃, hy]
    refine ⟨_, rfl, ?_⟩
    apply countP_rows
    · omega
    · omega
  · intro h c o h2 hlt
    exact lt_of_le_of_lt (range_nonneg o h2) hlt
  · intro h c i o h2
    unfold Draw
    rw [if_neg (by omega)]

/-! ## Evaluation at concrete inputs -/

theorem yOffset_eval {height : Int} {entryCount logicalIndex : Nat} {onList : Bool}
    {r t f p s : ℚ} {y : ℤ} (hr : range height onList = r)
    (ht : total entryCount onList = t) (hf : toFloat (logicalIndex : ℚ) = f)
    (hp : toFloat (f / t) = p) (hs : toFloat (r * p) = s) (hlt : r < t) (h0 : 0 ≤ s)
    (hfit : s < 2 ^ 31) (hy : ⌊s⌋ = y) :
    yOffset height entryCount logicalIndex onList = some (y + (minY onList : Int)) := by
  unfold yOffset scaled percent
  rw [hr, ht, hf, hp, hs, if_neg (not_le.2 hlt), if_pos ⟨by linarith, hfit⟩,
    truncate_of_nonneg h0, hy]

theorem yOffset_own_10_9_0 : yOffset 10 9 0 true = some 1 := by
  have hr : range 10 true = 8 := by
    rw [range_eq true (by norm_num) (by norm_num)]
    norm_num [usableRange]
  have ht : total 9 true = 9 := by
    rw [total_eq true (by decide)]
    norm_num [minY]
  have hf : toFloat ((0 : ℕ) : ℚ) = 0 := by simp [toFloat_zero]
  have hp : toFloat ((0 : ℚ) / 9) = 0 := by simp [toFloat_zero]
  have hs : toFloat ((8 : ℚ) * 0) = 0 := by simp [toFloat_zero]
  rw [yOffset_eval hr ht hf hp hs (by norm_num) (by norm_num) (by norm_num) (y := 0)
    (by norm_num)]
  rfl

theorem yOffset_external_22_44_26 : yOffset 22 44 26 false = some 12 := by
  have hr : range 22 false = 22 := by
    rw [range_eq false (by norm_num) (by norm_num)]
    norm_num [usableRange]
  have ht : total 44 false = 44 := by
    rw [total_eq false (by decide)]
    norm_num [minY]
  have hf : toFloat ((26 : ℕ) : ℚ) = 26 := by
    rw [toFloat_natCast (by norm_num)]
    norm_num
  have hp : toFloat ((26 : ℚ) / 44) = 9913809 / 2 ^ 24 := by
    rw [toFloat_eq_of_near (-1) 9913809 (by norm_num) (by norm_num) (by norm_num)
      (by norm_num)]
    norm_num
  have hs : toFloat ((22 : ℚ) * (9913809 / 2 ^ 24)) = 13631487 / 2 ^ 20 := by
    rw [toFloat_eq_of_near 3 13631487 (by norm_num) (by norm_num) (by norm_num)
      (by norm_num)]
    norm_num
  rw [yOffset_eval hr ht hf hp hs (by norm_num) (by norm_num) (by norm_num) (y := 12)
    (by rw [Int.floor_eq_iff]; norm_num)]
  rfl

theorem yOffset_own_12_100_90 : yOffset 12 100 90 true = some 10 := by
  have hr : range 12 true = 10 := by
    rw [range_eq true (by norm_num) (by norm_num)]
    norm_num [usableRange]
  have ht : total 100 true = 100 := by
    rw [total_eq true (by decide)]
    norm_num [minY]
  have hf : toFloat ((90 : ℕ) : ℚ) = 90 := by
    rw [toFloat_natCast (by norm_num)]
    norm_num
  have hp : toFloat ((90 : ℚ) / 100) = 15099494 / 2 ^ 24 := by
    rw [toFloat_eq_of_near (-1) 15099494 (by norm_num) (by norm_num) (by norm_num)
      (by norm_num)]
    norm_num
  have hs : toFloat ((10 : ℚ) * (15099494 / 2 ^ 24)) = 9 := by
    rw [toFloat_eq_of_near 3 9437184 (by norm_num) (by norm_num) (by norm_num)
      (by norm_num)]
    norm_num
  rw [yOffset_eval hr ht hf hp hs (by norm_num) (by norm_num) (by norm_num) (y := 9)
    (by rw [Int.floor_eq_iff]; norm_num)]
  rfl

theorem yOffset_external_3_huge : yOffset 3 (2 ^ 26) (2 ^ 26 - 1) false = some 3 := by
  have hr : range 3 false = 3 := by
    rw [range_eq false (by norm_num) (by norm_num)]
    norm_num [usableRange]
  have ht : total (2 ^ 26) false = 2 ^ 26 := by
    unfold total
    have h := toFloat_of_dyadic 1 26 (by norm_num) (by norm_num)
    norm_num [minY] at h ⊢
    exact h
  have hf : toFloat ((2 ^ 26 - 1 : ℕ) : ℚ) = 2 ^ 26 := by
    rw [toFloat_eq_of_near 25 (2 ^ 24) (by norm_num) (by norm_num) (by norm_num)
      (by norm_num)]
    norm_num
  have hp : toFloat (((2 : ℚ) ^ 26) / 2 ^ 26) = 1 := by
    rw [div_self (by norm_num), toFloat_one]
  have hs : toFloat ((3 : ℚ) * 1) = 3 := by
    have := toFloat_natCast (n := 3) (by norm_num)
    norm_num at this ⊢
    exact this
  rw [yOffset_eval hr ht hf hp hs (by norm_num) (by norm_num) (by norm_num) (y := 3)
    (by rw [Int.floor_eq_iff]; norm_num)]
  rfl

/-! ## C16: the value of the offset -/

/-- With a thumb and all three inputs at most `2 ^ 24`, the scaled value is
the formula of the specification computed in `float`. -/
theorem scaled_eq_formula {height : Int} {entryCount logicalIndex : Nat} (onList : Bool)
    (h₃ : 2 < height) (hh : height ≤ 2 ^ 24) (hcnt : entryCount ≤ 2 ^ 24)
    (hidx : logicalIndex ≤ 2 ^ 24)
    (ht : range height onList < total entryCount onList) :
    2 ≤ entryCount ∧
    ((usableRange height onList : Int) : ℚ) < (entryCount : ℚ) ∧
    scaled height entryCount logicalIndex onList =
      toFloat (((usableRange height onList : Int) : ℚ) *
        toFloat ((logicalIndex : ℚ) / ((max 1 entryCount : Nat) : ℚ))) := by
  have hminY : minY onList ≤ 1 := by
    unfold minY
    split <;> omega
  have hmax24 : max (minY onList) entryCount ≤ 2 ^ 24 := max_le (by omega) hcnt
  have hr := range_eq onList h₃ hh
  have htot := total_eq onList hmax24
  have hu1 : 1 ≤ usableRange height onList := by
    unfold usableRange
    split <;> omega
  have hlt : usableRange height onList < ((max (minY onList) entryCount : Nat) : Int) := by
    rw [hr, htot] at ht
    exact_mod_cast ht
  have hc2 : 2 ≤ entryCount := by
    rcases le_total (minY onList) entryCount with h | h
    · rw [max_eq_right h] at hlt
      omega
    · rw [max_eq_left h] at hlt
      omega
  have e1 : max (minY onList) entryCount = entryCount := max_eq_right (by omega)
  have e2 : max 1 entryCount = entryCount := max_eq_right (by omega)
  refine ⟨hc2, ?_, ?_⟩
  · rw [e1] at hlt
    exact_mod_cast hlt
  · unfold scaled percent
    rw [hr, htot, e1, e2, toFloat_natCast hidx]

/-- C16, as amended: whenever `Draw` produces a thumb, with the list height,
the entry count and `logicalIndex` at most `2 ^ 24`, the thumb offset is
`floor(R * (logicalIndex / max(1, total))) + B` with the division and the
multiplication each rounded to `float`, where `(R, B)` is `(height - 2, 1)` on the
list's own frame and `(height, 0)` on an external target.  For `logicalIndex` up
to the entry count the offset is defined, and when `R * total ≤ 2 ^ 22` it is the
value of the same formula in exact arithmetic or one less. -/
theorem C16_offset_is_float_formula (height : Int) (entryCount logicalIndex : Nat)
    (onList : Bool) (h₃ : 2 < height) (hh : height ≤ 2 ^ 24) (hcnt : entryCount ≤ 2 ^ 24)
    (hidx : logicalIndex ≤ 2 ^ 24)
    (ht : range height onList < total entryCount onList) :
    (∀ y, yOffset height entryCount logicalIndex onList = some y →
      y = floatOffset height entryCount logicalIndex onList) ∧
    (logicalIndex ≤ entryCount →
      yOffset height entryCount logicalIndex onList =
        some (floatOffset height entryCount logicalIndex onList)) ∧
    (logicalIndex ≤ entryCount → usableRange height onList * entryCount ≤ 2 ^ 22 →
      floatOffset height entryCount logicalIndex onList =
        exactOffset height entryCount logicalIndex onList ∨
      floatOffset height entryCount logicalIndex onList =
        exactOffset height entryCount logicalIndex onList - 1) := by
  obtain ⟨hc2, hRT, hsc⟩ := scaled_eq_formula onList h₃ hh hcnt hidx ht
  have e2 : max 1 entryCount = entryCount := max_eq_right (by omega)
  have hu1 : 1 ≤ usableRange height onList := by
    unfold usableRange
    split <;> omega
  have hu2 : usableRange height onList ≤ 2 ^ 24 := by
    unfold usableRange
    split <;> omega
  have hRq0 : (1 : ℚ) ≤ ((usableRange height onList : Int) : ℚ) := by exact_mod_cast hu1
  have hRq24 : ((usableRange height onList : Int) : ℚ) ≤ 2 ^ 24 := by exact_mod_cast hu2
  have hcq : (0 : ℚ) < (entryCount : ℚ) := by exact_mod_cast (show 0 < entryCount by omega)
  refine ⟨?_, ?_, ?_⟩
  · intro y hy
    obtain ⟨_, h2⟩ := (yOffset_eq_some_iff h₃ ht y).1 hy
    rw [h2, hsc]
    rfl
  · intro hle
    have hq1 : (logicalIndex : ℚ) / (entryCount : ℚ) ≤ 1 := by
      rw [div_le_one hcq]
      exact_mod_cast hle
    have hq0 : (0 : ℚ) ≤ (logicalIndex : ℚ) / (entryCount : ℚ) :=
      div_nonneg (Nat.cast_nonneg _) hcq.le
    have hp1 : toFloat ((logicalIndex : ℚ) / (entryCount : ℚ)) ≤ 1 := by
      rw [← toFloat_one]
      exact toFloat_mono hq0 hq1
    have hp0 := toFloat_nonneg hq0
    have hfit : scaled height entryCount logicalIndex onList < 2 ^ 31 := by
      rw [hsc, e2]
      have h1 : ((usableRange height onList : Int) : ℚ) *
          toFloat ((logicalIndex : ℚ) / (entryCount : ℚ)) ≤
          ((usableRange height onList : Int) : ℚ) * 1 :=
        mul_le_mul_of_nonneg_left hp1 (by linarith)
      have h2 := toFloat_mono (mul_nonneg (by linarith) hp0) h1
      obtain ⟨R, hR⟩ := Int.eq_ofNat_of_zero_le (show 0 ≤ usableRange height onList by omega)
      have h3' : toFloat (((usableRange height onList : Int) : ℚ) * 1) =
          ((usableRange height onList : Int) : ℚ) := by
        rw [mul_one, hR, Int.cast_natCast]
        exact toFloat_natCast (by omega)
      rw [h3'] at h2
      have : (2 : ℚ) ^ 24 < 2 ^ 31 := by norm_num
      linarith
    rw [yOffset_of_fits h₃ ht hfit, hsc]
    rfl
  · intro hle hprod
    unfold floatOffset exactOffset
    rw [e2]
    set R : ℚ := ((usableRange height onList : Int) : ℚ) with hRdef
    set q : ℚ := (logicalIndex : ℚ) / (entryCount : ℚ) with hq
    have hq1 : q ≤ 1 := by
      rw [hq, div_le_one hcq]
      exact_mod_cast hle
    have hq0 : 0 ≤ q := div_nonneg (Nat.cast_nonneg _) hcq.le
    have hp0 := toFloat_nonneg hq0
    have hpe := abs_le.1 (abs_toFloat_sub_le hq0)
    have hw0 : 0 ≤ R * toFloat q := mul_nonneg (by linarith) hp0
    have hse := abs_le.1 (abs_toFloat_sub_le hw0)
    have hprodq : R * (entryCount : ℚ) ≤ 2 ^ 22 := by
      rw [hRdef]
      exact_mod_cast hprod
    -- the distance between the rounded and the exact product
    have hpub : toFloat q ≤ 2 := by linarith [hpe.2, show q / 2 ^ 24 ≤ 1 by linarith]
    have hd1 : toFloat (R * toFloat q) - q * R ≤ 3 * R / 2 ^ 24 := by
      have a1 : R * toFloat q - R * q ≤ R * (q / 2 ^ 24) := by
        have := mul_le_mul_of_nonneg_left hpe.2 (show (0 : ℚ) ≤ R by linarith)
        linarith
      have a2 : R * (q / 2 ^ 24) ≤ R / 2 ^ 24 := by
        have := mul_le_mul_of_nonneg_left (show q / 2 ^ 24 ≤ 1 / 2 ^ 24 by
          apply div_le_div_of_nonneg_right hq1
          positivity) (show (0 : ℚ) ≤ R by linarith)
        linarith
      have a3 : R * toFloat q / 2 ^ 24 ≤ 2 * R / 2 ^ 24 := by
        apply div_le_div_of_nonneg_right _ (by positivity)
        nlinarith
      linarith [hse.2]
    have hd2 : q * R - toFloat (R * toFloat q) ≤ 3 * R / 2 ^ 24 := by
      have a1 : R * q - R * toFloat q ≤ R * (q / 2 ^ 24) := by
        have := mul_le_mul_of_nonneg_left hpe.1 (show (0 : ℚ) ≤ R by linarith)
        linarith
      have a2 : R * (q / 2 ^ 24) ≤ R / 2 ^ 24 := by
        have := mul_le_mul_of_nonneg_left (show q / 2 ^ 24 ≤ 1 / 2 ^ 24 by
          apply div_le_div_of_nonneg_right hq1
          positivity) (show (0 : ℚ) ≤ R by linarith)
        linarith
      have a3 : R * toFloat q / 2 ^ 24 ≤ 2 * R / 2 ^ 24 := by
        apply div_le_div_of_nonneg_right _ (by positivity)
        nlinarith
      linarith [hse.1]
    have hsmall : 3 * R / 2 ^ 24 < 1 / (entryCount : ℚ) := by
      rw [lt_div_iff₀ hcq]
      have : 3 * R / 2 ^ 24 * (entryCount : ℚ) = 3 * (R * (entryCount : ℚ)) / 2 ^ 24 := by ring
      rw [this]
      have : 3 * (R * (entryCount : ℚ)) / 2 ^ 24 ≤ 3 * 2 ^ 22 / 2 ^ 24 := by
        apply div_le_div_of_nonneg_right _ (by positivity)
        linarith
      norm_num at this ⊢
      linarith
    have hlt1 : 3 * R / 2 ^ 24 < 1 := by
      have : 1 / (entryCount : ℚ) ≤ 1 := by
        rw [div_le_one hcq]
        exact_mod_cast (show 1 ≤ entryCount by omega)
      linarith
    -- floors
    have f1 := Int.floor_le (toFloat (R * toFloat q))
    have f2 := Int.lt_floor_add_one (toFloat (R * toFloat q))
    have g1 := Int.floor_le (q * R)
    have g2 := Int.lt_floor_add_one (q * R)
    have lower : ⌊q * R⌋ - 1 ≤ ⌊toFloat (R * toFloat q)⌋ := by
      have : ((⌊q * R⌋ : ℤ) : ℚ) - 1 < (⌊toFloat (R * toFloat q)⌋ : ℚ) + 1 := by linarith
      have : ⌊q * R⌋ - 1 < ⌊toFloat (R * toFloat q)⌋ + 1 := by exact_mod_cast this
      omega
    have upper : ⌊toFloat (R * toFloat q)⌋ ≤ ⌊q * R⌋ := by
      by_contra hcon
      have hge : ⌊q * R⌋ + 1 ≤ ⌊toFloat (R * toFloat q)⌋ := by omega
      have hgeq : ((⌊q * R⌋ : ℤ) : ℚ) + 1 ≤ toFloat (R * toFloat q) := by
        have : (((⌊q * R⌋ + 1 : ℤ)) : ℚ) ≤ (⌊toFloat (R * toFloat q)⌋ : ℚ) := by
          exact_mod_cast hge
        push_cast at this
        linarith
      -- `q * R * entryCount` is the integer `logicalIndex * usableRange`
      have hint : q * R * (entryCount : ℚ) =
          (((logicalIndex : ℤ) * usableRange height onList : ℤ) : ℚ) := by
        rw [hq, hRdef]
        push_cast
        field_simp
      have hlt2 : (((logicalIndex : ℤ) * usableRange height onList : ℤ) : ℚ) <
          (((⌊q * R⌋ + 1) * (entryCount : ℤ) : ℤ) : ℚ) := by
        rw [← hint]
        push_cast
        exact mul_lt_mul_of_pos_right g2 hcq
      have hlt3 : (logicalIndex : ℤ) * usableRange height onList + 1 ≤
          (⌊q * R⌋ + 1) * (entryCount : ℤ) := by
        have : (logicalIndex : ℤ) * usableRange height onList <
            (⌊q * R⌋ + 1) * (entryCount : ℤ) := by exact_mod_cast hlt2
        omega
      have hle3 : q * R * (entryCount : ℚ) + 1 ≤
          (((⌊q * R⌋ : ℤ) : ℚ) + 1) * (entryCount : ℚ) := by
        rw [hint]
        have : ((((logicalIndex : ℤ) * usableRange height onList + 1 : ℤ)) : ℚ) ≤
            (((⌊q * R⌋ + 1) * (entryCount : ℤ) : ℤ) : ℚ) := by exact_mod_cast hlt3
        push_cast at this ⊢
        linarith
      have hgap : q * R + 1 / (entryCount : ℚ) ≤ ((⌊q * R⌋ : ℤ) : ℚ) + 1 := by
        rw [← sub_nonneg]
        have e : ((⌊q * R⌋ : ℤ) : ℚ) + 1 - (q * R + 1 / (entryCount : ℚ)) =
            ((((⌊q * R⌋ : ℤ) : ℚ) + 1) * (entryCount : ℚ) -
              (q * R * (entryCount : ℚ) + 1)) / (entryCount : ℚ) := by
          field_simp
        rw [e]
        exact div_nonneg (by linarith) hcq.le
      linarith
    rcases lt_or_eq_of_le upper with h | h
    · right
      omega
    · left
      omega

end Scrollbar

namespace Scrollbar

/-! ## C15, C16, C17, C19 at concrete inputs -/

theorem range_own_12 : range 12 true = 10 := by
  rw [range_eq true (by norm_num) (by norm_num)]
  norm_num [usableRange]

theorem total_own_100 : total 100 true = 100 := by
  rw [total_eq true (by decide)]
  norm_num [minY]

/-- The statement of C15, as amended, on an external target of height 10 with
9 entries, and on the list's own frame of height 12 with 10 entries. -/
theorem C15_witness :
    yOffset 10 9 4 false = some (-1) ∧ yOffset 12 10 4 true = some (-1) :=
  ⟨(C15_no_thumb_when_range_covers_total 10 9 4 false (by norm_num) (by decide)).1
     (by norm_num),
   (C15_no_thumb_when_range_covers_total 12 10 4 true (by norm_num) (by decide)).1
     (by norm_num)⟩

/-- C15 as stated fails on the list's own frame: with height 10 and 9
entries the height is at least the entry count, yet the usable range is 8, below
9, and `Draw` puts the thumb on row 1. -/
theorem C15_counterexample :
    (9 : Int) ≤ 10 ∧ yOffset 10 9 0 true = some 1 ∧
    ∃ rows, Draw 10 9 0 true = some rows ∧ (1, true) ∈ rows := by
  refine ⟨by norm_num, yOffset_own_10_9_0, ?_⟩
  unfold Draw
  rw [if_pos (by norm_num), yOffset_own_10_9_0]
  refine ⟨_, rfl, ?_⟩
  decide

/-- The statement of C16, as amended, at the worked example: own frame,
height 12, 100 entries, `logicalIndex` 90 give offset 10. -/
theorem C16_witness :
    range 12 true < total 100 true ∧
    yOffset 12 100 90 true = some (floatOffset 12 100 90 true) ∧
    floatOffset 12 100 90 true = 10 :=
  ⟨by rw [range_own_12, total_own_100]; norm_num,
   (C16_offset_is_float_formula 12 100 90 true (by norm_num) (by norm_num) (by norm_num)
      (by norm_num) (by rw [range_own_12, total_own_100]; norm_num)).2.1 (by norm_num),
   ((C16_offset_is_float_formula 12 100 90 true (by norm_num) (by norm_num) (by norm_num)
      (by norm_num) (by rw [range_own_12, total_own_100]; norm_num)).1 10
      yOffset_own_12_100_90).symm⟩

/-- C16 as stated fails: on an external target of height 22 with 44 entries
and `logicalIndex` 26 the exact formula gives `floor(26 / 44 * 22) = 13`, while
`Draw` computes `26 / 44` rounded to `9913809 / 2 ^ 24`, the product rounded to
`13631487 / 2 ^ 20`, just below 13, and so the offset 12. -/
theorem C16_counterexample :
    yOffset 22 44 26 false = some 12 ∧ exactOffset 22 44 26 false = 13 ∧
    toFloat ((26 : ℚ) / 44) = 9913809 / 2 ^ 24 ∧
    toFloat ((22 : ℚ) * (9913809 / 2 ^ 24)) = 13631487 / 2 ^ 20 := by
  refine ⟨yOffset_external_22_44_26, ?_, ?_, ?_⟩
  · unfold exactOffset
    norm_num [usableRange, minY]
  · rw [toFloat_eq_of_near (-1) 9913809 (by norm_num) (by norm_num) (by norm_num)
      (by norm_num)]
    norm_num
  · rw [toFloat_eq_of_near 3 13631487 (by norm_num) (by norm_num) (by norm_num)
      (by norm_num)]
    norm_num

/-- The statement of C17 on the list's own frame of height 12 with 100
entries, for the indices 10 and 90. -/
theorem C17_witness :
    (2 : Int) < 12 ∧ range 12 true < total 100 true ∧
    ∃ ya, yOffset 12 100 10 true = some ya ∧ ya ≤ 10 :=
  ⟨by norm_num, by rw [range_own_12, total_own_100]; norm_num,
   (C17_offset_monotone 12 100 true 10 90 (by norm_num)
      (by rw [range_own_12, total_own_100]; norm_num) (by norm_num)).1 10
      yOffset_own_12_100_90⟩

/-- The statement of C19, as amended, on the list's own frame of height 12
with 100 entries and `logicalIndex` 90. -/
theorem C19_witness :
    range 12 true < total 100 true ∧
    ∃ y, yOffset 12 100 90 true = some y ∧ firstRow true ≤ y ∧ y < endRow 12 true ∧
      ∃ rows, Draw 12 100 90 true = some rows ∧ rows.countP (fun row => row.2) = 1 :=
  ⟨by rw [range_own_12, total_own_100]; norm_num,
   (C19_thumb_on_track 12 100 90 true (by norm_num) (by norm_num) (by norm_num)
      (by norm_num) (by rw [range_own_12, total_own_100]; norm_num)).1⟩

theorem range_external_3 : range 3 false = 3 := by
  rw [range_eq false (by norm_num) (by norm_num)]
  norm_num [usableRange]

theorem total_external_huge : total (2 ^ 26) false = 2 ^ 26 := by
  unfold total
  have h := toFloat_of_dyadic 1 26 (by norm_num) (by norm_num)
  norm_num [minY] at h ⊢
  exact h

/-- C19 as stated fails for a very long list: on an external target of
height 3 with `2 ^ 26` entries and `logicalIndex = 2 ^ 26 - 1`, a thumb is
produced and the index is below the entry count, but `(float) logicalIndex`
rounds to `2 ^ 26`, `percent` is 1 and the offset is 3, the row `to` that
the loop stops before; no row is drawn highlighted. -/
theorem C19_counterexample :
    range 3 false < total (2 ^ 26) false ∧ 2 ^ 26 - 1 < 2 ^ 26 ∧
    toFloat (((2 ^ 26 - 1 : ℕ)) : ℚ) = 2 ^ 26 ∧
    yOffset 3 (2 ^ 26) (2 ^ 26 - 1) false = some 3 ∧ endRow 3 false = 3 ∧
    Draw 3 (2 ^ 26) (2 ^ 26 - 1) false = some [(0, false), (1, false), (2, false)] := by
  refine ⟨?_, by norm_num, ?_, yOffset_external_3_huge, rfl, ?_⟩
  · rw [range_external_3, total_external_huge]
    norm_num
  · rw [toFloat_eq_of_near 25 (2 ^ 24) (by norm_num) (by norm_num) (by norm_num)
      (by norm_num)]
    norm_num
  · unfold Draw
    rw [if_pos (by norm_num), yOffset_external_3_huge]
    decide

end Scrollbar

namespace SchemaOverlay

/-! ## C21: what `ShowIntOverlay` installs -/

theorem toInt_42 : toInt 42 = some 42 := by
  unfold toInt truncate
  norm_num

theorem toInt_3_9 : toInt (39 / 10) = some 3 := by
  unfold toInt truncate
  rw [if_pos (by norm_num), if_pos (by norm_num)]
  congr 1
  rw [Int.floor_eq_iff]
  norm_num

/-- Whatever the parser, the entry and the caller's callback, the callback
`ShowIntOverlay` installs is the caller's callback itself. -/
theorem ShowIntOverlay_installs (stod : String → Option ℚ) (entry : IntEntry)
    (callback : Option Callback) :
    (ShowIntOverlay stod entry callback).inputAcceptedCallback = callback :=
  rfl

/-- Whatever the parser, the entry and the caller's callback, the callback
`ShowDoubleOverlay` installs is its `handler`. -/
theorem ShowDoubleOverlay_installs (stod : String → Option ℚ) (entry : DoubleEntry)
    (callback : Option Callback) :
    (ShowDoubleOverlay stod entry callback).inputAcceptedCallback =
      some (ShowDoubleOverlay.handler stod entry.name callback) :=
  rfl

/-- C21 fails on the code.  The dialog of `ShowDoubleOverlay` for the setting
`volume`, on the accepted input `"42"`, stores 42 and then runs the caller's
code; the lambda `handler` of `ShowIntOverlay` would store `(int) stod(v)`, 42
for `"42"` and 3 for `"3.9"`, and then run the caller's code.  But the dialog of
`ShowIntOverlay` holds the caller's callback instead of `handler`: on `"42"` it
runs the caller's code and stores nothing, and when the caller gave no callback
it holds an empty function. -/
theorem C21_ShowIntOverlay_installs_caller_callback :
    call (ShowDoubleOverlay sampleStod sampleDoubleEntry (some sampleCallback)).inputAcceptedCallback
      "42" = some [Effect.SetDouble "volume" 42, Effect.CallerCode "42"] ∧
    ShowIntOverlay.handler sampleStod "volume" (some sampleCallback) "42" =
      some [Effect.SetInt "volume" 42, Effect.CallerCode "42"] ∧
    ShowIntOverlay.handler sampleStod "volume" (some sampleCallback) "3.9" =
      some [Effect.SetInt "volume" 3, Effect.CallerCode "3.9"] ∧
    call (ShowIntOverlay sampleStod sampleIntEntry (some sampleCallback)).inputAcceptedCallback
      "42" = some [Effect.CallerCode "42"] ∧
    call (ShowIntOverlay sampleStod sampleIntEntry none).inputAcceptedCallback "42" = none := by
  have s42 : sampleStod "42" = some 42 := by decide
  have s39 : sampleStod "3.9" = some (39 / 10) := by
    unfold sampleStod
    rw [if_neg (by decide), if_pos rfl]
  refine ⟨?_, ?_, ?_, ?_, ?_⟩
  · simp [call, ShowDoubleOverlay, ShowDoubleOverlay.handler, s42, callIfSet, sampleCallback,
      sampleDoubleEntry]
  · simp [ShowIntOverlay.handler, s42, toInt_42, callIfSet, sampleCallback]
  · simp [ShowIntOverlay.handler, s39, toInt_3_9, callIfSet, sampleCallback]
  · rfl
  · rfl

end SchemaOverlay

end cursespp
